import Mathlib

/-! # Byzantine generals with signed messages: a shallow embedding

The development follows the C++ sources `General.cpp`, `Commander.cpp`,
`Lieutenant.cpp`, `main.cpp` and `message_format.h`.

Conventions of the embedding.

* Machine integers are natural numbers; the `uint32_t` fields of the wire
  structures are stated to be below `2 ^ 32` where that matters.
* The `int` member `maxFailures` is an integer; the sums `maxFailures + 1` and
  `maxFailures + 2` are taken in the integers, and the theorems about them
  assume that they lie in the range of `int`.
* The host is little-endian (the x86 target of the sources): a `uint32_t`
  lies in memory low byte first and `htonl`/`ntohl` reverse its four bytes.
* The outside world (the clock, the sockets, OpenSSL) is an explicit
  parameter: a clocked loop runs over a finite trace with one entry for every
  iteration the clock allows, and also stops when a clock reading reaches its
  timeout.
* A C++ exception leaving a member function is the `Except.error` result; it
  carries the message and the object as it was when the exception was thrown.
* Fields `sentLog`, `signLog` and `ackLog` are ghost fields: they record the
  calls of `sendMessage`, `signMessage` and `sendAck` and influence nothing.
  So are `forwardLog`, the forwards that `handleMessage` has queued so far, and
  `roundLog`, the value of `round` at the start of every iteration of the loop
  of `receiveAndForward` that ran the forwarding and receive phases.
* A write to `sendQueue` at an index outside the array has no defined effect
  in C++; the embedding leaves the array as it is and records the index in the
  ghost field `oobWrites`.
-/

namespace Byzantine

/-! ## Constants of `General.h` -/

def ACK_TIMEOUT : Nat := 200000
def ROUND_TIMEOUT : Nat := 500000

def TYPE_SEND : Nat := 1
def TYPE_ACK : Nat := 2

def NOP_SEND_STATUS : Nat := 0
def SENT : Nat := 1
def NOT_SENT : Nat := 2
def ACKED : Nat := 3
def DO_NOT_SEND : Nat := 4

def RETREAT : Nat := 0
def ATTACK : Nat := 1
def NO_ORDER : Nat := 2

def INIT : Nat := 1
def WAITING : Nat := 2
def SIGNATURE_VERIFIED : Nat := 3
def VALUE_INCLUDED : Nat := 4
def VALUE_SELECTED : Nat := 5
def SIGNED : Nat := 6
def ALL_NOT_SENT : Nat := 7
def ALL_SENT : Nat := 8
def ALL_ACKS_RECEIVED : Nat := 9
def ALL_ACKS_NOT_RECEIVED : Nat := 10
def SENDING : Nat := 11
def ACK_RECEIVED : Nat := 12
def MSG_RECEIVED : Nat := 13
def ACK_VERIFIED : Nat := 14
def DONE : Nat := 15

def SIG_SIZE : Nat := 256

/-! ## Message formats (`message_format.h`) -/

/-- The record `struct sig`: the signer's identifier and the signature bytes. -/
structure Sig where
  id : Nat
  signature : List Nat
  deriving DecidableEq, Repr

/-- The record `SignedMessage`. Field `sigs` is the flexible array member: the
signature records that lie in memory behind the three header words. -/
structure SignedMessage where
  type : Nat
  total_sigs : Nat
  order : Nat
  sigs : List Sig
  deriving DecidableEq, Repr

/-- The record `Ack`. -/
structure Ack where
  type : Nat
  round : Nat
  deriving DecidableEq, Repr

/-- The value of `sizeof(SignedMessage)`: three `uint32_t` words. -/
def sizeofSignedMessage : Nat := 12
/-- The value of `sizeof(struct sig)`: one word and 256 bytes. -/
def sizeofSig : Nat := 260
/-- The value of `sizeof(Ack)`: two words. -/
def sizeofAck : Nat := 8

/-! ## Byte order -/

/-- Reversal of the four bytes of a 32-bit word. -/
def bswap32 (x : Nat) : Nat :=
  (x % 256) * 16777216 + (x / 256 % 256) * 65536 + (x / 65536 % 256) * 256
    + (x / 16777216 % 256)

/-- The libc function `htonl` on a little-endian host. -/
def htonl (x : Nat) : Nat := bswap32 x
/-- The libc function `ntohl` on a little-endian host. -/
def ntohl (x : Nat) : Nat := bswap32 x

/-- The loop `for(i = 0; i < numSigs; i++) sigs[i].id = conv(sigs[i].id)`. -/
def convertIds (conv : Nat → Nat) : Nat → List Sig → List Sig
  | 0, sigs => sigs
  | _ + 1, [] => []
  | n + 1, s :: rest => { s with id := conv s.id } :: convertIds conv n rest

/-- The member `General::hton_sm`: the count is read from the header before
the header is converted. -/
def hton_sm (msg : SignedMessage) : SignedMessage :=
  let numSigs := msg.total_sigs
  { type := htonl msg.type
    total_sigs := htonl msg.total_sigs
    order := htonl msg.order
    sigs := convertIds htonl numSigs msg.sigs }

/-- The member `General::ntoh_sm`: the count is inferred from the number of
bytes received. -/
def ntoh_sm (msg : SignedMessage) (numBytesReceived : Nat) : SignedMessage :=
  let numSigs := (numBytesReceived - sizeofSignedMessage) / sizeofSig
  { type := ntohl msg.type
    total_sigs := ntohl msg.total_sigs
    order := ntohl msg.order
    sigs := convertIds ntohl numSigs msg.sigs }

/-- The member `General::hton_ack`. -/
def hton_ack (msg : Ack) : Ack :=
  { type := htonl msg.type, round := htonl msg.round }

/-- The member `General::ntoh_ack`. -/
def ntoh_ack (msg : Ack) : Ack :=
  { type := ntohl msg.type, round := ntohl msg.round }

/-! ## Memory layout: the casts between byte buffers and the wire records -/

/-- The four bytes of a `uint32_t` in memory, low byte first. -/
def storeU32 (x : Nat) : List Nat :=
  [x % 256, x / 256 % 256, x / 65536 % 256, x / 16777216 % 256]

/-- The `uint32_t` that lies at the start of a byte sequence (a missing byte
reads as 0). -/
def loadU32 (b : List Nat) : Nat :=
  b.getD 0 0 + 256 * b.getD 1 0 + 65536 * b.getD 2 0 + 16777216 * b.getD 3 0

/-- The bytes of one `struct sig` in memory. -/
def sigBytes (s : Sig) : List Nat := storeU32 s.id ++ s.signature

/-- The bytes of `n` signature records starting at `sigs`. -/
def sigsBytes (sigs : List Sig) : List Nat := sigs.flatMap sigBytes

/-- The bytes of a `SignedMessage` in memory, header first. -/
def messageBytes (m : SignedMessage) : List Nat :=
  storeU32 m.type ++ storeU32 m.total_sigs ++ storeU32 m.order ++ sigsBytes m.sigs

/-- The first `n` complete signature records of a byte sequence. -/
def castSigs : Nat → List Nat → List Sig
  | 0, _ => []
  | n + 1, b =>
    if sizeofSig ≤ b.length then
      { id := loadU32 b, signature := (b.drop 4).take SIG_SIZE } :: castSigs n (b.drop sizeofSig)
    else []

/-- The cast `(SignedMessage *) buffer`: the header words and every complete
signature record of the buffer. -/
def castSignedMessage (buffer : List Nat) : SignedMessage :=
  { type := loadU32 buffer
    total_sigs := loadU32 (buffer.drop 4)
    order := loadU32 (buffer.drop 8)
    sigs := castSigs ((buffer.length - sizeofSignedMessage) / sizeofSig)
      (buffer.drop sizeofSignedMessage) }

/-- The cast `(Ack *) buffer`. -/
def castAck (buffer : List Nat) : Ack :=
  { type := loadU32 buffer, round := loadU32 (buffer.drop 4) }

/-- The bytes of an `Ack` in memory. -/
def ackBytes (a : Ack) : List Nat := storeU32 a.type ++ storeU32 a.round

/-! ## The outside world -/

/-- The OpenSSL calls. `sign id data` is `EVP_SignFinal` over `data` with the
private key of general `id` (`none` when it does not return 1);
`verify id data signature` says whether `EVP_VerifyFinal` over `data` with the
certificate stored for `id` returns 1. -/
structure Crypto where
  sign : Nat → List Nat → Option (List Nat)
  verify : Nat → List Nat → List Nat → Bool

/-- What one call of `sendMessage` meets. -/
inductive SendOutcome where
  /-- The call `getaddrinfo` fails: `sendMessage` throws. -/
  | resolveFailed
  /-- No socket could be created. -/
  | noSocket
  /-- The call `sendto` returns -1. -/
  | sendtoFailed
  /-- The call `sendto` succeeds. -/
  | delivered
  deriving DecidableEq, Repr

/-- One call of `sendMessage`: the host index, the message, the length passed
to `sendto` and what the call met. -/
structure Transmission where
  generalK : Nat
  message : SignedMessage
  msgLen : Nat
  outcome : SendOutcome
  deriving DecidableEq, Repr

/-- One pass of a send loop: what each `sendMessage` call of the pass meets, by
host index, and the clock reading taken after the pass (microseconds since the
start of the round). -/
structure SendPass where
  outcome : Nat → SendOutcome
  diff : Nat

/-- A datagram as `recvfrom` leaves it: the whole receive buffer (the bytes
behind `numBytes` are whatever the freshly allocated buffer held), the return
value and the source address. -/
structure Datagram where
  buffer : List Nat
  numBytes : Nat
  src : Nat
  deriving DecidableEq, Repr

/-- One iteration of a receive loop: the datagram read (`none` when `recvfrom`
returns -1) and the clock reading taken afterwards (microseconds since the
loop started). -/
structure RecvAttempt where
  result : Option Datagram
  diff : Nat
  deriving DecidableEq, Repr

/-! ## The base class (`General.h`, `General.cpp`) -/

/-- The data members of `General` that the protocol uses, and the ghost logs. -/
structure General where
  myId : Nat
  sendQueue : List Nat
  round : Nat
  numGenerals : Nat
  maxFailures : Int
  numMsgsSent : Int
  state : Nat
  hostNames : List String
  ipToId : List (Nat × Nat)
  cryptoOff : Bool
  sentLog : List Transmission
  signLog : List (List Nat)
  oobWrites : List Nat

/-- The assignment `sendQueue[i] = v`. -/
def General.writeQueue (g : General) (i v : Nat) : General :=
  if i < g.sendQueue.length then { g with sendQueue := g.sendQueue.set i v }
  else { g with oobWrites := g.oobWrites ++ [i] }

/-- A member function that may throw: the error is the message with the object
at the time of the throw. -/
abbrev Throws (σ : Type) (α : Type) : Type := Except (String × σ) α

/-- The lookup `ipToId[addr]` of the `std::map`: 0 for an unknown address. -/
def lookupId (ipToId : List (Nat × Nat)) (addr : Nat) : Nat :=
  match ipToId.find? (fun e => e.1 == addr) with
  | some e => e.2
  | none => 0

/-- The member `General::signMessage`. -/
def General.signMessage (c : Crypto) (g : General) (data : List Nat) : Throws General (Sig × General) :=
  let g1 := { g with signLog := g.signLog ++ [data] }
  match c.sign g.myId data with
  | none => .error ("\nSigning failed.", g1)
  | some signature => .ok ({ id := g.myId, signature := signature }, { g1 with state := SIGNED })

/-- The member `General::sendMessage`. -/
def General.sendMessage (out : SendOutcome) (g : General) (message : SignedMessage)
    (generalK : Nat) : Throws General General :=
  let general := g.hostNames.getD generalK ""
  let msgLen := sizeofSignedMessage + sizeofSig * g.round
  let entry : Transmission :=
    { generalK := generalK, message := message, msgLen := msgLen, outcome := out }
  let g1 := { g with sentLog := g.sentLog ++ [entry] }
  match out with
  | .resolveFailed => .error (general ++ " :could not retrieve the address info.", g1)
  | .noSocket => .ok (g1.writeQueue generalK NOT_SENT)
  | .sendtoFailed => .ok (g1.writeQueue generalK NOT_SENT)
  | .delivered =>
    .ok { g1.writeQueue generalK SENT with numMsgsSent := g1.numMsgsSent + 1 }

/-- One of the three loops of `sendOrder` over the host indices `is`: host `i`
is sent to when `pick` accepts its status and `i + 1` is not `myId`. -/
def General.sendOrderLoop (pick : Nat → Bool) (out : Nat → SendOutcome) (message : SignedMessage) :
    List Nat → General → Throws General General
  | [], g => .ok g
  | i :: rest, g =>
    if pick (g.sendQueue.getD i 0) && (i + 1 != g.myId) then
      match g.sendMessage (out i) message i with
      | .error e => .error e
      | .ok g1 => General.sendOrderLoop pick out message rest g1
    else General.sendOrderLoop pick out message rest g

/-- The host indices `i = 1, ..., numGenerals - 1` of the loops of `sendOrder`. -/
def General.sendIndices (g : General) : List Nat := List.range' 1 (g.numGenerals - 1)

/-- The member `General::sendOrder`: a switch on the state. -/
def General.sendOrder (out : Nat → SendOutcome) (g : General) (message : SignedMessage) :
    Throws General General :=
  if g.state = SIGNED ∨ g.state = SENDING then
    General.sendOrderLoop (fun q => q != DO_NOT_SEND) out message g.sendIndices g
  else if g.state = ALL_NOT_SENT then
    General.sendOrderLoop (fun q => q == NOT_SENT) out message g.sendIndices g
  else if g.state = ALL_ACKS_NOT_RECEIVED then
    General.sendOrderLoop (fun q => q != ACKED && q != DO_NOT_SEND && q != NOP_SEND_STATUS)
      out message g.sendIndices g
  else .ok g

/-- The scan `for(i = 0; i < numGenerals; i++) if(sendQueue[i] == NOT_SENT)`
that follows a pass: the state becomes `ALL_NOT_SENT` when an entry is found. -/
def General.scanNotSent (g : General) : General :=
  if (g.sendQueue.take g.numGenerals).any (fun q => q == NOT_SENT) then
    { g with state := ALL_NOT_SENT }
  else g

/-- The record `GeneralInfo` that `bootstrap` hands to the constructors. -/
structure GeneralInfo where
  myId : Nat
  maxFailures : Int
  numGenerals : Nat
  cryptoOff : Bool
  hostNames : List String
  ipToId : List (Nat × Nat)

/-- The constructor `General::General` when the socket and the private key are
available: round 1, nothing sent, every send status `NOP_SEND_STATUS`. The
state is set by the derived constructor. -/
def General.init (info : GeneralInfo) (state : Nat) : General :=
  { myId := info.myId
    sendQueue := List.replicate info.numGenerals NOP_SEND_STATUS
    round := 1
    numGenerals := info.numGenerals
    maxFailures := info.maxFailures
    numMsgsSent := 0
    state := state
    hostNames := info.hostNames
    ipToId := info.ipToId
    cryptoOff := info.cryptoOff
    sentLog := []
    signLog := []
    oobWrites := [] }

/-! ## The commander (`Commander.cpp`) -/

/-- The message of the exception that `Commander::run` throws for an order
that is neither RETREAT nor ATTACK. -/
def invalidOrderMessage : String :=
  "\nInvalid order selected by commander. Should be either 0 or 1."

/-- The class `Commander`. -/
structure Commander extends General where
  order : Nat

/-- The constructor `Commander::Commander`. -/
def Commander.init (info : GeneralInfo) (order : Nat) : Commander :=
  { toGeneral := General.init info INIT, order := order }

/-- A result of the base class seen from the commander. -/
def Commander.lift {α : Type} (c : Commander) (r : Throws General α) : Throws Commander α :=
  match r with
  | .ok a => .ok a
  | .error (msg, g) => .error (msg, { c with toGeneral := g })

/-- The member `Commander::selectValue`. -/
def Commander.selectValue (c : Commander) : Commander :=
  if c.order = RETREAT ∨ c.order = ATTACK then { c with state := VALUE_SELECTED } else c

/-- One iteration of the loop of `waitForAck` that read a datagram into the
8-byte buffer: `buffer` is the buffer after `recvfrom`. Returns the buffer
after `ntoh_ack` converted it in place. -/
def Commander.handleAckBuffer (c : Commander) (buffer : List Nat) (src : Nat) :
    Commander × List Nat :=
  let ackData := ntoh_ack (castAck buffer)
  let c1 :=
    if ackData.type = TYPE_ACK ∧ ackData.round = c.round then
      let peerId := lookupId c.ipToId src
      { c with toGeneral :=
          ({ c.toGeneral with numMsgsSent := c.numMsgsSent - 1 } : General).writeQueue peerId ACKED }
    else c
  let c2 := if c1.numMsgsSent = 0 then { c1 with state := ALL_ACKS_RECEIVED } else c1
  (c2, ackBytes ackData)

/-- The loop of `Commander::waitForAck`. The buffer of `sizeof(Ack)` bytes is
allocated once and reused: a datagram overwrites its first `numBytes` bytes (at
most 8). -/
def Commander.waitLoop : List RecvAttempt → Nat → List Nat → Commander → Commander
  | [], _, _, c => c
  | a :: rest, diff, buffer, c =>
    if c.state ≠ ALL_ACKS_RECEIVED ∧ diff < ACK_TIMEOUT then
      match a.result with
      | none => Commander.waitLoop rest a.diff buffer c
      | some d =>
        let n := min d.numBytes sizeofAck
        let r := c.handleAckBuffer ((d.buffer.take n ++ buffer.drop n).take sizeofAck) d.src
        Commander.waitLoop rest a.diff r.2 r.1
    else c

/-- The member `Commander::waitForAck`; `junk` is the content of the fresh
buffer. -/
def Commander.waitForAck (attempts : List RecvAttempt) (junk : List Nat) (c : Commander) :
    Commander :=
  let c1 := Commander.waitLoop attempts 0 junk c
  if c1.numMsgsSent > 0 then { c1 with state := ALL_ACKS_NOT_RECEIVED } else c1

/-- One iteration of the second loop of `Commander::send`: the receive attempts
of `waitForAck`, the fresh buffer, the pass of `sendOrder` and the clock
reading. -/
structure AckWait where
  attempts : List RecvAttempt
  junk : List Nat
  outcome : Nat → SendOutcome
  diff : Nat

/-- What `Commander::send` meets: the passes of its first loop and the
iterations of its second loop. -/
structure CommanderEnv where
  passes : List SendPass
  waits : List AckWait

/-- The first loop of `Commander::send`: send until `ALL_SENT` or the round is
over. The clock is read only after a pass that left a peer `NOT_SENT`. -/
def Commander.sendLoop (message : SignedMessage) :
    List SendPass → Nat → Commander → Throws Commander (Commander × Nat)
  | [], diff, c => .ok (c, diff)
  | p :: ps, diff, c =>
    if c.state ≠ ALL_SENT ∧ diff < ROUND_TIMEOUT then
      match c.lift (c.toGeneral.sendOrder p.outcome message) with
      | .error e => .error e
      | .ok g =>
        let g1 := g.scanNotSent
        if g1.state = ALL_NOT_SENT then
          Commander.sendLoop message ps p.diff { c with toGeneral := g1 }
        else
          Commander.sendLoop message ps diff { c with toGeneral := { g1 with state := ALL_SENT } }
    else .ok (c, diff)

/-- The second loop of `Commander::send`: wait for ACKs and send again to the
peers that have not acknowledged. -/
def Commander.ackLoop (message : SignedMessage) :
    List AckWait → Nat → Commander → Throws Commander Commander
  | [], _, c => .ok c
  | w :: ws, diff, c =>
    if c.state ≠ ALL_ACKS_RECEIVED ∧ diff < ROUND_TIMEOUT then
      let c1 := c.waitForAck w.attempts w.junk
      match c1.lift (c1.toGeneral.sendOrder w.outcome message) with
      | .error e => .error e
      | .ok g => Commander.ackLoop message ws w.diff { c1 with toGeneral := g }
    else .ok c

/-- The member `Commander::send`. The order is signed as the four bytes it
occupies in memory. -/
def Commander.send (cr : Crypto) (env : CommanderEnv) (c : Commander) : Throws Commander Commander :=
  match c.lift (c.toGeneral.signMessage cr (storeU32 c.order)) with
  | .error e => .error e
  | .ok (sign, g) =>
    let c1 : Commander := { c with toGeneral := g }
    if c1.state = SIGNED then
      let message := hton_sm
        { type := TYPE_SEND, total_sigs := c1.round, order := c1.order, sigs := [sign] }
      match Commander.sendLoop message env.passes 0 c1 with
      | .error e => .error e
      | .ok (c2, diff) => Commander.ackLoop message env.waits diff c2
    else .ok c1

/-- The member `Commander::run`: the value returned and the commander at the
end. -/
def Commander.run (cr : Crypto) (env : CommanderEnv) (c : Commander) : Throws Commander (Nat × Commander) :=
  let c1 := c.selectValue
  if c1.state = VALUE_SELECTED then
    match c1.send cr env with
    | .error e => .error e
    | .ok c2 => .ok (c2.order, c2)
  else .error (invalidOrderMessage, c1)

/-! ## The lieutenant (`Lieutenant.cpp`) -/

/-- The class `Lieutenant`. Member `values` is the `std::set<int>`, kept as its
increasing sequence of elements; the certificates `idToCert` are part of
`Crypto.verify`. -/
structure Lieutenant extends General where
  values : List Nat
  msgsToForward : List SignedMessage
  ackLog : List (Nat × Ack)
  forwardLog : List SignedMessage
  roundLog : List Nat

/-- The constructor `Lieutenant::Lieutenant`. -/
def Lieutenant.init (info : GeneralInfo) : Lieutenant :=
  { toGeneral := General.init info INIT, values := [], msgsToForward := [], ackLog := [],
    forwardLog := [], roundLog := [] }

/-- A result of the base class seen from the lieutenant. -/
def Lieutenant.lift {α : Type} (l : Lieutenant) (r : Throws General α) : Throws Lieutenant α :=
  match r with
  | .ok a => .ok a
  | .error (msg, g) => .error (msg, { l with toGeneral := g })

/-- The operation `std::set<int>::insert` on the increasing sequence. -/
def setInsert (x : Nat) : List Nat → List Nat
  | [] => [x]
  | y :: ys =>
    if x < y then x :: y :: ys
    else if x = y then y :: ys
    else y :: setInsert x ys

/-- The member `Lieutenant::isValueInSet`. -/
def Lieutenant.isValueInSet (l : Lieutenant) (order : Nat) : Bool :=
  l.values.any (fun v => v == order)

/-- The member `Lieutenant::decide`. -/
def Lieutenant.decide (l : Lieutenant) : Nat :=
  if l.values.isEmpty ∨ 2 ≤ l.values.length then RETREAT
  else l.values.headD RETREAT

/-- The member `Lieutenant::sendAck`: an `Ack` for the current round goes to
the source address. Its retry loop touches no data member and is left out. -/
def Lieutenant.sendAck (l : Lieutenant) (peerAddress : Nat) : Lieutenant :=
  { l with ackLog := l.ackLog ++ [(peerAddress, hton_ack { type := TYPE_ACK, round := l.round })] }

instance : Inhabited Sig := ⟨{ id := 0, signature := List.replicate SIG_SIZE 0 }⟩

/-- The index `signs[i].id - 1` in 32-bit unsigned arithmetic. -/
def idIndex (id : Nat) : Nat := (id + 4294967295) % 4294967296

/-- The data that signature `i` of a chain signs: the four bytes of the order
for `i = 0`, the signature bytes of record `i - 1` otherwise. -/
def signedData (order : Nat) (sigs : List Sig) (i : Nat) : List Nat :=
  if i = 0 then storeU32 order else (sigs.getD (i - 1) default).signature

/-- The call of `EVP_VerifyFinal` for record `i` in `verifySignatures`: whether
the verifier accepts record `i` as its signer's signature of the data. -/
def verifiesAt (cr : Crypto) (order : Nat) (sigs : List Sig) (i : Nat) : Bool :=
  cr.verify (sigs.getD i default).id (signedData order sigs i) (sigs.getD i default).signature

/-- The loop of `verifySignatures`, `i` running from `k - 1` down to 0: the
lieutenant after the loop, and whether every signature verified (an early
`return` otherwise). -/
def Lieutenant.verifyLoop (cr : Crypto) (order : Nat) (signs : List Sig) :
    Nat → Lieutenant → Lieutenant × Bool
  | 0, l => (l, true)
  | i + 1, l =>
    if verifiesAt cr order signs i then
      Lieutenant.verifyLoop cr order signs i
        { l with toGeneral :=
            l.toGeneral.writeQueue (idIndex (signs.getD i default).id) DO_NOT_SEND }
    else (l, false)

/-- The member `Lieutenant::verifySignatures`. -/
def Lieutenant.verifySignatures (cr : Crypto) (l : Lieutenant) (order : Nat) (totalSigns : Nat)
    (signs : List Sig) : Lieutenant :=
  if l.cryptoOff = false then
    if (Lieutenant.verifyLoop cr order signs totalSigns l).2 = true then
      { (Lieutenant.verifyLoop cr order signs totalSigns l).1 with state := SIGNATURE_VERIFIED }
    else (Lieutenant.verifyLoop cr order signs totalSigns l).1
  else { l with state := SIGNATURE_VERIFIED }

/-- The first `n` records of a signature array as `memcpy` reads them (a record
behind the end of the memory modelled reads as zero). -/
def readSigs (sigs : List Sig) (n : Nat) : List Sig :=
  (List.range n).map (fun i => sigs.getD i default)

/-- The member `Lieutenant::constructMessage`: the message in network byte
order and the lieutenant after `signMessage`. -/
def Lieutenant.constructMessage (cr : Crypto) (l : Lieutenant) (msgReceived : SignedMessage) :
    Throws Lieutenant (SignedMessage × Lieutenant) :=
  match l.lift (l.toGeneral.signMessage cr (msgReceived.sigs.getD (l.round - 1) default).signature) with
  | .error e => .error e
  | .ok (sign, g) =>
    let l1 : Lieutenant := { l with toGeneral := g }
    let message : SignedMessage :=
      { type := TYPE_SEND
        total_sigs := l1.round + 1
        order := msgReceived.order
        sigs := readSigs msgReceived.sigs l1.round ++ [sign] }
    .ok (hton_sm message, l1)

/-- The block of `handleMessage` that includes a new verified order: catch up
if lagging behind, insert the order, construct and queue the forward. -/
def Lieutenant.includeValue (cr : Crypto) (l1 : Lieutenant) (msgReceived : SignedMessage) :
    Throws Lieutenant Lieutenant :=
  let l2 : Lieutenant :=
    if msgReceived.total_sigs > l1.round then { l1 with round := l1.round + 1 } else l1
  let l3 : Lieutenant :=
    { l2 with values := setInsert msgReceived.order l2.values, state := VALUE_INCLUDED }
  match l3.constructMessage cr msgReceived with
  | .error e => .error e
  | .ok (message, l4) =>
    .ok { l4 with msgsToForward := l4.msgsToForward ++ [message],
                  forwardLog := l4.forwardLog ++ [message] }

/-- The member `Lieutenant::handleMessage`. -/
def Lieutenant.handleMessage (cr : Crypto) (l : Lieutenant) (msgReceived : SignedMessage)
    (peerAddress : Nat) (numBytesReceived : Nat) : Throws Lieutenant Lieutenant :=
  let l0 := l.sendAck peerAddress
  if msgReceived.type = TYPE_SEND ∧ (msgReceived.order = RETREAT ∨ msgReceived.order = ATTACK) then
    let numSignatures := (numBytesReceived - sizeofSignedMessage) / sizeofSig
    if numSignatures = msgReceived.total_sigs then
      let l1 := l0.verifySignatures cr msgReceived.order numSignatures msgReceived.sigs
      if l1.state = SIGNATURE_VERIFIED ∧ l1.isValueInSet msgReceived.order = false then
        l1.includeValue cr msgReceived
      else .ok l1
    else .ok l0
  else .ok l0

/-- The member `Lieutenant::handleAck`. -/
def Lieutenant.handleAck (l : Lieutenant) (ackData : Ack) (peerAddress : Nat) : Lieutenant :=
  if ackData.type = TYPE_ACK ∧ ackData.round = l.round then
    let peerId := lookupId l.ipToId peerAddress
    { l with toGeneral := { l.toGeneral.writeQueue peerId ACKED with state := ACK_VERIFIED } }
  else l

/-- The body of the loop of `receiveMessage` for a datagram that was read. -/
def Lieutenant.receiveOne (cr : Crypto) (l : Lieutenant) (d : Datagram) : Throws Lieutenant Lieutenant :=
  let finish := fun (x : Lieutenant) =>
    if x.numMsgsSent = 0 then { x with state := ALL_ACKS_RECEIVED } else x
  if d.numBytes = sizeofAck then
    let l1 : Lieutenant := { l with state := ACK_RECEIVED }
    let l2 := l1.handleAck (ntoh_ack (castAck d.buffer)) d.src
    let l3 : Lieutenant :=
      if l2.state = ACK_VERIFIED then { l2 with numMsgsSent := l2.numMsgsSent - 1 } else l2
    .ok (finish l3)
  else if sizeofSignedMessage + sizeofSig ≤ d.numBytes then
    let l1 : Lieutenant := { l with state := MSG_RECEIVED }
    match l1.handleMessage cr (ntoh_sm (castSignedMessage d.buffer) d.numBytes) d.src d.numBytes with
    | .error e => .error e
    | .ok l2 => .ok (finish l2)
  else .ok (finish l)

/-- The loop of `Lieutenant::receiveMessage`, bounded by `ACK_TIMEOUT`. -/
def Lieutenant.receiveLoop (cr : Crypto) :
    List RecvAttempt → Nat → Lieutenant → Throws Lieutenant Lieutenant
  | [], _, l => .ok l
  | a :: rest, diff, l =>
    if diff < ACK_TIMEOUT then
      match a.result with
      | none => Lieutenant.receiveLoop cr rest a.diff l
      | some d =>
        match l.receiveOne cr d with
        | .error e => .error e
        | .ok l1 => Lieutenant.receiveLoop cr rest a.diff l1
    else .ok l

/-- The member `Lieutenant::receiveMessage`. -/
def Lieutenant.receiveMessage (cr : Crypto) (attempts : List RecvAttempt) (l : Lieutenant) :
    Throws Lieutenant Lieutenant :=
  match Lieutenant.receiveLoop cr attempts 0 l with
  | .error e => .error e
  | .ok l1 => .ok (if l1.numMsgsSent > 0 then { l1 with state := ALL_ACKS_NOT_RECEIVED } else l1)

/-- The inner loop of `forwardMessages` for one queued message: returns the
lieutenant, the last clock reading and the passes not used. -/
def Lieutenant.forwardOne (message : SignedMessage) :
    List SendPass → Nat → Lieutenant → Throws Lieutenant (Lieutenant × Nat × List SendPass)
  | [], diff, l => .ok (l, diff, [])
  | p :: ps, diff, l =>
    if l.state ≠ ALL_SENT ∧ diff < ROUND_TIMEOUT then
      match l.lift (l.toGeneral.sendOrder p.outcome message) with
      | .error e => .error e
      | .ok g =>
        let g1 := g.scanNotSent
        if g1.state = ALL_NOT_SENT then
          Lieutenant.forwardOne message ps p.diff { l with toGeneral := g1 }
        else
          Lieutenant.forwardOne message ps p.diff { l with toGeneral := { g1 with state := ALL_SENT } }
    else .ok (l, diff, p :: ps)

/-- The outer loop of `forwardMessages` over the queued messages. -/
def Lieutenant.forwardLoop :
    List SignedMessage → List SendPass → Nat → Lieutenant → Throws Lieutenant (Lieutenant × Nat)
  | [], _, diff, l => .ok (l, diff)
  | m :: ms, passes, diff, l =>
    if diff < ROUND_TIMEOUT then
      match Lieutenant.forwardOne m passes diff l with
      | .error e => .error e
      | .ok (l1, diff1, rest) => Lieutenant.forwardLoop ms rest diff1 l1
    else .ok (l, diff)

/-- The member `Lieutenant::forwardMessages`: the lieutenant afterwards and the
value returned. -/
def Lieutenant.forwardMessages (passes : List SendPass) (l : Lieutenant) :
    Throws Lieutenant (Lieutenant × Nat) :=
  Lieutenant.forwardLoop l.msgsToForward passes 0 l

/-- The call `memset(sendQueue, NOP_SEND_STATUS, numGenerals)`: it clears the
first `numGenerals` bytes of the array of 4-byte entries, that is the low
`numGenerals - 4 * j` bytes of entry `j`. -/
def memsetQueue (numGenerals : Nat) (sendQueue : List Nat) : List Nat :=
  (List.range sendQueue.length).map (fun j =>
      let q := sendQueue.getD j 0
      if 4 * j + 4 ≤ numGenerals then 0
      else if 4 * j < numGenerals then q / 256 ^ (numGenerals - 4 * j) * 256 ^ (numGenerals - 4 * j)
      else q)

/-- One iteration of the receive loop of a round: the attempts of
`receiveMessage`, the passes of `forwardMessages` (used when ACKs are missing)
and the clock reading (used otherwise). -/
structure RecvIter where
  attempts : List RecvAttempt
  passes : List SendPass
  diff : Nat

/-- What one iteration of the loop of `receiveAndForward` meets. -/
structure RoundEnv where
  passes : List SendPass
  iters : List RecvIter

/-- The loop `while(diff < ROUND_TIMEOUT)` of `receiveAndForward`. -/
def Lieutenant.roundLoop (cr : Crypto) :
    List RecvIter → Nat → Lieutenant → Throws Lieutenant Lieutenant
  | [], _, l => .ok l
  | it :: its, diff, l =>
    if diff < ROUND_TIMEOUT then
      match Lieutenant.receiveMessage cr it.attempts { l with state := WAITING } with
      | .error e => .error e
      | .ok l1 =>
        if l1.state = ALL_ACKS_NOT_RECEIVED then
          match l1.forwardMessages it.passes with
          | .error e => .error e
          | .ok (l2, diff2) => Lieutenant.roundLoop cr its diff2 l2
        else Lieutenant.roundLoop cr its it.diff l1
    else .ok l

/-- The end of an iteration of `receiveAndForward`: the queue is cleared when
the round is above 1, and the round advances. -/
def Lieutenant.endRound (l : Lieutenant) : Lieutenant :=
  let l1 : Lieutenant := if l.round > 1 then { l with msgsToForward := [] } else l
  { l1 with round := l1.round + 1 }

/-- The start of the forwarding phase of a round above 1: the send statuses and
the message counter are reset and the state becomes `SENDING`. -/
def Lieutenant.beginForwarding (l : Lieutenant) : Lieutenant :=
  { l with sendQueue := memsetQueue l.numGenerals l.sendQueue, numMsgsSent := 0, state := SENDING }

/-- The forwarding phase (in a round above 1) and the receive phase of one
iteration of the loop of `receiveAndForward`: what lies between the test of the
round and the clearing of the queue. -/
def Lieutenant.roundPhases (cr : Crypto) (r : RoundEnv) (l : Lieutenant) :
    Throws Lieutenant Lieutenant :=
  if l.round > 1 then
    match l.beginForwarding.forwardMessages r.passes with
    | .error e => .error e
    | .ok (l2, diff) => Lieutenant.roundLoop cr r.iters diff l2
  else Lieutenant.roundLoop cr r.iters 0 l

/-- The member `Lieutenant::receiveAndForward`, one `RoundEnv` for each
iteration of its loop; `none` when the trace ends before the loop does. In a
round above `maxFailures + 1` the iteration only sets `DONE`. -/
def Lieutenant.receiveAndForward (cr : Crypto) :
    List RoundEnv → Lieutenant → Option (Throws Lieutenant Lieutenant)
  | [], l => if l.state ≠ DONE then none else some (.ok l)
  | r :: rs, l =>
    if l.state ≠ DONE then
      if l.round > 1 ∧ ¬ ((l.round : Int) ≤ l.maxFailures + 1) then
        Lieutenant.receiveAndForward cr rs { l with state := DONE }
      else
        match Lieutenant.roundPhases cr r { l with roundLog := l.roundLog ++ [l.round] } with
        | .error e => some (.error e)
        | .ok l3 => Lieutenant.receiveAndForward cr rs l3.endRound
    else some (.ok l)

/-- The member `Lieutenant::run`: the decision returned and the lieutenant at
the end. -/
def Lieutenant.run (cr : Crypto) (rounds : List RoundEnv) (l : Lieutenant) :
    Option (Throws Lieutenant (Nat × Lieutenant)) :=
  match Lieutenant.receiveAndForward cr rounds l with
  | none => none
  | some (.error e) => some (.error e)
  | some (.ok l1) => some (.ok (if l1.state = DONE then l1.decide else RETREAT, l1))

/-! ## The role dispatcher (`bootstrap` of `main.cpp`) -/

/-- The general that `bootstrap` constructs. -/
inductive Role where
  | commander (c : Commander)
  | lieutenant (l : Lieutenant)

/-- What `bootstrap` meets: the lines of the hostfile (`none` when it cannot be
opened), the name that `gethostname` returns, the address that `gethostbyname`
finds for a name, and whether the constructor of the general completes (a
socket and the private key are available). -/
structure BootEnv where
  hostFile : Option (List String)
  myHostName : String
  resolve : String → Option Nat
  constructs : Bool

/-- The assignment `ipToId[addr] = id` of the `std::map`. -/
def mapSet (ipToId : List (Nat × Nat)) (addr id : Nat) : List (Nat × Nat) :=
  (addr, id) :: ipToId.filter (fun e => e.1 != addr)

/-- The local variables that the loop over the hostfile builds. -/
structure HostTable where
  numGenerals : Nat
  hostNames : List String
  ipToId : List (Nat × Nat)
  myId : Nat

/-- The loop of `bootstrap` over the lines of the hostfile: an empty line is
skipped, every other line is the next general. -/
def readHosts (env : BootEnv) : List String → HostTable → HostTable
  | [], t => t
  | hostName :: rest, t =>
    if hostName ≠ "" then
      let n := t.numGenerals + 1
      let ipToId := match env.resolve hostName with
        | some addr => mapSet t.ipToId addr n
        | none => t.ipToId
      let myId := if env.myHostName = hostName then n else t.myId
      readHosts env rest
        { numGenerals := n, hostNames := t.hostNames ++ [hostName], ipToId := ipToId, myId := myId }
    else readHosts env rest t

/-- The host table after the hostfile has been read. -/
def hostTable (env : BootEnv) : HostTable :=
  readHosts env (env.hostFile.getD [])
    { numGenerals := 0, hostNames := [], ipToId := [], myId := 0 }

/-- The function `bootstrap`: the general constructed (`none` for the null
pointer) and the value left in `*myId`. -/
def bootstrap (env : BootEnv) (maxFailures : Int) (cryptoOff : Bool) (order : Nat) :
    Option Role × Nat :=
  let t := hostTable env
  if (t.numGenerals : Int) < maxFailures + 2 then (none, t.myId)
  else if t.myId > 0 then
    let generaInfo : GeneralInfo :=
      { myId := t.myId, maxFailures := maxFailures, numGenerals := t.numGenerals,
        cryptoOff := cryptoOff, hostNames := t.hostNames, ipToId := t.ipToId }
    if env.constructs then
      if order = ATTACK ∨ order = RETREAT then
        (some (Role.commander (Commander.init generaInfo order)), t.myId)
      else (some (Role.lieutenant (Lieutenant.init generaInfo)), t.myId)
    else (none, t.myId)
  else (none, t.myId)

/-! ## Notions used to state the properties of the codec -/

/-- A 32-bit unsigned value. -/
def isU32 (x : Nat) : Prop := x < 4294967296

instance (x : Nat) : Decidable (isU32 x) := by unfold isU32; infer_instance

/-- Structural validity of a `SignedMessage`: at least one signature, as many
signature records as `total_sigs` says, and every word a `uint32_t`. -/
def SignedMessage.structurallyValid (m : SignedMessage) : Prop :=
  1 ≤ m.total_sigs ∧ m.total_sigs = m.sigs.length ∧ isU32 m.type ∧ isU32 m.total_sigs
    ∧ isU32 m.order ∧ ∀ s ∈ m.sigs, isU32 s.id

/-- Decoding as `receiveMessage` does it: the cast of the buffer, then
`ntoh_sm` with the number of bytes received. -/
def decodeDatagram (d : Datagram) : SignedMessage :=
  ntoh_sm (castSignedMessage d.buffer) d.numBytes

/-- Encoding as the senders do it: `hton_sm`, then the `12 + 260 * total_sigs`
bytes that the message occupies in memory. -/
def encodeMessage (m : SignedMessage) : List Nat :=
  (messageBytes (hton_sm m)).take (sizeofSignedMessage + sizeofSig * m.total_sigs)

/-- The bytes of a datagram: the first `numBytes` bytes of the buffer. -/
def Datagram.bytes (d : Datagram) : List Nat := d.buffer.take d.numBytes

/-- The tests that `receiveMessage` and `handleMessage` make before a datagram
is treated as a signed message: the size, the type, the order and the
signature count. -/
def Datagram.acceptedAsSignedMessage (d : Datagram) : Prop :=
  sizeofSignedMessage + sizeofSig ≤ d.numBytes
    ∧ (decodeDatagram d).type = TYPE_SEND
    ∧ ((decodeDatagram d).order = RETREAT ∨ (decodeDatagram d).order = ATTACK)
    ∧ (d.numBytes - sizeofSignedMessage) / sizeofSig = (decodeDatagram d).total_sigs

/-- A datagram of 273 bytes: type 1, one signature, order 0, zero signature
record and one trailing byte. -/
def trailingByteDatagram : Datagram :=
  { buffer := [0, 0, 0, 1, 0, 0, 0, 1, 0, 0, 0, 0] ++ List.replicate 261 0
    numBytes := 273
    src := 0 }

/-- A message as the commander builds it: one signature record, order ATTACK. -/
def sampleMessage : SignedMessage :=
  { type := 1, total_sigs := 1, order := 1, sigs := [{ id := 1, signature := List.replicate 256 7 }] }

/-- An `Ack` for round 1. -/
def sampleAck : Ack := { type := 2, round := 1 }

/-- A datagram of 272 bytes: type 1, one signature, order 0 and one signature
record, without trailing bytes. -/
def exactDatagram : Datagram :=
  { buffer := [0, 0, 0, 1, 0, 0, 0, 1, 0, 0, 0, 0] ++ List.replicate 260 3
    numBytes := 272
    src := 0 }

/-! ## Notions used to state the properties of the lieutenant -/

/-- The chain test in the words of the specification: for `i = k - 1` down to
1, `sigs[i]` is a valid signature by `sigs[i].id` of `sigs[i-1].signature`, and
`sigs[0]` is a valid signature by `sigs[0].id` of the four bytes of the order. -/
def chainVerifies (cr : Crypto) (order : Nat) (sigs : List Sig) (k : Nat) : Prop :=
  (∀ i, 1 ≤ i → i < k →
      cr.verify (sigs.getD i default).id (sigs.getD (i - 1) default).signature
        (sigs.getD i default).signature = true)
    ∧ cr.verify (sigs.getD 0 default).id (storeU32 order) (sigs.getD 0 default).signature = true

/-- The acceptance rule of the specification for a decoded message `m` of
`n` bytes at lieutenant `l`. -/
def acceptanceRule (cr : Crypto) (l : Lieutenant) (m : SignedMessage) (n : Nat) : Prop :=
  m.type = 1 ∧ (m.order = 0 ∨ m.order = 1) ∧ (n - 12) / 260 = m.total_sigs
    ∧ (chainVerifies cr m.order m.sigs m.total_sigs ∨ l.cryptoOff = true)
    ∧ m.order ∉ l.values

/-- A toy signature scheme for concrete runs: the signature of `data` by
general `id` is 256 copies of a non-zero byte computed from `id` and `data`. -/
def toySign (id : Nat) (data : List Nat) : List Nat :=
  List.replicate SIG_SIZE (1 + (data.foldl (fun acc b => (31 * acc + b + 7) % 251) 0 + 13 * id) % 255)

/-- The toy scheme as seen by a general that holds the certificates of the
generals `certs`: signing never fails, and a signature verifies when the
signer's certificate is held and the bytes are the signer's signature. -/
def toyCrypto (certs : List Nat) : Crypto :=
  { sign := fun id data => some (toySign id data)
    verify := fun id data signature => certs.contains id && (signature == toySign id data) }

/-! ## A concrete system of four generals for closed evaluations -/

/-- The host names of the hostfile of the concrete system. -/
def demoHosts : List String := ["general1", "general2", "general3", "general4"]

/-- The address of general `id` in the concrete system is `100 + id`. -/
def demoIpToId : List (Nat × Nat) := [(101, 1), (102, 2), (103, 3), (104, 4)]

/-- The configuration of general `myId` when `maxFailures` failures are
tolerated: four generals, signatures checked. -/
def demoInfo (myId : Nat) (maxFailures : Int) : GeneralInfo :=
  { myId := myId, maxFailures := maxFailures, numGenerals := 4, cryptoOff := false,
    hostNames := demoHosts, ipToId := demoIpToId }

/-- The toy scheme at general `myId`: `loadCertificates` stores the certificate
of every general but its own. -/
def demoCrypto (myId : Nat) : Crypto := toyCrypto ([1, 2, 3, 4].filter (fun id => id != myId))

/-- The length of the receive buffer of `receiveMessage`. -/
def bufferLen (numGenerals : Nat) : Nat := sizeofSignedMessage + sizeofSig * numGenerals

/-- A datagram as `recvfrom` leaves it in a zero-filled receive buffer of a
lieutenant among `numGenerals` generals. -/
def received (numGenerals : Nat) (bytes : List Nat) (src : Nat) : Datagram :=
  { buffer := (bytes ++ List.replicate (bufferLen numGenerals) 0).take (bufferLen numGenerals)
    numBytes := min bytes.length (bufferLen numGenerals)
    src := src }

/-- The bytes that `sendto` puts on the wire for a call of `sendMessage`: the
`msgLen` bytes at the message (bytes behind the allocation read as 0). -/
def Transmission.wire (t : Transmission) : List Nat :=
  (messageBytes t.message ++ List.replicate t.msgLen 0).take t.msgLen

/-- The recipients and the bytes of the calls of `sendMessage` that reached
`sendto`. -/
def wires (log : List Transmission) : List (Nat × List Nat) :=
  (log.filter (fun t => t.outcome == .delivered || t.outcome == .sendtoFailed)).map
    (fun t => (t.generalK + 1, t.wire))

/-- A pass in which every `sendto` succeeds. -/
def cleanPass (diff : Nat) : SendPass := { outcome := fun _ => .delivered, diff := diff }

/-- The message that the commander (general 1) builds in `Commander::send` for
an order: one signature record, in network byte order. -/
def signedOrder (order : Nat) : SignedMessage :=
  hton_sm { type := TYPE_SEND, total_sigs := 1, order := order,
            sigs := [{ id := 1, signature := toySign 1 (storeU32 order) }] }

/-- The forward that lieutenant `id` builds in round 1 from the commander's
message for an order. -/
def forwardOf (id : Nat) (order : Nat) : SignedMessage :=
  hton_sm { type := TYPE_SEND, total_sigs := 2, order := order,
            sigs := [{ id := 1, signature := toySign 1 (storeU32 order) },
                     { id := id, signature := toySign id (toySign 1 (storeU32 order)) }] }

/-- The bytes of an `Ack` for a round on the wire. -/
def ackWire (round : Nat) : List Nat := ackBytes (hton_ack { type := TYPE_ACK, round := round })

/-- The decision that a run of a lieutenant returned. -/
def decisionOf (r : Option (Throws Lieutenant (Nat × Lieutenant))) : Option Nat :=
  match r with
  | some (.ok (decision, _)) => some decision
  | _ => none

/-- The lieutenant at the end of a run. -/
def finalOf (r : Option (Throws Lieutenant (Nat × Lieutenant))) : Option Lieutenant :=
  match r with
  | some (.ok (_, l)) => some l
  | _ => none

/-- The value set at the end of a run. -/
def valuesOf (r : Option (Throws Lieutenant (Nat × Lieutenant))) : Option (List Nat) :=
  (finalOf r).map (fun l => l.values)

/-- The datagrams that a lieutenant sent during a run. -/
def wiresOf (r : Option (Throws Lieutenant (Nat × Lieutenant))) : Option (List (Nat × List Nat)) :=
  (finalOf r).map (fun l => wires l.sentLog)

/-- The acknowledgements that a lieutenant sent during a run: the address and
the round. -/
def acksOf (r : Option (Throws Lieutenant (Nat × Lieutenant))) : Option (List (Nat × Nat)) :=
  (finalOf r).map (fun l => l.ackLog.map (fun a => (a.1, (ntoh_ack a.2).round)))

/-- The indices outside `sendQueue` that a run wrote to. -/
def oobOf (r : Option (Throws Lieutenant (Nat × Lieutenant))) : Option (List Nat) :=
  (finalOf r).map (fun l => l.oobWrites)

/-- A datagram from address `src` that `recvfrom` returns at clock reading
`diff`, in the receive buffer of a lieutenant among four generals. -/
def arrive (bytes : List Nat) (src diff : Nat) : RecvAttempt :=
  { result := some (received 4 bytes src), diff := diff }

/-- A call of `recvfrom` that returns -1 at clock reading `diff`. -/
def nothing (diff : Nat) : RecvAttempt := { result := none, diff := diff }

/-- Round 1 of a lieutenant: the commander's messages for the given orders
arrive at the given times (microseconds after the blocking receive started);
the round is over when the last one has been handled. -/
def firstRound (arrivals : List (Nat × Nat)) : RoundEnv :=
  { passes := []
    iters := [{ attempts := arrivals.map (fun a => arrive (messageBytes (signedOrder a.1)) 101 a.2)
                passes := []
                diff := ROUND_TIMEOUT + 20000 }] }

/-- An iteration of the receive loop of a round in which nothing arrives; the
clock reads `diff` afterwards, also after the pass that follows when ACKs are
missing. -/
def quietIter (diff : Nat) : RecvIter :=
  { attempts := [nothing ACK_TIMEOUT], passes := [cleanPass diff], diff := diff }

/-- Round 2 of a lieutenant: one clean forwarding pass, then the forward of
ATTACK from lieutenant `peer` and its acknowledgement arrive, and nothing else
until the round is over. -/
def secondRound (peer : Nat) : RoundEnv :=
  { passes := [cleanPass 1000]
    iters := [{ attempts := [arrive (messageBytes (forwardOf peer ATTACK)) (100 + peer) 10000,
                             arrive (ackWire 2) (100 + peer) 20000, nothing ACK_TIMEOUT]
                passes := [cleanPass 201000]
                diff := 201000 },
              quietIter 402000, quietIter 603000] }

/-- A round in which nothing arrives. -/
def quietRound : RoundEnv :=
  { passes := [cleanPass 1000], iters := [quietIter 201000, quietIter 402000, quietIter 603000] }

/-- The last iteration of `receiveAndForward`, which only sets `DONE`. -/
def lastRound : RoundEnv := { passes := [], iters := [] }

/-! ### Scenario: a faulty commander sends both orders to one lieutenant

Two failures are tolerated. The commander (general 1) is faulty: it signs
ATTACK and RETREAT and, in round 1, delivers ATTACK and then RETREAT to
lieutenant 2 and ATTACK alone to lieutenant 3. General 4 is faulty and silent.
Lieutenants 2 and 3 are honest; every datagram and every `Ack` that they send
to each other is delivered in its round. -/

/-- The run of lieutenant 2, which received ATTACK and then RETREAT. -/
def splitRun2 : Option (Throws Lieutenant (Nat × Lieutenant)) :=
  Lieutenant.run (demoCrypto 2)
    [firstRound [(ATTACK, 100000), (RETREAT, 520000)], secondRound 3, quietRound, lastRound]
    (Lieutenant.init (demoInfo 2 2))

/-- The run of lieutenant 3, which received ATTACK. -/
def splitRun3 : Option (Throws Lieutenant (Nat × Lieutenant)) :=
  Lieutenant.run (demoCrypto 3)
    [firstRound [(ATTACK, 520000)], secondRound 2, quietRound, lastRound]
    (Lieutenant.init (demoInfo 3 2))

/-! ### Scenario: an honest commander and a lieutenant that signs an order

One failure is tolerated. The commander (general 1) is honest and orders
ATTACK. General 4 is a faulty lieutenant: it sends lieutenant 2 a message for
RETREAT with one signature, its own, and nothing else. Lieutenants 2 and 3 are
honest. -/

/-- What the honest commander meets: a clean pass, the acknowledgements of
lieutenants 2 and 3, a clean pass to the peers recorded as not acknowledged,
and the end of the round. -/
def honestCommanderEnv : CommanderEnv :=
  { passes := [cleanPass 1000]
    waits := [{ attempts := [arrive (ackWire 1) 102 10000, arrive (ackWire 1) 103 20000,
                             nothing ACK_TIMEOUT]
                junk := List.replicate 8 0
                outcome := fun _ => .delivered
                diff := ROUND_TIMEOUT + 20000 }] }

/-- The run of the honest commander. -/
def honestCommanderRun : Throws Commander (Nat × Commander) :=
  Commander.run (demoCrypto 1) honestCommanderEnv (Commander.init (demoInfo 1 1) ATTACK)

/-- The value that a run of the commander returned, the datagrams it sent and
the indices outside `sendQueue` it wrote to. -/
def commanderOutcome (r : Throws Commander (Nat × Commander)) :
    Option (Nat × List (Nat × List Nat) × List Nat) :=
  match r with
  | .ok (order, c) => some (order, wires c.sentLog, c.oobWrites)
  | .error _ => none

/-- The message of the faulty general 4: order RETREAT with one signature
record, made with the key of general 4. -/
def forgedOrder : SignedMessage :=
  hton_sm { type := TYPE_SEND, total_sigs := 1, order := RETREAT,
            sigs := [{ id := 4, signature := toySign 4 (storeU32 RETREAT) }] }

/-- The run of the honest lieutenant 2: in round 1 the commander's ATTACK, the
message of general 4 and the commander's ATTACK again arrive; in round 2 it
forwards to lieutenant 3 and receives the forward and the acknowledgement of
lieutenant 3. -/
def forgedRun2 : Option (Throws Lieutenant (Nat × Lieutenant)) :=
  Lieutenant.run (demoCrypto 2)
    [{ passes := []
       iters := [{ attempts := [arrive (messageBytes (signedOrder ATTACK)) 101 100000,
                                arrive (messageBytes forgedOrder) 104 150000,
                                arrive (messageBytes (signedOrder ATTACK)) 101 520000]
                   passes := []
                   diff := 521000 }] },
     secondRound 3, lastRound]
    (Lieutenant.init (demoInfo 2 1))

/-! ### Scenario: a retry after the round was advanced by a received message

Lieutenant 2 accepts the commander's ATTACK in round 1 and forwards it in round
2. Then a message for RETREAT arrives that carries three signatures of general
1; no acknowledgement arrives and the forward is sent again. -/

/-- A message for RETREAT with a chain of three signatures of general 1. -/
def tripleSigned : SignedMessage :=
  hton_sm { type := TYPE_SEND, total_sigs := 3, order := RETREAT,
            sigs := [{ id := 1, signature := toySign 1 (storeU32 RETREAT) },
                     { id := 1, signature := toySign 1 (toySign 1 (storeU32 RETREAT)) },
                     { id := 1, signature := toySign 1 (toySign 1 (toySign 1 (storeU32 RETREAT))) }] }

/-- The run of lieutenant 2 in this scenario. -/
def retryRun2 : Option (Throws Lieutenant (Nat × Lieutenant)) :=
  Lieutenant.run (demoCrypto 2)
    [firstRound [(ATTACK, 520000)],
     { passes := [cleanPass 1000]
       iters := [{ attempts := [arrive (messageBytes tripleSigned) 101 10000, nothing ACK_TIMEOUT]
                   passes := [cleanPass 510000]
                   diff := 510000 }] },
     lastRound]
    (Lieutenant.init (demoInfo 2 1))

/-- The calls of `sendMessage` of a run: the recipient, the length passed to
`sendto` and the signature count in the header of the message sent. -/
def lengthsOf (r : Option (Throws Lieutenant (Nat × Lieutenant))) :
    Option (List (Nat × Nat × Nat)) :=
  (finalOf r).map (fun l =>
    l.sentLog.map (fun t => (t.generalK + 1, t.msgLen, ntohl t.message.total_sigs)))

/-! ### Scenario: a message with fewer signatures than the round

Lieutenant 2 has accepted ATTACK in round 1 and is in round 2 when the
commander's message for RETREAT, with its single signature, arrives. -/

/-- Lieutenant 2 in round 2, holding ATTACK, as `receiveMessage` hands it to
`handleMessage`. -/
def lateLieutenant : Lieutenant :=
  { Lieutenant.init (demoInfo 2 1) with round := 2, values := [ATTACK], state := MSG_RECEIVED }

/-- The commander's message for RETREAT in the receive buffer of lieutenant 2. -/
def lateDatagram : Datagram := received 4 (messageBytes (signedOrder RETREAT)) 101

/-- The forwards queued by a call of `handleMessage`, in host byte order. -/
def queuedForwards (r : Throws Lieutenant Lieutenant) : Option (List SignedMessage) :=
  match r with
  | .ok l => some (l.msgsToForward.map (fun m => ntoh_sm m (sizeofSignedMessage + sizeofSig * ntohl m.total_sigs)))
  | .error _ => none

/-! ## Notions used to state the properties of the commander -/

/-- No call of `getaddrinfo` fails during `Commander::send`. -/
def CommanderEnv.resolves (env : CommanderEnv) : Prop :=
  (∀ p ∈ env.passes, ∀ i, p.outcome i ≠ SendOutcome.resolveFailed)
    ∧ (∀ w ∈ env.waits, ∀ i, w.outcome i ≠ SendOutcome.resolveFailed)

/-- The message of the exception that `sendMessage` throws. -/
def isResolveError (msg : String) : Prop :=
  ∃ general : String, msg = general ++ " :could not retrieve the address info."

/-! ### Scenario: the commander is not the first host of the hostfile

General 2 of the four generals is started with an order and is the commander;
every `sendto` of its first pass succeeds and the round is over after it. -/

/-- The run of general 2 as commander with order ATTACK. -/
def secondHostCommanderRun : Throws Commander (Nat × Commander) :=
  Commander.run (demoCrypto 2) { passes := [cleanPass ROUND_TIMEOUT], waits := [] }
    (Commander.init (demoInfo 2 1) ATTACK)

/-- The generals to which a run of the commander called `sendMessage`, in the
order of the calls. -/
def recipientsOf (r : Throws Commander (Nat × Commander)) : Option (List Nat) :=
  match r with
  | .ok (_, c) => some (c.sentLog.map (fun t => t.generalK + 1))
  | .error _ => none

/-! ### Further notions for the closed evaluations -/

/-- The lieutenant that a call returned, or the lieutenant at the throw. -/
def stateOf (r : Throws Lieutenant Lieutenant) : Lieutenant :=
  match r with
  | .ok l => l
  | .error e => e.2

/-- The orders of the queued forwards, in host byte order. -/
def queuedOrders (l : Lieutenant) : List Nat := l.msgsToForward.map (fun m => ntohl m.order)

/-- The generals for which `sendMessage` was called, in the order of the
calls. -/
def recipients (g : General) : List Nat := g.sentLog.map (fun t => t.generalK + 1)

/-- The signer ids of a message that is in network byte order. -/
def signersOf (m : SignedMessage) : List Nat := m.sigs.map (fun s => ntohl s.id)

/-- The message that general `id` builds in `Commander::send` for an order. -/
def orderSignedBy (id order : Nat) : SignedMessage :=
  hton_sm { type := TYPE_SEND, total_sigs := 1, order := order,
            sigs := [{ id := id, signature := toySign id (storeU32 order) }] }

/-! ### Scenario: the commander is the second host and its order is forwarded

General 2 is the honest commander and orders ATTACK; lieutenant 3 is honest. No
`Ack` arrives at lieutenant 3, so it sends the forward again. In the first
system there are five generals and signatures are checked; in the second there
are four generals and the check of signatures is turned off. -/

/-- The configuration of lieutenant 3 among five generals, one failure
tolerated, signatures checked. -/
def fiveInfo : GeneralInfo :=
  { myId := 3, maxFailures := 1, numGenerals := 5, cryptoOff := false,
    hostNames := ["general1", "general2", "general3", "general4", "general5"],
    ipToId := [(101, 1), (102, 2), (103, 3), (104, 4), (105, 5)] }

/-- The rounds of lieutenant 3: the commander's order arrives in round 1; in
round 2 the forward is sent, nothing arrives and the forward is sent again. -/
def echoRounds (numGenerals : Nat) : List RoundEnv :=
  [{ passes := []
     iters := [{ attempts := [{ result := some (received numGenerals
                                  (messageBytes (orderSignedBy 2 ATTACK)) 102),
                                diff := 520000 }]
                 passes := []
                 diff := 521000 }] },
   { passes := [cleanPass 1000]
     iters := [quietIter 201000, quietIter 402000, quietIter 603000] },
   lastRound]

/-- The run of lieutenant 3 among five generals, signatures checked. -/
def echoRunFive : Option (Throws Lieutenant (Nat × Lieutenant)) :=
  Lieutenant.run (toyCrypto [1, 2, 4, 5]) (echoRounds 5) (Lieutenant.init fiveInfo)

/-- The run of lieutenant 3 among four generals, the check of signatures
turned off. -/
def echoRunCryptoOff : Option (Throws Lieutenant (Nat × Lieutenant)) :=
  Lieutenant.run (demoCrypto 3) (echoRounds 4)
    (Lieutenant.init { demoInfo 3 1 with cryptoOff := true })

/-- The forwards that a run queued (signer ids of each) and the generals for
which it called `sendMessage`. -/
def echoOf (r : Option (Throws Lieutenant (Nat × Lieutenant))) :
    Option (List (List Nat) × List Nat × List Nat) :=
  (finalOf r).map (fun l => (l.forwardLog.map signersOf, recipients l.toGeneral, l.oobWrites))

/-! ### Scenario: two forwards in the queue at the start of round 2

Lieutenant 2 of the scenario with the faulty commander: after round 1 its queue
holds the forwards of ATTACK and of RETREAT. -/

/-- Lieutenant 2 at the top of the loop of `receiveAndForward` in round 2. -/
def twoQueued : Lieutenant :=
  (stateOf (Lieutenant.roundPhases (demoCrypto 2)
    (firstRound [(ATTACK, 100000), (RETREAT, 520000)]) (Lieutenant.init (demoInfo 2 2)))).endRound

/-- The forwarding phase of round 2 of lieutenant 2 when every `sendto`
succeeds at once: three passes are available. -/
def twoQueuedForwarded : Throws Lieutenant (Lieutenant × Nat) :=
  twoQueued.beginForwarding.forwardMessages [cleanPass 1000, cleanPass 2000, cleanPass 3000]

/-- The lieutenant, the send log (recipient and order of the message) and the
clock reading after a call of `forwardMessages`. -/
def forwardedOf (r : Throws Lieutenant (Lieutenant × Nat)) :
    Option (List (Nat × Nat) × Nat × Nat × List Nat) :=
  match r with
  | .ok (l, diff) =>
    some (l.sentLog.map (fun t => (t.generalK + 1, ntohl t.message.order)), diff, l.state,
      l.sendQueue)
  | .error _ => none

/-! ### Scenario: a new order arrives in round 2

Two failures are tolerated. The commander (general 1) and general 4 are faulty;
lieutenants 2 and 3 are honest. The commander delivers ATTACK to both
lieutenants in round 1. In round 2 general 4 sends lieutenant 3 the commander's
signed RETREAT with its own signature added. -/

/-- Round 2 of lieutenant 3: a clean forwarding pass, then the forward and the
`Ack` of lieutenant 2 and the message of general 4 arrive. -/
def lateOrderRound : RoundEnv :=
  { passes := [cleanPass 1000]
    iters := [{ attempts := [arrive (messageBytes (forwardOf 2 ATTACK)) 102 10000,
                             arrive (ackWire 2) 102 20000,
                             arrive (messageBytes (forwardOf 4 RETREAT)) 104 30000,
                             nothing ACK_TIMEOUT]
                passes := [cleanPass 201000]
                diff := 201000 },
              quietIter 402000, quietIter 603000] }

/-- Lieutenant 3 at the top of the loop in round 2. -/
def lateOrderTop : Lieutenant :=
  (stateOf (Lieutenant.roundPhases (demoCrypto 3) (firstRound [(ATTACK, 520000)])
    (Lieutenant.init (demoInfo 3 2)))).endRound

/-- Lieutenant 3 after the forwarding and receive phases of round 2, before the
queue is cleared. -/
def lateOrderReceived : Lieutenant :=
  stateOf (Lieutenant.roundPhases (demoCrypto 3) lateOrderRound lateOrderTop)

/-- The whole run of lieutenant 3. -/
def lateOrderRun : Option (Throws Lieutenant (Nat × Lieutenant)) :=
  Lieutenant.run (demoCrypto 3)
    [firstRound [(ATTACK, 520000)], lateOrderRound, quietRound, lastRound]
    (Lieutenant.init (demoInfo 3 2))

/-! ### Scenario: a message with two signatures more than the round

The fresh lieutenant 2, in round 1, is handed the message for RETREAT that
carries three signatures of general 1. -/

/-- The fresh lieutenant 2 as `receiveMessage` hands it to `handleMessage`. -/
def freshLieutenant : Lieutenant :=
  { Lieutenant.init (demoInfo 2 2) with state := MSG_RECEIVED }

/-- The datagram with three signatures in the receive buffer of lieutenant 2. -/
def tripleDatagram : Datagram := received 4 (messageBytes tripleSigned) 101

/-! ### Scenario: a chain whose first record does not verify

General 4 sends lieutenant 2 a message for RETREAT with two records: record 0
names general 1 and holds 256 zero bytes, record 1 is general 4's signature of
those bytes. -/

/-- The message of general 4. -/
def brokenChain : SignedMessage :=
  hton_sm { type := TYPE_SEND, total_sigs := 2, order := RETREAT,
            sigs := [{ id := 1, signature := List.replicate SIG_SIZE 0 },
                     { id := 4, signature := toySign 4 (List.replicate SIG_SIZE 0) }] }

/-- The datagram of general 4 in the receive buffer of lieutenant 2. -/
def brokenDatagram : Datagram := received 4 (messageBytes brokenChain) 104

/-! ### Scenario: an `Ack` from a peer that was sent to

Lieutenant 2 of the scenario with two queued forwards has sent the first of
them to generals 3 and 4 when the `Ack` of general 3 for round 2 arrives. The
commander of the concrete system has sent its order to generals 2, 3 and 4 when
the `Ack` of general 2 for round 1 arrives. -/

/-- Lieutenant 2 after the forwarding phase of round 2. -/
def sentLieutenant : Lieutenant :=
  match twoQueuedForwarded with
  | .ok (l, _) => l
  | .error e => e.2

/-- The datagram `Ack` of general 3 for round 2. -/
def ackFromThree : Datagram := received 4 (ackWire 2) 103

/-- The commander (general 1) after `signMessage`, with its message for
ATTACK. -/
def signedCommander : Commander :=
  { Commander.init (demoInfo 1 1) ATTACK with state := SIGNED }

/-- The commander after a first pass in which every `sendto` succeeds. -/
def sentCommander : Commander :=
  match Commander.sendLoop (signedOrder ATTACK) [cleanPass 1000] 0 signedCommander with
  | .ok (c, _) => c
  | .error e => e.2

/-- The commander after `waitForAck` read the `Ack` of general 2 for round 1. -/
def ackedCommander : Commander :=
  sentCommander.waitForAck [arrive (ackWire 1) 102 10000, nothing ACK_TIMEOUT]
    (List.replicate 8 0)

/-! ### Scenario: a send fails once and succeeds when it is tried again

In the first pass one `sendto` fails and the others succeed; in every later
pass every `sendto` succeeds. For the commander (general 1) the failing send is
the one to general 3, for lieutenant 3 it is the one to general 4. -/

/-- A pass in which the `sendto` to host index `k` fails. -/
def failingPass (k diff : Nat) : SendPass :=
  { outcome := fun i => if i = k then .sendtoFailed else .delivered, diff := diff }

/-- The commander, the clock reading and the generals sent to after the first
loop of `Commander::send` ran over the given passes. -/
def commanderPasses (passes : List SendPass) : Option (Nat × List Nat × Nat × List Nat) :=
  match Commander.sendLoop (signedOrder ATTACK) passes 0 signedCommander with
  | .ok (c, diff) => some (c.state, c.sendQueue, diff, recipients c.toGeneral)
  | .error _ => none

/-- The same for `forwardMessages` of lieutenant 3 at the start of round 2, its
queue holding the forward of ATTACK. -/
def lieutenantPasses (passes : List SendPass) : Option (Nat × List Nat × Nat × List Nat) :=
  match lateOrderTop.beginForwarding.forwardMessages passes with
  | .ok (l, diff) => some (l.state, l.sendQueue, diff, recipients l.toGeneral)
  | .error _ => none

/-! ### Scenario: three hosts and one failure tolerated

The hostfile names three generals, the process runs on the second of them, one
failure is to be tolerated and no order is given. -/

/-- What `bootstrap` meets in this scenario. -/
def threeHosts : BootEnv :=
  { hostFile := some ["general1", "general2", "general3", ""]
    myHostName := "general2"
    resolve := fun h =>
      if h = "general1" then some 101 else if h = "general2" then some 102
      else if h = "general3" then some 103 else none
    constructs := true }

/-- The non-empty lines of the hostfile (none when it cannot be opened): the
generals of the system, in the order of their ids. -/
def hostLines (env : BootEnv) : List String :=
  (env.hostFile.getD []).filter (fun h => h ≠ "")

/-- Whether `bootstrap` returned a lieutenant, and the configuration it was
constructed with: `myId`, `numGenerals`, `maxFailures`. -/
def lieutenantOf (r : Option Role × Nat) : Option (Nat × Nat × Int) :=
  match r.1 with
  | some (Role.lieutenant l) => some (l.myId, l.numGenerals, l.maxFailures)
  | _ => none

/-! ### Notions used to state the invariants of a run of the lieutenant -/

/-- Every call of `EVP_SignFinal` succeeds. -/
def Crypto.signs (cr : Crypto) : Prop := ∀ id data, (cr.sign id data).isSome = true

/-- No call of `getaddrinfo` fails during a pass. -/
def SendPass.resolves (p : SendPass) : Prop := ∀ i, p.outcome i ≠ SendOutcome.resolveFailed

/-- No call of `getaddrinfo` fails during an iteration of `receiveAndForward`. -/
def RoundEnv.resolves (r : RoundEnv) : Prop :=
  (∀ p ∈ r.passes, p.resolves) ∧ ∀ it ∈ r.iters, ∀ p ∈ it.passes, p.resolves

/-- How a call that may throw ends: `R` holds of the object afterwards (at the
return or at the throw), and there is no throw when `ok` holds. -/
def Throws.ends {σ α : Type} (ok : Prop) (R : σ → Prop) (st : α → σ) (r : Throws σ α) : Prop :=
  match r with
  | .ok a => R (st a)
  | .error e => R e.2 ∧ ¬ ok

/-- The members of `General` that only the loop of `receiveAndForward` and
`handleMessage` change. -/
def General.book (g : General) : Nat × Int := (g.round, g.maxFailures)

/-- The members of `Lieutenant` that only the loop of `receiveAndForward` and
`handleMessage` change, with the ghost logs of the rounds and of the forwards. -/
def Lieutenant.book (l : Lieutenant) :
    List Nat × List SignedMessage × List SignedMessage × List Nat × Nat × Int :=
  (l.values, l.msgsToForward, l.forwardLog, l.roundLog, l.round, l.maxFailures)

/-- The orders (in host byte order) of all forwards that the lieutenant has
queued so far. -/
def forwardedOrders (l : Lieutenant) : List Nat := l.forwardLog.map (fun m => ntohl m.order)

/-- The invariant of the forward queue: no two forwards queued so far carry the
same order, the order of each is in `values`, and the queue holds some of them,
in the order in which they were queued. -/
def Lieutenant.queueInv (l : Lieutenant) : Prop :=
  (forwardedOrders l).Nodup ∧ (∀ o ∈ forwardedOrders l, o ∈ l.values)
    ∧ l.msgsToForward.Sublist l.forwardLog

/-- What the phases of a round do to the round counter, the log of the rounds
and the forward queue. -/
def Lieutenant.evolves (l l1 : Lieutenant) : Prop :=
  l1.roundLog = l.roundLog ∧ l1.maxFailures = l.maxFailures ∧ l.round ≤ l1.round
    ∧ (l.queueInv → l1.queueInv)

/-- The invariant of the loop of `receiveAndForward` when `f` failures are to
be tolerated: every round logged so far is at most `f + 1`, at most `f + 1`
rounds are logged, and the round counter is above their number. -/
def Lieutenant.roundInv (f : Nat) (l : Lieutenant) : Prop :=
  l.maxFailures = f ∧ l.roundLog.length + 1 ≤ l.round ∧ l.roundLog.length ≤ f + 1
    ∧ ∀ x ∈ l.roundLog, x ≤ f + 1

/-- The rounds a run went through: at most `f + 1` of them, each at most
`f + 1`. -/
def Lieutenant.roundsBounded (f : Nat) (l : Lieutenant) : Prop :=
  l.roundLog.length ≤ f + 1 ∧ ∀ x ∈ l.roundLog, x ≤ f + 1

/-! ### Scenario: every lieutenant acknowledges

The fully honest system of four generals, one failure tolerated: the commander
(general 1) orders ATTACK and lieutenants 2, 3 and 4 acknowledge it in round 1;
lieutenant 2 forwards the order in round 2 and lieutenants 3 and 4 acknowledge
the forward. -/

/-- What the commander meets: a clean pass and the acknowledgements of
lieutenants 2, 3 and 4 for round 1. -/
def allAckCommanderEnv : CommanderEnv :=
  { passes := [cleanPass 1000]
    waits := [{ attempts := [arrive (ackWire 1) 102 10000, arrive (ackWire 1) 103 20000,
                             arrive (ackWire 1) 104 30000, nothing ACK_TIMEOUT]
                junk := List.replicate 8 0
                outcome := fun _ => .delivered
                diff := ROUND_TIMEOUT + 20000 }] }

/-- The run of the commander. -/
def allAckCommanderRun : Throws Commander (Nat × Commander) :=
  Commander.run (demoCrypto 1) allAckCommanderEnv (Commander.init (demoInfo 1 1) ATTACK)

/-- The run of lieutenant 2: the commander's order arrives in round 1; in round
2 the forward goes to lieutenants 3 and 4 and their acknowledgements arrive. -/
def allAckLieutenantRun : Option (Throws Lieutenant (Nat × Lieutenant)) :=
  Lieutenant.run (demoCrypto 2)
    [firstRound [(ATTACK, 520000)],
     { passes := [cleanPass 1000]
       iters := [{ attempts := [arrive (ackWire 2) 103 10000, arrive (ackWire 2) 104 20000,
                                nothing ACK_TIMEOUT]
                   passes := [cleanPass 201000]
                   diff := 201000 },
                 quietIter 402000, quietIter 603000] },
     lastRound]
    (Lieutenant.init (demoInfo 2 1))

/-- The length of `sendQueue`, the ids that `ipToId` gives for the addresses of
generals 1 to 4 and for an address that is not in the hostfile, and the
indices outside `sendQueue` that were written to. -/
def indexReport (g : General) : Nat × List Nat × List Nat :=
  (g.sendQueue.length, [101, 102, 103, 104, 999].map (lookupId g.ipToId), g.oobWrites)

/-! ### Notions used to state the invariant of the value set -/

/-- Every element of `values` is RETREAT or ATTACK. -/
def Lieutenant.valuesInv (l : Lieutenant) : Prop := ∀ v ∈ l.values, v = RETREAT ∨ v = ATTACK

/-- What a phase does to `values`: every element stays, and a new element is
RETREAT or ATTACK. -/
def Lieutenant.grows (l l1 : Lieutenant) : Prop :=
  (∀ v ∈ l.values, v ∈ l1.values) ∧ ∀ v ∈ l1.values, v ∈ l.values ∨ v = RETREAT ∨ v = ATTACK

/-- The lieutenant at the end of a run, at the return or at the throw. -/
def lastOf (r : Throws Lieutenant (Nat × Lieutenant)) : Lieutenant :=
  match r with
  | .ok x => x.2
  | .error e => e.2

/-! ## Theorems -/

/-! ### Arithmetic of the byte order -/

theorem bswap32_digits (a b c d : Nat) (ha : a < 256) (hb : b < 256) (hc : c < 256)
    (hd : d < 256) :
    bswap32 (a + 256 * b + 65536 * c + 16777216 * d) = d + 256 * c + 65536 * b + 16777216 * a := by
  unfold bswap32
  omega

theorem digits_eq (x : Nat) (h : x < 4294967296) :
    x = x % 256 + 256 * (x / 256 % 256) + 65536 * (x / 65536 % 256)
      + 16777216 * (x / 16777216 % 256) := by
  omega

theorem bswap32_bswap32 (x : Nat) (h : isU32 x) : bswap32 (bswap32 x) = x := by
  unfold isU32 at h
  have hx := digits_eq x h
  have h1 : bswap32 x
      = x / 16777216 % 256 + 256 * (x / 65536 % 256) + 65536 * (x / 256 % 256)
        + 16777216 * (x % 256) := by
    unfold bswap32; omega
  rw [h1, bswap32_digits _ _ _ _ (Nat.mod_lt _ (by norm_num)) (Nat.mod_lt _ (by norm_num))
    (Nat.mod_lt _ (by norm_num)) (Nat.mod_lt _ (by norm_num))]
  omega

theorem ntohl_htonl (x : Nat) (h : isU32 x) : ntohl (htonl x) = x := bswap32_bswap32 x h

theorem htonl_ntohl (x : Nat) (h : isU32 x) : htonl (ntohl x) = x := bswap32_bswap32 x h

theorem convertIds_roundtrip (f g : Nat → Nat) (hfg : ∀ x, isU32 x → g (f x) = x) :
    ∀ (n : Nat) (sigs : List Sig), (∀ s ∈ sigs, isU32 s.id) →
      convertIds g n (convertIds f n sigs) = sigs
  | 0, sigs, _ => by simp [convertIds]
  | n + 1, [], _ => by simp [convertIds]
  | n + 1, s :: rest, h => by
    have hs : isU32 s.id := h s (List.mem_cons_self _ _)
    have hrest : ∀ t ∈ rest, isU32 t.id := fun t ht => h t (List.mem_cons_of_mem _ ht)
    simp [convertIds, hfg s.id hs, convertIds_roundtrip f g hfg n rest hrest]

/-! ### The decision rule -/

/-- C3. `Lieutenant::decide` returns RETREAT when the value set is empty, the
element `x` when the value set is `{x}`, and RETREAT when the value set has two
or more elements. -/
theorem decide_rule (l : Lieutenant) :
    ({ l with values := [] } : Lieutenant).decide = RETREAT
    ∧ (∀ x : Nat, ({ l with values := [x] } : Lieutenant).decide = x)
    ∧ (∀ (x y : Nat) (rest : List Nat),
        ({ l with values := x :: y :: rest } : Lieutenant).decide = RETREAT) := by
  refine ⟨?_, ?_, ?_⟩
  · simp [Lieutenant.decide]
  · intro x
    simp [Lieutenant.decide]
  · intro x y rest
    simp [Lieutenant.decide]

/-! ### The codec -/

theorem ntoh_hton_sm (m : SignedMessage) (hm : m.structurallyValid) :
    ntoh_sm (hton_sm m) (12 + 260 * m.total_sigs) = m := by
  obtain ⟨_, _, ht, hn, ho, hs⟩ := hm
  have hcount : (12 + 260 * m.total_sigs - sizeofSignedMessage) / sizeofSig = m.total_sigs := by
    simp only [sizeofSignedMessage, sizeofSig]
    omega
  cases m with
  | mk type total_sigs order sigs =>
    simp only [ntoh_sm, hton_sm] at *
    rw [hcount, ntohl_htonl _ ht, ntohl_htonl _ hn, ntohl_htonl _ ho,
      convertIds_roundtrip htonl ntohl ntohl_htonl total_sigs sigs hs]

/-- C6. For every structurally valid `SignedMessage` `m`, `ntoh_sm` applied to
`hton_sm m` with `numBytesReceived = 12 + 260 * total_sigs` gives back `m`
(type, count, order, every signer id and every signature), and for every `Ack`
`a` of 32-bit words `ntoh_ack (hton_ack a) = a`. -/
theorem decode_encode_roundtrip (m : SignedMessage) (hm : m.structurallyValid) (a : Ack)
    (hat : isU32 a.type) (har : isU32 a.round) :
    ntoh_sm (hton_sm m) (12 + 260 * m.total_sigs) = m ∧ ntoh_ack (hton_ack a) = a := by
  refine ⟨ntoh_hton_sm m hm, ?_⟩
  cases a with
  | mk type round =>
    simp only [ntoh_ack, hton_ack] at *
    rw [ntohl_htonl _ hat, ntohl_htonl _ har]

theorem sampleMessage_valid : sampleMessage.structurallyValid := by
  refine ⟨by decide, rfl, by decide, by decide, by decide, ?_⟩
  intro s hs
  rw [sampleMessage, List.mem_singleton] at hs
  subst hs
  decide

/-- Witness of C6: a message of the commander with one signature record, and an
`Ack` for round 1. -/
theorem decode_encode_roundtrip_witness :
    sampleMessage.structurallyValid
    ∧ ntoh_sm (hton_sm sampleMessage) (12 + 260 * sampleMessage.total_sigs) = sampleMessage
    ∧ ntoh_ack (hton_ack sampleAck) = sampleAck :=
  ⟨sampleMessage_valid,
   decode_encode_roundtrip sampleMessage sampleMessage_valid sampleAck (by decide) (by decide)⟩

/-! ### Bytes of the wire records -/

theorem getD_lt_256 (b : List Nat) (hb : ∀ x ∈ b, x < 256) (i : Nat) : b.getD i 0 < 256 := by
  by_cases h : i < b.length
  · rw [List.getD_eq_getElem _ _ h]
    exact hb _ (List.getElem_mem _)
  · rw [List.getD_eq_default _ _ (by omega)]
    decide

theorem loadU32_isU32 (b : List Nat) (hb : ∀ x ∈ b, x < 256) : isU32 (loadU32 b) := by
  have h0 := getD_lt_256 b hb 0
  have h1 := getD_lt_256 b hb 1
  have h2 := getD_lt_256 b hb 2
  have h3 := getD_lt_256 b hb 3
  unfold isU32 loadU32
  omega

theorem storeU32_loadU32 (b : List Nat) (hb : ∀ x ∈ b, x < 256) (hlen : 4 ≤ b.length) :
    storeU32 (loadU32 b) = b.take 4 := by
  match b, hlen with
  | b0 :: b1 :: b2 :: b3 :: rest, _ =>
    have h0 : b0 < 256 := hb b0 (by simp)
    have h1 : b1 < 256 := hb b1 (by simp)
    have h2 : b2 < 256 := hb b2 (by simp)
    have h3 : b3 < 256 := hb b3 (by simp)
    simp only [storeU32, loadU32, List.getD_cons_zero, List.getD_cons_succ, List.take_succ_cons,
      List.take_zero]
    congr 1
    · omega
    · congr 1
      · omega
      · congr 1
        · omega
        · congr 1
          omega

theorem bytes_drop (b : List Nat) (hb : ∀ x ∈ b, x < 256) (n : Nat) :
    ∀ x ∈ b.drop n, x < 256 :=
  fun x hx => hb x (List.mem_of_mem_drop hx)

theorem castSigs_ids (n : Nat) : ∀ (b : List Nat), (∀ x ∈ b, x < 256) →
    ∀ s ∈ castSigs n b, isU32 s.id := by
  induction n with
  | zero => intro b _ s hs; simp [castSigs] at hs
  | succ n ih =>
    intro b hb s hs
    unfold castSigs at hs
    split at hs
    · rcases List.mem_cons.mp hs with h | h
      · rw [h]; exact loadU32_isU32 b hb
      · exact ih _ (bytes_drop b hb _) s h
    · simp at hs

theorem sigsBytes_castSigs (n : Nat) : ∀ (b : List Nat), (∀ x ∈ b, x < 256) →
    sizeofSig * n ≤ b.length → sigsBytes (castSigs n b) = b.take (sizeofSig * n) := by
  induction n with
  | zero => intro b _ _; simp [castSigs, sigsBytes]
  | succ n ih =>
    intro b hb hlen
    have h260 : sizeofSig ≤ b.length := by simp only [sizeofSig] at *; omega
    have hrest : sizeofSig * n ≤ (b.drop sizeofSig).length := by
      simp only [List.length_drop, sizeofSig] at *; omega
    have ih1 := ih (b.drop sizeofSig) (bytes_drop b hb _) hrest
    unfold sigsBytes at ih1 ⊢
    unfold castSigs
    rw [if_pos h260, List.flatMap_cons, ih1]
    have hb4 : 4 ≤ b.length := by simp only [sizeofSig] at h260; omega
    simp only [sigBytes, storeU32_loadU32 b hb hb4, SIG_SIZE, sizeofSig]
    rw [show 260 * (n + 1) = 4 + (256 + 260 * n) by ring, List.take_add, List.take_add,
      List.drop_drop, List.append_assoc]

theorem header_bytes (b : List Nat) (hb : ∀ x ∈ b, x < 256) (hlen : 12 ≤ b.length) :
    storeU32 (loadU32 b) ++ storeU32 (loadU32 (b.drop 4)) ++ storeU32 (loadU32 (b.drop 8))
      = b.take 12 := by
  rw [storeU32_loadU32 b hb (by omega),
    storeU32_loadU32 (b.drop 4) (bytes_drop b hb 4) (by simp only [List.length_drop]; omega),
    storeU32_loadU32 (b.drop 8) (bytes_drop b hb 8) (by simp only [List.length_drop]; omega)]
  rw [show (12 : Nat) = 4 + (4 + 4) by rfl, List.take_add, List.take_add, List.drop_drop,
    List.append_assoc]

theorem messageBytes_hton_ntoh (d : Datagram) (hb : ∀ x ∈ d.buffer, x < 256)
    (hlen : 12 ≤ d.buffer.length)
    (hcount : (d.numBytes - sizeofSignedMessage) / sizeofSig = (decodeDatagram d).total_sigs) :
    messageBytes (hton_sm (decodeDatagram d))
      = d.buffer.take (12 + 260 * ((d.buffer.length - 12) / 260)) := by
  have hids := castSigs_ids ((d.buffer.length - sizeofSignedMessage) / sizeofSig)
    (d.buffer.drop sizeofSignedMessage) (bytes_drop _ hb _)
  have hK : sizeofSig * ((d.buffer.length - sizeofSignedMessage) / sizeofSig)
      ≤ (d.buffer.drop sizeofSignedMessage).length := by
    simp only [List.length_drop]
    exact Nat.mul_div_le _ _
  have hsig := sigsBytes_castSigs _ (d.buffer.drop sizeofSignedMessage) (bytes_drop _ hb _) hK
  have hconv := convertIds_roundtrip ntohl htonl htonl_ntohl
    ((d.numBytes - sizeofSignedMessage) / sizeofSig) _ hids
  unfold hton_sm messageBytes
  simp only [← hcount]
  simp only [decodeDatagram, ntoh_sm, castSignedMessage] at *
  rw [hconv, hsig, hcount, htonl_ntohl _ (loadU32_isU32 _ hb),
    htonl_ntohl _ (loadU32_isU32 _ (bytes_drop _ hb 4)),
    htonl_ntohl _ (loadU32_isU32 _ (bytes_drop _ hb 8)), header_bytes _ hb hlen]
  simp only [sizeofSignedMessage, sizeofSig]
  rw [List.take_add]

/-- C7 (as amended). For every datagram that the receive path accepts as a
signed message (at least 272 bytes, decoded type 1, order 0 or 1, and
`(n - 12) / 260` equal to `total_sigs`), encoding the decoded message gives the
first `12 + 260 * total_sigs` bytes of the datagram; it gives the datagram
itself exactly when `n = 12 + 260 * total_sigs`. -/
theorem encode_decode_leading_bytes (d : Datagram) (hb : ∀ x ∈ d.buffer, x < 256)
    (hlen : d.numBytes ≤ d.buffer.length) (hacc : d.acceptedAsSignedMessage) :
    encodeMessage (decodeDatagram d)
        = d.bytes.take (12 + 260 * (decodeDatagram d).total_sigs)
    ∧ (encodeMessage (decodeDatagram d) = d.bytes
        ↔ d.numBytes = 12 + 260 * (decodeDatagram d).total_sigs) := by
  obtain ⟨hsize, _, _, hcount⟩ := hacc
  simp only [sizeofSignedMessage, sizeofSig] at hsize
  have hm := messageBytes_hton_ntoh d hb (by omega) hcount
  simp only [sizeofSignedMessage, sizeofSig] at hcount
  have hk : 12 + 260 * (decodeDatagram d).total_sigs ≤ d.numBytes := by
    rw [← hcount]
    have := Nat.mul_div_le (d.numBytes - 12) 260
    omega
  have hkK : (decodeDatagram d).total_sigs ≤ (d.buffer.length - 12) / 260 := by
    rw [← hcount]
    exact Nat.div_le_div_right (by omega)
  have hfirst : encodeMessage (decodeDatagram d)
      = d.bytes.take (12 + 260 * (decodeDatagram d).total_sigs) := by
    unfold encodeMessage Datagram.bytes
    rw [hm, List.take_take, List.take_take]
    simp only [sizeofSignedMessage, sizeofSig]
    congr 1
    omega
  refine ⟨hfirst, ?_⟩
  have hlenb : d.bytes.length = d.numBytes := by
    unfold Datagram.bytes
    rw [List.length_take]
    omega
  constructor
  · intro h
    have h2 := congrArg List.length (hfirst.symm.trans h)
    rw [List.length_take, hlenb] at h2
    omega
  · intro h
    rw [hfirst, ← h, ← hlenb, List.take_length]

theorem bytes_append_replicate (h : List Nat) (n v : Nat) (hh : ∀ x ∈ h, x < 256)
    (hv : v < 256) : ∀ x ∈ h ++ List.replicate n v, x < 256 := by
  intro x hx
  rcases List.mem_append.mp hx with h1 | h1
  · exact hh x h1
  · rw [(List.mem_replicate.mp h1).2]
    exact hv

theorem exactDatagram_bytes : ∀ x ∈ exactDatagram.buffer, x < 256 :=
  bytes_append_replicate _ _ _ (by decide) (by decide)

set_option maxRecDepth 100000 in
theorem exactDatagram_accepted : exactDatagram.acceptedAsSignedMessage := by
  unfold Datagram.acceptedAsSignedMessage
  decide

set_option maxRecDepth 100000 in
/-- Witness of C7 (as amended): a datagram of 272 bytes for order RETREAT with
one signature record. -/
theorem encode_decode_leading_bytes_witness :
    exactDatagram.acceptedAsSignedMessage
    ∧ encodeMessage (decodeDatagram exactDatagram) = exactDatagram.bytes :=
  ⟨exactDatagram_accepted,
   (encode_decode_leading_bytes exactDatagram exactDatagram_bytes (by decide)
      exactDatagram_accepted).2.mpr (by decide)⟩

set_option maxRecDepth 100000 in
/-- C7 (counterexample to the claim as stated). The datagram of 273 bytes with
type 1, one signature, order 0 and one trailing byte passes every test of the
receive path, but encoding the decoded message gives 272 bytes: the trailing
byte is lost, so the datagram is not reproduced. -/
theorem encode_decode_trailing_byte :
    trailingByteDatagram.acceptedAsSignedMessage
    ∧ trailingByteDatagram.numBytes ≤ trailingByteDatagram.buffer.length
    ∧ trailingByteDatagram.bytes.length = 273
    ∧ (encodeMessage (decodeDatagram trailingByteDatagram)).length = 272
    ∧ encodeMessage (decodeDatagram trailingByteDatagram) ≠ trailingByteDatagram.bytes := by
  unfold Datagram.acceptedAsSignedMessage
  decide

/-! ### The acceptance rule of `handleMessage` -/

theorem writeQueue_fields (g : General) (i v : Nat) :
    (g.writeQueue i v).state = g.state ∧ (g.writeQueue i v).round = g.round
    ∧ (g.writeQueue i v).myId = g.myId ∧ (g.writeQueue i v).signLog = g.signLog
    ∧ (g.writeQueue i v).sentLog = g.sentLog ∧ (g.writeQueue i v).numMsgsSent = g.numMsgsSent
    ∧ (g.writeQueue i v).cryptoOff = g.cryptoOff
    ∧ (g.writeQueue i v).numGenerals = g.numGenerals
    ∧ (g.writeQueue i v).maxFailures = g.maxFailures := by
  unfold General.writeQueue
  split <;> exact ⟨rfl, rfl, rfl, rfl, rfl, rfl, rfl, rfl, rfl⟩

theorem verifyLoop_fields (cr : Crypto) (order : Nat) (signs : List Sig) :
    ∀ (k : Nat) (l : Lieutenant),
      (Lieutenant.verifyLoop cr order signs k l).1.values = l.values
      ∧ (Lieutenant.verifyLoop cr order signs k l).1.msgsToForward = l.msgsToForward
      ∧ (Lieutenant.verifyLoop cr order signs k l).1.state = l.state
      ∧ (Lieutenant.verifyLoop cr order signs k l).1.round = l.round
      ∧ (Lieutenant.verifyLoop cr order signs k l).1.myId = l.myId
      ∧ (Lieutenant.verifyLoop cr order signs k l).1.signLog = l.signLog
      ∧ (Lieutenant.verifyLoop cr order signs k l).1.sentLog = l.sentLog
      ∧ (Lieutenant.verifyLoop cr order signs k l).1.numMsgsSent = l.numMsgsSent
  | 0, l => by simp [Lieutenant.verifyLoop]
  | k + 1, l => by
    by_cases h : verifiesAt cr order signs k = true
    · rw [Lieutenant.verifyLoop, if_pos h]
      obtain ⟨h1, h2, h3, h4, h5, h6, h7, h8⟩ := verifyLoop_fields cr order signs k
        { l with toGeneral :=
            l.toGeneral.writeQueue (idIndex (signs.getD k default).id) DO_NOT_SEND }
      obtain ⟨w1, w2, w3, w4, w5, w6, _, _, _⟩ :=
        writeQueue_fields l.toGeneral (idIndex (signs.getD k default).id) DO_NOT_SEND
      exact ⟨h1, h2, h3.trans w1, h4.trans w2, h5.trans w3, h6.trans w4, h7.trans w5,
        h8.trans w6⟩
    · rw [Lieutenant.verifyLoop, if_neg h]
      exact ⟨rfl, rfl, rfl, rfl, rfl, rfl, rfl, rfl⟩

theorem verifyLoop_ok (cr : Crypto) (order : Nat) (signs : List Sig) :
    ∀ (k : Nat) (l : Lieutenant),
      (Lieutenant.verifyLoop cr order signs k l).2 = true
        ↔ ∀ i, i < k → verifiesAt cr order signs i = true
  | 0, l => by simp [Lieutenant.verifyLoop]
  | k + 1, l => by
    by_cases h : verifiesAt cr order signs k = true
    · rw [Lieutenant.verifyLoop, if_pos h, verifyLoop_ok cr order signs k _]
      constructor
      · intro hall i hi
        rcases Nat.lt_succ_iff_lt_or_eq.mp hi with h1 | h1
        · exact hall i h1
        · rw [h1]; exact h
      · intro hall i hi
        exact hall i (by omega)
    · rw [Lieutenant.verifyLoop, if_neg h]
      constructor
      · intro hf; exact absurd hf (by simp)
      · intro hall
        exact absurd (hall k (by omega)) h

theorem chainVerifies_iff (cr : Crypto) (order : Nat) (sigs : List Sig) (k : Nat) (hk : 1 ≤ k) :
    chainVerifies cr order sigs k ↔ ∀ i, i < k → verifiesAt cr order sigs i = true := by
  unfold chainVerifies verifiesAt signedData
  constructor
  · rintro ⟨h1, h0⟩ i hi
    by_cases hz : i = 0
    · subst hz; simpa using h0
    · simp only [hz, if_false]
      exact h1 i (by omega) hi
  · intro h
    refine ⟨?_, ?_⟩
    · intro i h1 hi
      have := h i hi
      have hz : i ≠ 0 := by omega
      simpa [hz] using this
    · simpa using h 0 (by omega)

theorem isValueInSet_iff (l : Lieutenant) (order : Nat) :
    l.isValueInSet order = true ↔ order ∈ l.values := by
  unfold Lieutenant.isValueInSet
  simp only [List.any_eq_true, beq_iff_eq]
  constructor
  · rintro ⟨v, hv, rfl⟩
    exact hv
  · intro h
    exact ⟨order, h, rfl⟩

theorem mem_setInsert (x : Nat) : ∀ (vs : List Nat) (y : Nat),
    y ∈ setInsert x vs ↔ y = x ∨ y ∈ vs
  | [], y => by simp [setInsert]
  | v :: vs, y => by
    unfold setInsert
    split
    · simp
    · split
      · rename_i h1 h2
        simp only [List.mem_cons, h2]
        tauto
      · simp only [List.mem_cons, mem_setInsert x vs y]
        tauto

theorem verifySignatures_fields (cr : Crypto) (l : Lieutenant) (order k : Nat) (signs : List Sig) :
    (l.verifySignatures cr order k signs).values = l.values
    ∧ (l.verifySignatures cr order k signs).msgsToForward = l.msgsToForward
    ∧ (l.verifySignatures cr order k signs).round = l.round
    ∧ (l.verifySignatures cr order k signs).myId = l.myId
    ∧ (l.verifySignatures cr order k signs).signLog = l.signLog
    ∧ (l.verifySignatures cr order k signs).sentLog = l.sentLog
    ∧ (l.verifySignatures cr order k signs).numMsgsSent = l.numMsgsSent := by
  obtain ⟨h1, h2, _, h4, h5, h6, h7, h8⟩ := verifyLoop_fields cr order signs k l
  unfold Lieutenant.verifySignatures
  by_cases hc : l.cryptoOff = false
  · rw [if_pos hc]
    by_cases hr : (Lieutenant.verifyLoop cr order signs k l).2 = true
    · rw [if_pos hr]
      exact ⟨h1, h2, h4, h5, h6, h7, h8⟩
    · rw [if_neg hr]
      exact ⟨h1, h2, h4, h5, h6, h7, h8⟩
  · rw [if_neg hc]
    exact ⟨rfl, rfl, rfl, rfl, rfl, rfl, rfl⟩

theorem verifySignatures_state (cr : Crypto) (l : Lieutenant) (order k : Nat) (signs : List Sig)
    (hst : l.state ≠ SIGNATURE_VERIFIED) :
    (l.verifySignatures cr order k signs).state = SIGNATURE_VERIFIED
      ↔ ((∀ i, i < k → verifiesAt cr order signs i = true) ∨ l.cryptoOff = true) := by
  have hf := (verifyLoop_fields cr order signs k l).2.2.1
  have hok := verifyLoop_ok cr order signs k l
  unfold Lieutenant.verifySignatures
  by_cases hc : l.cryptoOff = false
  · rw [if_pos hc]
    by_cases hr : (Lieutenant.verifyLoop cr order signs k l).2 = true
    · rw [if_pos hr]
      exact ⟨fun _ => Or.inl (hok.mp hr), fun _ => rfl⟩
    · rw [if_neg hr, hf]
      constructor
      · intro h; exact absurd h hst
      · rintro (h | h)
        · exact absurd (hok.mpr h) hr
        · rw [hc] at h; exact absurd h (by decide)
  · rw [if_neg hc]
    exact ⟨fun _ => Or.inr (by simpa using hc), fun _ => rfl⟩

theorem constructMessage_ok (cr : Crypto) (l : Lieutenant) (m : SignedMessage)
    (hsign : ∀ data, (cr.sign l.myId data).isSome = true) :
    ∃ fwd l1, l.constructMessage cr m = .ok (fwd, l1) ∧ l1.values = l.values
      ∧ l1.msgsToForward = l.msgsToForward ∧ l1.round = l.round := by
  obtain ⟨sg, hsg⟩ := Option.isSome_iff_exists.mp
    (hsign (m.sigs.getD (l.round - 1) default).signature)
  unfold Lieutenant.constructMessage General.signMessage Lieutenant.lift
  simp only [hsg]
  exact ⟨_, _, rfl, rfl, rfl, rfl⟩

/-- The branch of `receiveMessage` for a datagram of at least 272 bytes: the
state becomes `MSG_RECEIVED` and `handleMessage` gets the decoded buffer. -/
theorem receiveOne_signed (cr : Crypto) (l : Lieutenant) (d : Datagram) (hn : 272 ≤ d.numBytes) :
    l.receiveOne cr d
      = match Lieutenant.handleMessage cr { l with state := MSG_RECEIVED } (decodeDatagram d) d.src
          d.numBytes with
        | .error e => .error e
        | .ok l2 => .ok (if l2.numMsgsSent = 0 then { l2 with state := ALL_ACKS_RECEIVED } else l2) := by
  unfold Lieutenant.receiveOne decodeDatagram
  have h8 : ¬ d.numBytes = sizeofAck := by simp only [sizeofAck]; omega
  have h272 : sizeofSignedMessage + sizeofSig ≤ d.numBytes := by
    simp only [sizeofSignedMessage, sizeofSig]; omega
  simp only [h8, h272, if_false, if_true]

theorem includeValue_ok (cr : Crypto) (l : Lieutenant) (m : SignedMessage)
    (hsign : ∀ data, (cr.sign l.myId data).isSome = true) :
    ∃ l1 fwd, l.includeValue cr m = .ok l1 ∧ l1.values = setInsert m.order l.values
      ∧ l1.msgsToForward = l.msgsToForward ++ [fwd]
      ∧ l1.round = (if m.total_sigs > l.round then l.round + 1 else l.round) := by
  unfold Lieutenant.includeValue
  by_cases hr : m.total_sigs > l.round
  · simp only [hr, if_true]
    obtain ⟨fwd, l4, h1, h2, h3, h4⟩ := constructMessage_ok cr
      ({ l with round := l.round + 1, values := setInsert m.order l.values,
                state := VALUE_INCLUDED } : Lieutenant) m hsign
    rw [h1]
    exact ⟨_, fwd, rfl, h2, by rw [h3], h4⟩
  · simp only [hr, if_false]
    obtain ⟨fwd, l4, h1, h2, h3, h4⟩ := constructMessage_ok cr
      ({ l with values := setInsert m.order l.values, state := VALUE_INCLUDED } : Lieutenant) m
      hsign
    rw [h1]
    exact ⟨_, fwd, rfl, h2, by rw [h3], h4⟩

/-- C4. For every inbound datagram of `n ≥ 272` bytes that `receiveMessage`
hands to `handleMessage` (state `MSG_RECEIVED`), with signing available: the
decoded order is inserted into `values` and one forward is appended to
`msgsToForward` if and only if the type is 1, the order is 0 or 1,
`(n - 12) / 260` equals `total_sigs`, the chain verifies or `cryptoOff` is set,
and the order is not yet in `values`; in every other case `values` and
`msgsToForward` are unchanged. -/
theorem handleMessage_acceptance (cr : Crypto) (l : Lieutenant) (d : Datagram)
    (hn : 272 ≤ d.numBytes) (hsign : ∀ data, (cr.sign l.myId data).isSome = true) :
    (acceptanceRule cr l (decodeDatagram d) d.numBytes →
      ∃ l1 fwd,
        Lieutenant.handleMessage cr { l with state := MSG_RECEIVED } (decodeDatagram d) d.src
            d.numBytes = .ok l1
        ∧ l1.values = setInsert (decodeDatagram d).order l.values
        ∧ (decodeDatagram d).order ∈ l1.values
        ∧ l1.msgsToForward = l.msgsToForward ++ [fwd])
    ∧ (¬ acceptanceRule cr l (decodeDatagram d) d.numBytes →
      ∃ l1,
        Lieutenant.handleMessage cr { l with state := MSG_RECEIVED } (decodeDatagram d) d.src
            d.numBytes = .ok l1
        ∧ l1.values = l.values ∧ l1.msgsToForward = l.msgsToForward) := by
  generalize decodeDatagram d = m
  have hk : 1 ≤ (d.numBytes - 12) / 260 := by omega
  -- the lieutenant on which the signatures are verified
  let l0 : Lieutenant := Lieutenant.sendAck { l with state := MSG_RECEIVED } d.src
  have hl0 : l0.state ≠ SIGNATURE_VERIFIED := by
    show MSG_RECEIVED ≠ SIGNATURE_VERIFIED
    decide
  have hvf := verifySignatures_fields cr l0 m.order ((d.numBytes - 12) / 260) m.sigs
  have hvs := verifySignatures_state cr l0 m.order ((d.numBytes - 12) / 260) m.sigs hl0
  have hin := isValueInSet_iff (l0.verifySignatures cr m.order ((d.numBytes - 12) / 260) m.sigs)
    m.order
  rw [hvf.1] at hin
  have hchain := chainVerifies_iff cr m.order m.sigs ((d.numBytes - 12) / 260) hk
  by_cases hacc : acceptanceRule cr l m d.numBytes
  · refine ⟨fun _ => ?_, fun h => absurd hacc h⟩
    obtain ⟨ht, ho, hc, hv, hnew⟩ := hacc
    have hstate : (l0.verifySignatures cr m.order ((d.numBytes - 12) / 260) m.sigs).state
        = SIGNATURE_VERIFIED := by
      rw [hvs]
      rcases hv with hv | hv
      · left; rw [← hc] at hv; exact hchain.mp hv
      · right; exact hv
    have hnot : (l0.verifySignatures cr m.order ((d.numBytes - 12) / 260) m.sigs).isValueInSet
        m.order = false := by
      rw [Bool.eq_false_iff]
      exact fun h => hnew (hin.mp h)
    unfold Lieutenant.handleMessage
    simp only [sizeofSignedMessage, sizeofSig, TYPE_SEND, RETREAT, ATTACK]
    rw [if_pos ⟨ht, ho⟩, if_pos hc, if_pos ⟨hstate, hnot⟩]
    obtain ⟨l1, fwd, h1, h2, h3, _⟩ := includeValue_ok cr
      (l0.verifySignatures cr m.order ((d.numBytes - 12) / 260) m.sigs) m
      (by rw [hvf.2.2.2.1]; exact hsign)
    refine ⟨l1, fwd, h1, ?_, ?_, ?_⟩
    · rw [h2, hvf.1]; rfl
    · rw [h2, mem_setInsert]; exact Or.inl rfl
    · rw [h3, hvf.2.1]; rfl
  · refine ⟨fun h => absurd h hacc, fun _ => ?_⟩
    unfold Lieutenant.handleMessage
    simp only [sizeofSignedMessage, sizeofSig, TYPE_SEND, RETREAT, ATTACK]
    by_cases hto : m.type = 1 ∧ (m.order = 0 ∨ m.order = 1)
    · rw [if_pos hto]
      by_cases hc : (d.numBytes - 12) / 260 = m.total_sigs
      · rw [if_pos hc]
        have hno : ¬ ((l0.verifySignatures cr m.order ((d.numBytes - 12) / 260) m.sigs).state
            = SIGNATURE_VERIFIED
            ∧ (l0.verifySignatures cr m.order ((d.numBytes - 12) / 260) m.sigs).isValueInSet
              m.order = false) := by
          rintro ⟨hs, hv⟩
          apply hacc
          refine ⟨hto.1, hto.2, hc, ?_, ?_⟩
          · rcases hvs.mp hs with h | h
            · left; rw [← hc]; exact hchain.mpr h
            · right; exact h
          · intro hmem
            rw [hin.mpr hmem] at hv
            exact absurd hv (by decide)
        rw [if_neg hno]
        exact ⟨_, rfl, hvf.1, hvf.2.1⟩
      · rw [if_neg hc]
        exact ⟨_, rfl, rfl, rfl⟩
    · rw [if_neg hto]
      exact ⟨_, rfl, rfl, rfl⟩

/-! ### Agreement -/

set_option maxRecDepth 1000000 in
/-- C1 (the code at the failing input). Four generals, two failures tolerated.
The faulty commander delivers ATTACK and RETREAT to lieutenant 2 and ATTACK
alone to lieutenant 3; general 4 is faulty and silent; lieutenants 2 and 3 are
honest and all they send to each other (forwards and acknowledgements) is
delivered. Lieutenant 2 sends only the first message of its queue (ATTACK) and
never the second (RETREAT): it ends with the value set {RETREAT, ATTACK} and
decides RETREAT, while lieutenant 3 ends with {ATTACK} and decides ATTACK. No
write outside `sendQueue` happens in either run. -/
theorem split_orders_disagreement :
    decisionOf splitRun2 = some RETREAT ∧ valuesOf splitRun2 = some [RETREAT, ATTACK]
    ∧ decisionOf splitRun3 = some ATTACK ∧ valuesOf splitRun3 = some [ATTACK]
    ∧ wiresOf splitRun2
        = some [(3, messageBytes (forwardOf 2 ATTACK)), (4, messageBytes (forwardOf 2 ATTACK))]
    ∧ wiresOf splitRun3
        = some [(2, messageBytes (forwardOf 3 ATTACK)), (4, messageBytes (forwardOf 3 ATTACK)),
                (4, messageBytes (forwardOf 3 ATTACK)), (4, messageBytes (forwardOf 3 ATTACK)),
                (4, messageBytes (forwardOf 3 ATTACK))]
    ∧ acksOf splitRun2 = some [(101, 1), (101, 1), (103, 2)]
    ∧ acksOf splitRun3 = some [(101, 1), (102, 2)]
    ∧ oobOf splitRun2 = some [] ∧ oobOf splitRun3 = some [] := by
  decide

set_option maxRecDepth 1000000 in
theorem first_order_accepted :
    acceptanceRule (demoCrypto 2) (Lieutenant.init (demoInfo 2 1))
      (decodeDatagram (received 4 (messageBytes (signedOrder ATTACK)) 101))
      (received 4 (messageBytes (signedOrder ATTACK)) 101).numBytes := by
  have ht : (decodeDatagram (received 4 (messageBytes (signedOrder ATTACK)) 101)).total_sigs = 1 := by
    decide
  refine ⟨by decide, by decide, by decide, Or.inl ⟨fun i h1 h2 => ?_, by decide⟩, by decide⟩
  rw [ht] at h2
  omega

set_option maxRecDepth 1000000 in
/-- Witness of C4: the commander's message for ATTACK, 272 bytes, at the fresh
lieutenant 2 of the concrete system. -/
theorem handleMessage_acceptance_witness :
    272 ≤ (received 4 (messageBytes (signedOrder ATTACK)) 101).numBytes
    ∧ ∃ l1 fwd,
        Lieutenant.handleMessage (demoCrypto 2)
            { Lieutenant.init (demoInfo 2 1) with state := MSG_RECEIVED }
            (decodeDatagram (received 4 (messageBytes (signedOrder ATTACK)) 101))
            (received 4 (messageBytes (signedOrder ATTACK)) 101).src
            (received 4 (messageBytes (signedOrder ATTACK)) 101).numBytes = .ok l1
        ∧ l1.values
            = setInsert (decodeDatagram (received 4 (messageBytes (signedOrder ATTACK)) 101)).order
                (Lieutenant.init (demoInfo 2 1)).values
        ∧ (decodeDatagram (received 4 (messageBytes (signedOrder ATTACK)) 101)).order ∈ l1.values
        ∧ l1.msgsToForward = (Lieutenant.init (demoInfo 2 1)).msgsToForward ++ [fwd] :=
  ⟨by decide,
   (handleMessage_acceptance (demoCrypto 2) (Lieutenant.init (demoInfo 2 1))
      (received 4 (messageBytes (signedOrder ATTACK)) 101) (by decide) (fun _ => rfl)).1
      first_order_accepted⟩

/-! ### The commander -/

theorem resolveError_ne_invalidOrder (msg : String) (h : isResolveError msg) :
    msg ≠ invalidOrderMessage := by
  obtain ⟨general, rfl⟩ := h
  intro heq
  have h2 := congrArg (fun s : String => s.data.reverse.take 2) heq
  simp only [String.data_append, List.reverse_append] at h2
  rw [List.take_append_of_le_length (by decide)] at h2
  exact absurd h2 (by decide)

theorem sendMessage_shape (out : SendOutcome) (g : General) (m : SignedMessage) (k : Nat) :
    (out ≠ SendOutcome.resolveFailed → ∃ g1, g.sendMessage out m k = .ok g1)
    ∧ (∀ msg g1, g.sendMessage out m k = .error (msg, g1) → isResolveError msg) := by
  cases out
  · refine ⟨fun h => absurd rfl h, ?_⟩
    intro msg g1 h
    simp only [General.sendMessage, Except.error.injEq, Prod.mk.injEq] at h
    exact ⟨_, h.1.symm⟩
  · exact ⟨fun _ => ⟨_, rfl⟩, fun msg g1 h => by simp [General.sendMessage] at h⟩
  · exact ⟨fun _ => ⟨_, rfl⟩, fun msg g1 h => by simp [General.sendMessage] at h⟩
  · exact ⟨fun _ => ⟨_, rfl⟩, fun msg g1 h => by simp [General.sendMessage] at h⟩

theorem sendOrderLoop_shape (pick : Nat → Bool) (out : Nat → SendOutcome) (m : SignedMessage) :
    ∀ (is : List Nat) (g : General),
      ((∀ i, out i ≠ SendOutcome.resolveFailed) →
        ∃ g1, General.sendOrderLoop pick out m is g = .ok g1)
      ∧ (∀ msg g1, General.sendOrderLoop pick out m is g = .error (msg, g1) → isResolveError msg)
  | [], g => ⟨fun _ => ⟨g, rfl⟩, fun msg g1 h => by simp [General.sendOrderLoop] at h⟩
  | i :: rest, g => by
    unfold General.sendOrderLoop
    split
    · cases hsm : g.sendMessage (out i) m i with
      | error e =>
        obtain ⟨msg0, g0⟩ := e
        refine ⟨fun hno => ?_, ?_⟩
        · obtain ⟨g1, hg1⟩ := (sendMessage_shape (out i) g m i).1 (hno i)
          rw [hg1] at hsm
          exact absurd hsm (by simp)
        · intro msg g1 h
          simp only [Except.error.injEq, Prod.mk.injEq] at h
          rw [← h.1]
          exact (sendMessage_shape (out i) g m i).2 msg0 g0 hsm
      | ok g1 => exact sendOrderLoop_shape pick out m rest g1
    · exact sendOrderLoop_shape pick out m rest g

theorem sendOrder_shape (out : Nat → SendOutcome) (g : General) (m : SignedMessage) :
    ((∀ i, out i ≠ SendOutcome.resolveFailed) → ∃ g1, g.sendOrder out m = .ok g1)
    ∧ (∀ msg g1, g.sendOrder out m = .error (msg, g1) → isResolveError msg) := by
  unfold General.sendOrder
  split
  · exact sendOrderLoop_shape _ out m _ g
  · split
    · exact sendOrderLoop_shape _ out m _ g
    · split
      · exact sendOrderLoop_shape _ out m _ g
      · exact ⟨fun _ => ⟨g, rfl⟩, fun msg g1 h => by simp at h⟩

theorem commander_sendLoop_shape (m : SignedMessage) :
    ∀ (passes : List SendPass) (diff : Nat) (c : Commander),
      ((∀ p ∈ passes, ∀ i, p.outcome i ≠ SendOutcome.resolveFailed) →
        ∃ c1 d1, Commander.sendLoop m passes diff c = .ok (c1, d1) ∧ c1.order = c.order)
      ∧ (∀ msg c1, Commander.sendLoop m passes diff c = .error (msg, c1) → isResolveError msg)
  | [], diff, c => ⟨fun _ => ⟨c, diff, rfl, rfl⟩, fun msg c1 h => by simp [Commander.sendLoop] at h⟩
  | p :: ps, diff, c => by
    unfold Commander.sendLoop
    split
    · cases hso : c.toGeneral.sendOrder p.outcome m with
      | error e =>
        obtain ⟨msg0, g0⟩ := e
        refine ⟨fun hno => ?_, ?_⟩
        · obtain ⟨g1, hg1⟩ := (sendOrder_shape p.outcome c.toGeneral m).1
            (hno p (List.mem_cons_self _ _))
          rw [hg1] at hso
          exact absurd hso (by simp)
        · intro msg c1 h
          simp only [Commander.lift, Except.error.injEq, Prod.mk.injEq] at h
          rw [← h.1]
          exact (sendOrder_shape p.outcome c.toGeneral m).2 msg0 g0 hso
      | ok g1 =>
        simp only [Commander.lift]
        split
        · obtain ⟨h1, h2⟩ := commander_sendLoop_shape m ps p.diff
            { c with toGeneral := g1.scanNotSent }
          exact ⟨fun hno => h1 (fun q hq => hno q (List.mem_cons_of_mem _ hq)), h2⟩
        · obtain ⟨h1, h2⟩ := commander_sendLoop_shape m ps diff
            { c with toGeneral := { g1.scanNotSent with state := ALL_SENT } }
          exact ⟨fun hno => h1 (fun q hq => hno q (List.mem_cons_of_mem _ hq)), h2⟩
    · exact ⟨fun _ => ⟨c, diff, rfl, rfl⟩, fun msg c1 h => by simp at h⟩

theorem handleAckBuffer_order (c : Commander) (buffer : List Nat) (src : Nat) :
    (c.handleAckBuffer buffer src).1.order = c.order := by
  unfold Commander.handleAckBuffer
  simp only []
  split <;> split <;> rfl

theorem waitLoop_order :
    ∀ (attempts : List RecvAttempt) (diff : Nat) (buffer : List Nat) (c : Commander),
      (Commander.waitLoop attempts diff buffer c).order = c.order
  | [], _, _, _ => rfl
  | a :: rest, diff, buffer, c => by
    unfold Commander.waitLoop
    split
    · cases hres : a.result with
      | none => exact waitLoop_order rest a.diff buffer c
      | some d =>
        simp only []
        rw [waitLoop_order rest a.diff _ _, handleAckBuffer_order]
    · rfl

theorem waitForAck_order (attempts : List RecvAttempt) (junk : List Nat) (c : Commander) :
    (c.waitForAck attempts junk).order = c.order := by
  unfold Commander.waitForAck
  simp only []
  split
  · exact waitLoop_order attempts 0 junk c
  · exact waitLoop_order attempts 0 junk c

theorem commander_ackLoop_shape (m : SignedMessage) :
    ∀ (waits : List AckWait) (diff : Nat) (c : Commander),
      ((∀ w ∈ waits, ∀ i, w.outcome i ≠ SendOutcome.resolveFailed) →
        ∃ c1, Commander.ackLoop m waits diff c = .ok c1 ∧ c1.order = c.order)
      ∧ (∀ msg c1, Commander.ackLoop m waits diff c = .error (msg, c1) → isResolveError msg)
  | [], diff, c => ⟨fun _ => ⟨c, rfl, rfl⟩, fun msg c1 h => by simp [Commander.ackLoop] at h⟩
  | w :: ws, diff, c => by
    unfold Commander.ackLoop
    split
    · simp only [Commander.lift]
      cases hso : (c.waitForAck w.attempts w.junk).toGeneral.sendOrder w.outcome m with
      | error e =>
        obtain ⟨msg0, g0⟩ := e
        refine ⟨fun hno => ?_, ?_⟩
        · obtain ⟨g1, hg1⟩ := (sendOrder_shape w.outcome
            (c.waitForAck w.attempts w.junk).toGeneral m).1 (hno w (List.mem_cons_self _ _))
          rw [hg1] at hso
          exact absurd hso (by simp)
        · intro msg c1 h
          simp only [Except.error.injEq, Prod.mk.injEq] at h
          rw [← h.1]
          exact (sendOrder_shape w.outcome _ m).2 msg0 g0 hso
      | ok g1 =>
        simp only []
        obtain ⟨h1, h2⟩ := commander_ackLoop_shape m ws w.diff
          { toGeneral := g1, order := (c.waitForAck w.attempts w.junk).order }
        refine ⟨fun hno => ?_, h2⟩
        obtain ⟨c1, hc1, ho⟩ := h1 (fun q hq => hno q (List.mem_cons_of_mem _ hq))
        exact ⟨c1, hc1, ho.trans (waitForAck_order w.attempts w.junk c)⟩
    · exact ⟨fun _ => ⟨c, rfl, rfl⟩, fun msg c1 h => by simp at h⟩

theorem commander_send_shape (cr : Crypto) (env : CommanderEnv) (c : Commander) :
    ((cr.sign c.myId (storeU32 c.order)).isSome = true → env.resolves →
      ∃ c1, c.send cr env = .ok c1 ∧ c1.order = c.order)
    ∧ (∀ msg c1, c.send cr env = .error (msg, c1) → msg ≠ invalidOrderMessage) := by
  unfold Commander.send General.signMessage
  cases hs : cr.sign c.myId (storeU32 c.order) with
  | none =>
    refine ⟨fun h => absurd h (by simp), ?_⟩
    intro msg c1 h
    simp only [Commander.lift, Except.error.injEq, Prod.mk.injEq] at h
    rw [← h.1]
    decide
  | some signature =>
    simp only [Commander.lift]
    split
    · rename_i hsigned
      generalize hmsg : hton_sm _ = message
      obtain ⟨h1, h2⟩ := commander_sendLoop_shape message env.passes 0
        ({ c with toGeneral :=
            { c.toGeneral with signLog := c.signLog ++ [storeU32 c.order], state := SIGNED } })
      cases hsl : Commander.sendLoop message env.passes 0
        ({ c with toGeneral :=
            { c.toGeneral with signLog := c.signLog ++ [storeU32 c.order], state := SIGNED } }) with
      | error e =>
        obtain ⟨msg0, c0⟩ := e
        refine ⟨fun _ hres => ?_, ?_⟩
        · obtain ⟨c1, d1, hc1, _⟩ := h1 hres.1
          rw [hc1] at hsl
          exact absurd hsl (by simp)
        · intro msg c1 h
          simp only [Except.error.injEq, Prod.mk.injEq] at h
          rw [← h.1]
          exact resolveError_ne_invalidOrder _ (h2 msg0 c0 hsl)
      | ok r =>
        obtain ⟨c2, d2⟩ := r
        simp only []
        obtain ⟨h3, h4⟩ := commander_ackLoop_shape message env.waits d2 c2
        refine ⟨fun _ hres => ?_, fun msg c1 h => resolveError_ne_invalidOrder _ (h4 msg c1 h)⟩
        obtain ⟨c1, d1, hc1, ho1⟩ := h1 hres.1
        rw [hc1] at hsl
        simp only [Except.ok.injEq, Prod.mk.injEq] at hsl
        obtain ⟨c3, hc3, ho3⟩ := h3 hres.2
        refine ⟨c3, hc3, ?_⟩
        rw [ho3, ← hsl.1, ho1]
    · exact ⟨fun _ _ => ⟨_, rfl, rfl⟩, fun msg c1 h => by simp at h⟩

/-- C9. `Commander::run` on a freshly constructed commander throws the
invalid-order exception exactly when the order is neither RETREAT nor ATTACK,
and then nothing has been signed or sent; for an order that is RETREAT or
ATTACK, when signing succeeds and no address resolution fails, `run` returns
that order, whatever the sends and the acknowledgements do. -/
theorem commander_run_result (cr : Crypto) (env : CommanderEnv) (info : GeneralInfo)
    (order : Nat) :
    ((∃ c, Commander.run cr env (Commander.init info order) = .error (invalidOrderMessage, c))
        ↔ (order ≠ RETREAT ∧ order ≠ ATTACK))
    ∧ (∀ c, Commander.run cr env (Commander.init info order) = .error (invalidOrderMessage, c) →
        c.signLog = [] ∧ c.sentLog = [])
    ∧ ((order = RETREAT ∨ order = ATTACK) →
        (cr.sign info.myId (storeU32 order)).isSome = true → env.resolves →
        ∃ c, Commander.run cr env (Commander.init info order) = .ok (order, c)) := by
  by_cases ho : order = RETREAT ∨ order = ATTACK
  · have hsel : (Commander.init info order).selectValue
        = { Commander.init info order with state := VALUE_SELECTED } := by
      unfold Commander.selectValue
      exact if_pos ho
    have hrun : Commander.run cr env (Commander.init info order)
        = match ({ Commander.init info order with state := VALUE_SELECTED } : Commander).send cr env with
          | .error e => .error e
          | .ok c2 => .ok (c2.order, c2) := by
      unfold Commander.run
      rw [hsel]
      rfl
    obtain ⟨h1, h2⟩ := commander_send_shape cr env
      ({ Commander.init info order with state := VALUE_SELECTED } : Commander)
    have hnoerr : ∀ c, Commander.run cr env (Commander.init info order)
        ≠ .error (invalidOrderMessage, c) := by
      intro c hc
      rw [hrun] at hc
      cases hsend : ({ Commander.init info order with state := VALUE_SELECTED } : Commander).send
          cr env with
      | error e =>
        rw [hsend] at hc
        simp only [Except.error.injEq] at hc
        exact h2 e.1 e.2 (by rw [hsend]) (by rw [hc])
      | ok c2 =>
        rw [hsend] at hc
        simp at hc
    refine ⟨⟨fun ⟨c, hc⟩ => absurd hc (hnoerr c), fun h => ?_⟩, fun c hc => absurd hc (hnoerr c),
      fun _ hsign hres => ?_⟩
    · rcases ho with ho | ho
      · exact absurd ho h.1
      · exact absurd ho h.2
    · obtain ⟨c1, hc1, hord⟩ := h1 hsign hres
      refine ⟨c1, ?_⟩
      rw [hrun, hc1]
      simp only []
      rw [hord]
      rfl
  · have hsel : (Commander.init info order).selectValue = Commander.init info order := by
      unfold Commander.selectValue
      exact if_neg ho
    have hrun : Commander.run cr env (Commander.init info order)
        = .error (invalidOrderMessage, Commander.init info order) := by
      unfold Commander.run
      rw [hsel]
      rfl
    refine ⟨⟨fun _ => ⟨fun h => ho (Or.inl h), fun h => ho (Or.inr h)⟩, fun _ => ⟨_, hrun⟩⟩,
      fun c hc => ?_, fun h => absurd h ho⟩
    rw [hrun] at hc
    simp only [Except.error.injEq, Prod.mk.injEq, true_and] at hc
    rw [← hc]
    exact ⟨rfl, rfl⟩

/-- Witness of C9: the commander of the concrete system with order ATTACK, a
clean pass and the acknowledgements of two lieutenants. -/
theorem commander_run_result_witness :
    ∃ c, Commander.run (demoCrypto 1) honestCommanderEnv (Commander.init (demoInfo 1 1) ATTACK)
      = .ok (ATTACK, c) :=
  (commander_run_result (demoCrypto 1) honestCommanderEnv (demoInfo 1 1) ATTACK).2.2
    (Or.inr rfl) rfl
    ⟨fun p hp i => by
        rw [honestCommanderEnv, List.mem_singleton] at hp
        subst hp
        simp [cleanPass],
     fun w hw i => by
        rw [honestCommanderEnv, List.mem_singleton] at hw
        subst hw
        simp⟩

set_option maxRecDepth 1000000 in
/-- C10 (the code at the failing input). With four generals, the commander
with `my_id = 2` calls `sendMessage` for the generals 3 and 4 only in its first
pass: general 1, which is not the commander, is never sent the order. -/
theorem first_pass_skips_first_host :
    recipientsOf secondHostCommanderRun = some [3, 4] := by
  decide

/-! ### Validity -/

set_option maxRecDepth 1000000 in
/-- C2 (the code at the failing input). Four generals, one failure tolerated.
The honest commander orders ATTACK, sends its signed message to the three
lieutenants and returns ATTACK. The faulty general 4 sends lieutenant 2 a
message for RETREAT whose only signature is its own. The honest lieutenant 2
accepts both orders: it ends with the value set {RETREAT, ATTACK} and returns
RETREAT, not the commander's order. No write outside `sendQueue` happens. -/
theorem forged_order_breaks_validity :
    commanderOutcome honestCommanderRun
        = some (ATTACK, [(2, messageBytes (signedOrder ATTACK)),
                         (3, messageBytes (signedOrder ATTACK)),
                         (4, messageBytes (signedOrder ATTACK)),
                         (2, messageBytes (signedOrder ATTACK))], [])
    ∧ (ntoh_sm forgedOrder 272).sigs.map (fun s => s.id) = [4]
    ∧ valuesOf forgedRun2 = some [RETREAT, ATTACK]
    ∧ decisionOf forgedRun2 = some RETREAT
    ∧ oobOf forgedRun2 = some [] := by
  decide

/-! ### The chain of a forward -/

set_option maxRecDepth 1000000 in
/-- C5 (the code at the failing input). Lieutenant 2 is in round 2 and holds
ATTACK when the commander's message for RETREAT with one signature arrives. The
message is accepted and the forward built has `total_sigs = 3 = round + 1`, but
its records are the commander's signature, a record read from the receive
buffer behind the 272 bytes received, and the lieutenant's signature of that
record: a verifier accepts records 0 and 2 and rejects record 1. -/
theorem late_message_forward_chain :
    (queuedForwards (Lieutenant.handleMessage (demoCrypto 2) lateLieutenant
        (decodeDatagram lateDatagram) lateDatagram.src lateDatagram.numBytes)).map
      (fun q => q.map (fun m =>
        (m.total_sigs, m.order, m.sigs.map (fun s => s.id),
         (List.range m.total_sigs).map (fun i => verifiesAt (demoCrypto 3) m.order m.sigs i))))
      = some [(3, RETREAT, [1, 0, 2], [true, false, true])] := by
  decide

/-! ### The length of the datagrams sent -/

set_option maxRecDepth 1000000 in
/-- C8 (the code at the failing input). Lieutenant 2 forwards the commander's
ATTACK in round 2 with `total_sigs = 2` in 532 bytes. A message with three
signatures then advances its round to 3, and the retry of the same forward is
sent with `msgLen = 12 + 260 * 3 = 792` although its header still says
`total_sigs = 2`. No write outside `sendQueue` happens. -/
theorem retry_length_after_catch_up :
    lengthsOf retryRun2 = some [(3, 532, 2), (4, 532, 2), (3, 792, 2), (4, 792, 2)]
    ∧ oobOf retryRun2 = some [] := by
  decide

/-! ### What the code does where the claims above fail -/

theorem writeQueue_getD (g : General) (i v j : Nat) :
    (g.writeQueue i v).sendQueue.getD j 0
      = if i = j ∧ i < g.sendQueue.length then v else g.sendQueue.getD j 0 := by
  unfold General.writeQueue
  by_cases h2 : i < g.sendQueue.length
  · rw [if_pos h2]
    simp only [List.getD_eq_getElem?_getD, List.getElem?_set]
    by_cases h : i = j
    · subst h; simp [h2]
    · simp [h]
  · rw [if_neg h2]
    simp [h2]

theorem sendMessage_effect (out : SendOutcome) (g : General) (m : SignedMessage) (k : Nat)
    (hout : out ≠ SendOutcome.resolveFailed) :
    ∃ g1, g.sendMessage out m k = .ok g1
      ∧ g1.sentLog.map (fun t => t.generalK + 1) = g.sentLog.map (fun t => t.generalK + 1) ++ [k + 1]
      ∧ g1.myId = g.myId
      ∧ (∀ j, g.sendQueue.getD j 0 ≠ DO_NOT_SEND → g1.sendQueue.getD j 0 ≠ DO_NOT_SEND) := by
  cases out
  · exact absurd rfl hout
  all_goals
    refine ⟨_, rfl, ?_, (writeQueue_fields _ _ _).2.2.1, ?_⟩
    · show (General.writeQueue _ k _).sentLog.map (fun t => t.generalK + 1) = _
      rw [(writeQueue_fields _ _ _).2.2.2.2.1, List.map_append]
      rfl
    intro j hj
    show (General.writeQueue _ k _).sendQueue.getD j 0 ≠ DO_NOT_SEND
    rw [writeQueue_getD]
    split
    · decide
    · exact hj

/-- The first pass of `sendOrder` (state `SIGNED`, no entry `DO_NOT_SEND`, no
failing address resolution) calls `sendMessage` exactly for the host indices
`i = 1, ..., numGenerals - 1` with `i + 1 ≠ myId`, in this order: the generals
with ids `2, ..., numGenerals` other than `myId`. -/
theorem first_pass_recipients (out : Nat → SendOutcome) (m : SignedMessage)
    (hno : ∀ i, out i ≠ SendOutcome.resolveFailed) (g : General) (hst : g.state = SIGNED)
    (hq : ∀ j, g.sendQueue.getD j 0 ≠ DO_NOT_SEND) :
    ∃ g1, g.sendOrder out m = .ok g1
      ∧ g1.sentLog.map (fun t => t.generalK + 1)
          = g.sentLog.map (fun t => t.generalK + 1)
            ++ ((List.range' 1 (g.numGenerals - 1)).filter (fun i => i + 1 != g.myId)).map
                (fun i => i + 1) := by
  have hloop : ∀ (is : List Nat) (g0 : General),
      (∀ j, g0.sendQueue.getD j 0 ≠ DO_NOT_SEND) →
      ∃ g1, General.sendOrderLoop (fun q => q != DO_NOT_SEND) out m is g0 = .ok g1
        ∧ g1.sentLog.map (fun t => t.generalK + 1)
            = g0.sentLog.map (fun t => t.generalK + 1)
              ++ (is.filter (fun i => i + 1 != g0.myId)).map (fun i => i + 1) := by
    intro is
    induction is with
    | nil => intro g0 _; exact ⟨g0, rfl, by simp⟩
    | cons i rest ih =>
      intro g0 h0
      unfold General.sendOrderLoop
      have hpick : (g0.sendQueue.getD i 0 != DO_NOT_SEND) = true := by
        simpa using h0 i
      by_cases hid : (i + 1 != g0.myId) = true
      · obtain ⟨g1, hg1, hlog, hmy, hqueue⟩ := sendMessage_effect (out i) g0 m i (hno i)
        obtain ⟨g2, hg2, hlog2⟩ := ih g1 (fun j => hqueue j (h0 j))
        simp only [hpick, hid, Bool.and_self, if_true, hg1]
        refine ⟨g2, hg2, ?_⟩
        rw [hlog2, hlog, hmy, List.filter_cons, if_pos hid]
        simp
      · obtain ⟨g2, hg2, hlog2⟩ := ih g0 h0
        simp only [hpick, hid, Bool.true_and, if_false, Bool.false_eq_true]
        refine ⟨g2, hg2, ?_⟩
        rw [hlog2, List.filter_cons, if_neg hid]
  unfold General.sendOrder
  rw [if_pos (Or.inl hst)]
  exact hloop _ g hq

theorem readSigs_length (sigs : List Sig) (n : Nat) : (readSigs sigs n).length = n := by
  simp [readSigs]

theorem readSigs_getD (sigs tail : List Sig) (n i : Nat) (hi : i < n) :
    (readSigs sigs n ++ tail).getD i default = sigs.getD i default := by
  rw [List.getD_append _ _ _ _ (by rw [readSigs_length]; exact hi)]
  have hlen : i < (readSigs sigs n).length := by rw [readSigs_length]; exact hi
  rw [List.getD_eq_getElem _ _ hlen]
  simp [readSigs]

theorem readSigs_getD_last (sigs : List Sig) (n : Nat) (s : Sig) :
    (readSigs sigs n ++ [s]).getD n default = s := by
  rw [List.getD_append_right _ _ _ _ (by rw [readSigs_length]), readSigs_length]
  simp

theorem readSigs_ids (sigs : List Sig) (n : Nat) (hn : n ≤ sigs.length)
    (hs : ∀ s ∈ sigs, isU32 s.id) : ∀ s ∈ readSigs sigs n, isU32 s.id := by
  intro s hmem
  simp only [readSigs, List.mem_map, List.mem_range] at hmem
  obtain ⟨i, hi, rfl⟩ := hmem
  rw [List.getD_eq_getElem _ _ (by omega)]
  exact hs _ (List.getElem_mem _)

/-- The forward that `constructMessage` builds when the message received has at
least `round` signature records whose chain verifies up to `round`: decoded by
a receiver, it has `total_sigs = round + 1`, the order of the message received,
and every record of its chain verifies, the last one being the lieutenant's
signature of record `round - 1`. The verifier `cr2` accepts what the
lieutenant's key signs. -/
theorem forward_chain_verifies (cr cr2 : Crypto) (l l1 : Lieutenant) (m fwd : SignedMessage)
    (hr : 1 ≤ l.round) (hlen : l.round ≤ m.sigs.length)
    (hchain : ∀ i, i < l.round → verifiesAt cr2 m.order m.sigs i = true)
    (hcorrect : ∀ d sg, cr.sign l.myId d = some sg → cr2.verify l.myId d sg = true)
    (hids : ∀ s ∈ m.sigs, isU32 s.id) (hid : isU32 l.myId) (ho : isU32 m.order)
    (hround : isU32 (l.round + 1))
    (hc : l.constructMessage cr m = .ok (fwd, l1)) :
    (ntoh_sm fwd (12 + 260 * (l.round + 1))).total_sigs = l.round + 1
    ∧ (ntoh_sm fwd (12 + 260 * (l.round + 1))).order = m.order
    ∧ ∀ i, i < l.round + 1 →
        verifiesAt cr2 (ntoh_sm fwd (12 + 260 * (l.round + 1))).order
          (ntoh_sm fwd (12 + 260 * (l.round + 1))).sigs i = true := by
  unfold Lieutenant.constructMessage General.signMessage Lieutenant.lift at hc
  cases hs : cr.sign l.myId (m.sigs.getD (l.round - 1) default).signature with
  | none => rw [hs] at hc; simp at hc
  | some sg =>
    rw [hs] at hc
    simp only [Except.ok.injEq, Prod.mk.injEq] at hc
    have hvalid : SignedMessage.structurallyValid
        { type := TYPE_SEND, total_sigs := l.round + 1, order := m.order,
          sigs := readSigs m.sigs l.round ++ [{ id := l.myId, signature := sg }] } := by
      refine ⟨by simp, by simp [readSigs_length], (by show isU32 1; decide), hround, ho, ?_⟩
      intro s hmem
      rcases List.mem_append.mp hmem with h | h
      · exact readSigs_ids m.sigs l.round hlen hids s h
      · rw [List.mem_singleton] at h
        rw [h]
        exact hid
    have hdec := ntoh_hton_sm _ hvalid
    simp only [] at hdec
    rw [← hc.1, hdec]
    refine ⟨rfl, rfl, ?_⟩
    intro i hi
    simp only [verifiesAt, signedData]
    by_cases hlast : i = l.round
    · subst hlast
      have hne : l.round ≠ 0 := by omega
      rw [readSigs_getD_last, if_neg hne, readSigs_getD _ _ _ _ (by omega)]
      exact hcorrect _ _ hs
    · have hlt : i < l.round := by omega
      have h1 := hchain i hlt
      simp only [verifiesAt, signedData] at h1
      rw [readSigs_getD _ _ _ _ hlt]
      by_cases hz : i = 0
      · simp only [hz, if_true] at h1 ⊢
        exact h1
      · simp only [hz, if_false] at h1 ⊢
        rw [readSigs_getD _ _ _ _ (by omega)]
        exact h1

/-! ### Closed evaluations of the forwarding and receive phases -/

set_option maxRecDepth 1000000 in
/-- C11 (the code at the failing input). General 2 is the commander and
lieutenant 3 accepts its order in round 1; the forward built from it carries
the signatures of generals 2 and 3. Among five generals with signatures
checked, the reset at the start of round 2 clears the status of general 2, and
the forward and each of its retries is sent to generals 2, 4 and 5: general 2
is a signer of the chain. Among four generals with the check of signatures
turned off no status is ever set to `DO_NOT_SEND`, and the forward is sent to
generals 2 and 4. No write outside `sendQueue` happens. -/
theorem forward_echoed_to_signer :
    echoOf echoRunFive = some ([[2, 3]], [2, 4, 5, 2, 4, 5, 2, 4, 5, 2, 4, 5], [])
    ∧ echoOf echoRunCryptoOff = some ([[2, 3]], [2, 4, 2, 4, 2, 4, 2, 4], []) := by
  decide

set_option maxRecDepth 1000000 in
/-- C15 (the code at the failing input). At the start of round 2 (of 3) the
queue of lieutenant 2 holds the forwards of ATTACK and of RETREAT and no
status excludes generals 3 and 4. With every `sendto` succeeding and three
passes available, `forwardMessages` sends the forward of ATTACK to generals 3
and 4 and returns after the first pass (clock reading 1000, state `ALL_SENT`):
the forward of RETREAT is not sent to anyone. -/
theorem second_queued_message_not_sent :
    (queuedOrders twoQueued, twoQueued.round, twoQueued.maxFailures,
      twoQueued.beginForwarding.sendQueue) = ([ATTACK, RETREAT], 2, 2, [0, 0, 0, 0])
    ∧ forwardedOf twoQueuedForwarded
        = some ([(3, ATTACK), (4, ATTACK)], 1000, ALL_SENT, [0, 0, SENT, SENT]) := by
  decide

set_option maxRecDepth 1000000 in
/-- C16 (the code at the failing input). Lieutenant 3 is in round 2 (of 3) when
a message for RETREAT with two signatures arrives: the order is accepted and
its forward, signed by generals 1, 4 and 3, is queued behind the forward of
ATTACK. The end of round 2 clears the whole queue, so that the queue is empty
at the top of round 3; in the whole run only the forward of ATTACK is sent and
lieutenant 3 decides RETREAT. -/
theorem forward_cleared_before_next_round :
    (queuedOrders lateOrderTop, lateOrderTop.round) = ([ATTACK], 2)
    ∧ (queuedOrders lateOrderReceived, lateOrderReceived.round,
        lateOrderReceived.forwardLog.map signersOf) = ([ATTACK, RETREAT], 2, [[1, 3], [1, 4, 3]])
    ∧ (queuedOrders lateOrderReceived.endRound, lateOrderReceived.endRound.round) = ([], 3)
    ∧ (finalOf lateOrderRun).map (fun l =>
          (l.sentLog.map (fun t => (t.generalK + 1, ntohl t.message.order)), l.roundLog, l.values,
            l.oobWrites))
        = some ([(2, ATTACK), (4, ATTACK)], [1, 2, 3], [RETREAT, ATTACK], [])
    ∧ decisionOf lateOrderRun = some RETREAT := by
  decide

set_option maxRecDepth 1000000 in
/-- C17 (the code at the failing input). The fresh lieutenant 2 (round 1)
accepts a message for a new order with `total_sigs = 3`. Its round becomes 2,
not 3; the data signed for the forward are the signature bytes of record 1, not
of record 2; and the forward carries 3 signatures (of generals 1, 1 and 2), not
4. -/
theorem catch_up_by_one_round :
    (decodeDatagram tripleDatagram).total_sigs = 3
    ∧ (fun l : Lieutenant =>
        (l.round, l.values, l.forwardLog.map (fun m => (ntohl m.total_sigs, signersOf m)),
          l.signLog))
        (stateOf (Lieutenant.handleMessage (demoCrypto 2) freshLieutenant
          (decodeDatagram tripleDatagram) tripleDatagram.src tripleDatagram.numBytes))
      = (2, [RETREAT], [(3, [1, 1, 2])],
          [((decodeDatagram tripleDatagram).sigs.getD 1 default).signature]) := by
  decide

set_option maxRecDepth 1000000 in
/-- C18 (the code at the failing input). The fresh lieutenant 2 is handed a
message with two records of which record 1 verifies and record 0 does not. The
message is dropped (the state stays `MSG_RECEIVED`; `values`, the queue, the
round and the message counter are unchanged), but the status of general 4, the
signer of record 1, has become `DO_NOT_SEND`. -/
theorem rejected_message_marks_signer :
    (List.range 2).map (fun i => verifiesAt (demoCrypto 2) RETREAT
        (decodeDatagram brokenDatagram).sigs i) = [false, true]
    ∧ freshLieutenant.sendQueue = [0, 0, 0, 0]
    ∧ (fun l : Lieutenant =>
        (l.state, l.round, l.values, l.msgsToForward.length, l.numMsgsSent, l.sendQueue,
          l.oobWrites))
        (stateOf (Lieutenant.handleMessage (demoCrypto 2) freshLieutenant
          (decodeDatagram brokenDatagram) brokenDatagram.src brokenDatagram.numBytes))
      = (MSG_RECEIVED, 1, [], 0, 0, [0, 0, 0, DO_NOT_SEND], []) := by
  refine ⟨by decide, by decide, ?_⟩
  decide

set_option maxRecDepth 1000000 in
/-- C19 (the code at the failing input). Lieutenant 2 has sent to generals 3
and 4 (entries 2 and 3 are `SENT`); the `Ack` of general 3 for round 2 sets
entry 3, the entry of general 4, to `ACKED` and leaves the entry of general 3
`SENT`. The commander has sent to generals 2, 3 and 4 (entries 1, 2 and 3); the
`Ack` of general 2 for round 1 sets entry 2, the entry of general 3, to `ACKED`
and leaves the entry of general 2 `SENT`. The message counter goes down by 1
in both. -/
theorem ack_marks_next_entry :
    (sentLieutenant.round, lookupId sentLieutenant.ipToId ackFromThree.src,
      sentLieutenant.sendQueue, sentLieutenant.numMsgsSent) = (2, 3, [0, 0, SENT, SENT], 2)
    ∧ (fun l : Lieutenant => (l.sendQueue, l.numMsgsSent, l.oobWrites))
        (stateOf (sentLieutenant.receiveOne (demoCrypto 2) ackFromThree))
      = ([0, 0, SENT, ACKED], 1, [])
    ∧ (sentCommander.sendQueue, sentCommander.numMsgsSent) = ([0, SENT, SENT, SENT], 3)
    ∧ (ackedCommander.sendQueue, ackedCommander.numMsgsSent, ackedCommander.oobWrites)
      = ([0, SENT, ACKED, SENT], 2, []) := by
  decide

set_option maxRecDepth 1000000 in
/-- C20 (the code at the failing input). In the first pass one `sendto` fails:
the state is `ALL_NOT_SENT`. The second pass sends to that peer again and
succeeds: no entry is `NOT_SENT` any more, but the state is still
`ALL_NOT_SENT`, and with a third pass available the loop runs it (clock reading
3000) without sending anything. This holds for the first loop of
`Commander::send` and for `forwardMessages` of lieutenant 3. -/
theorem retry_pass_leaves_all_not_sent :
    commanderPasses [failingPass 2 1000]
        = some (ALL_NOT_SENT, [0, SENT, NOT_SENT, SENT], 1000, [2, 3, 4])
    ∧ commanderPasses [failingPass 2 1000, cleanPass 2000]
        = some (ALL_NOT_SENT, [0, SENT, SENT, SENT], 2000, [2, 3, 4, 3])
    ∧ commanderPasses [failingPass 2 1000, cleanPass 2000, cleanPass 3000]
        = some (ALL_NOT_SENT, [0, SENT, SENT, SENT], 3000, [2, 3, 4, 3])
    ∧ lieutenantPasses [failingPass 3 1000]
        = some (ALL_NOT_SENT, [0, SENT, 0, NOT_SENT], 1000, [2, 4])
    ∧ lieutenantPasses [failingPass 3 1000, cleanPass 2000]
        = some (ALL_NOT_SENT, [0, SENT, 0, SENT], 2000, [2, 4, 4])
    ∧ lieutenantPasses [failingPass 3 1000, cleanPass 2000, cleanPass 3000]
        = some (ALL_NOT_SENT, [0, SENT, 0, SENT], 3000, [2, 4, 4]) := by
  refine ⟨by decide, by decide, by decide, by decide, by decide, by decide⟩

/-! ### The startup check -/

theorem readHosts_numGenerals (env : BootEnv) (ls : List String) (t : HostTable) :
    (readHosts env ls t).numGenerals = t.numGenerals + (ls.filter (fun h => h ≠ "")).length := by
  induction ls generalizing t with
  | nil => simp [readHosts]
  | cons h rest ih =>
    by_cases hh : h = ""
    · subst hh
      simp [readHosts, ih]
    · rw [readHosts, if_pos hh, ih]
      simp [hh]
      omega

theorem readHosts_myId (env : BootEnv) (ls : List String) (t : HostTable) :
    (readHosts env ls t).myId = 0
      ↔ t.myId = 0 ∧ env.myHostName ∉ ls.filter (fun h => h ≠ "") := by
  induction ls generalizing t with
  | nil => simp [readHosts]
  | cons h rest ih =>
    by_cases hh : h = ""
    · subst hh
      simp [readHosts, ih]
    · rw [readHosts, if_pos hh, ih]
      by_cases hm : env.myHostName = h
      · simp [hh, hm]
      · simp [hh, hm]

theorem hostTable_numGenerals (env : BootEnv) :
    (hostTable env).numGenerals = (hostLines env).length := by
  simp [hostTable, hostLines, readHosts_numGenerals]

theorem hostTable_myId (env : BootEnv) :
    (hostTable env).myId = 0 ↔ env.myHostName ∉ hostLines env := by
  simp [hostTable, hostLines, readHosts_myId]

set_option maxRecDepth 1000000 in
/-- C14 (the claim as stated fails). The hostfile names three generals, the
process runs on the second of them and one failure is to be tolerated:
`bootstrap` constructs a lieutenant with `myId = 2`, `numGenerals = 3` and
`maxFailures = 1`, and with the order ATTACK it constructs a commander. -/
theorem three_hosts_one_failure_starts :
    (hostLines threeHosts).length = 3
    ∧ lieutenantOf (bootstrap threeHosts 1 false NO_ORDER) = some (2, 3, 1)
    ∧ ((bootstrap threeHosts 1 false ATTACK).1.map (fun r =>
          match r with
          | Role.commander c => (true, c.myId, c.numGenerals, c.maxFailures)
          | Role.lieutenant l => (false, l.myId, l.numGenerals, l.maxFailures)))
        = some (true, 2, 3, 1) := by
  refine ⟨by decide, by decide, by decide⟩

/-- C14 (amended). For `f` an `int` with `f + 2` in the range of `int`,
`bootstrap` returns no general exactly when the number `N` of generals named in
the hostfile is less than `f + 2`, or the name of the own host is not in the
hostfile, or the constructor throws. With three generals in the hostfile this
refuses `f = 2` (and every larger `f`), whatever the other inputs are. -/
theorem bootstrap_refuses_iff (env : BootEnv) (maxFailures : Int) (cryptoOff : Bool)
    (order : Nat) (_hint : -2147483648 ≤ maxFailures ∧ maxFailures + 2 ≤ 2147483647) :
    ((bootstrap env maxFailures cryptoOff order).1 = none
      ↔ (((hostLines env).length : Int) < maxFailures + 2 ∨ env.myHostName ∉ hostLines env
          ∨ env.constructs = false))
    ∧ ((hostLines env).length = 3 →
        ((bootstrap env maxFailures cryptoOff order).1 = none
          ↔ (2 ≤ maxFailures ∨ env.myHostName ∉ hostLines env ∨ env.constructs = false))) := by
  have key : (bootstrap env maxFailures cryptoOff order).1 = none
      ↔ (((hostLines env).length : Int) < maxFailures + 2 ∨ env.myHostName ∉ hostLines env
          ∨ env.constructs = false) := by
    rw [← hostTable_numGenerals, ← hostTable_myId]
    unfold bootstrap
    by_cases h1 : ((hostTable env).numGenerals : Int) < maxFailures + 2
    · simp [h1]
    · by_cases h2 : (hostTable env).myId > 0
      · have h2' : (hostTable env).myId ≠ 0 := by omega
        by_cases h3 : env.constructs = true
        · by_cases h4 : order = ATTACK ∨ order = RETREAT
          · simp [h1, h2, h2', h3, h4]
          · simp [h1, h2, h2', h3, h4]
        · simp [h1, h2, h2', h3]
      · have h2' : (hostTable env).myId = 0 := by omega
        simp [h1, h2']
  refine ⟨key, fun h3 => ?_⟩
  rw [key, h3]
  constructor
  · rintro (h | h | h)
    · left; push_cast at h; omega
    · right; left; exact h
    · right; right; exact h
  · rintro (h | h | h)
    · left; push_cast; omega
    · right; left; exact h
    · right; right; exact h

set_option maxRecDepth 1000000 in
theorem bootstrap_refuses_iff_witness :
    (-2147483648 ≤ (2 : Int) ∧ (2 : Int) + 2 ≤ 2147483647)
    ∧ (hostLines threeHosts).length = 3
    ∧ ((bootstrap threeHosts 2 false NO_ORDER).1 = none
        ↔ ((2 : Int) ≤ 2 ∨ threeHosts.myHostName ∉ hostLines threeHosts
            ∨ threeHosts.constructs = false)) :=
  ⟨by decide, by decide,
    (bootstrap_refuses_iff threeHosts 2 false NO_ORDER (by decide)).2 (by decide)⟩

/-! ### Frame of the phases of a round -/

theorem Throws.ends_weaken {σ α : Type} {ok ok1 : Prop} {R R1 : σ → Prop} {st : α → σ}
    {r : Throws σ α} (h : Throws.ends ok R st r) (hok : ok1 → ok) (hR : ∀ x, R x → R1 x) :
    Throws.ends ok1 R1 st r := by
  cases r with
  | ok a => exact hR _ h
  | error e => exact ⟨hR _ h.1, fun h1 => h.2 (hok h1)⟩

theorem writeQueue_book (g : General) (i v : Nat) : (g.writeQueue i v).book = g.book := by
  unfold General.writeQueue General.book
  split <;> rfl

theorem sendMessage_book (out : SendOutcome) (g : General) (m : SignedMessage) (k : Nat) :
    Throws.ends (out ≠ SendOutcome.resolveFailed) (fun g1 => g1.book = g.book) id
      (g.sendMessage out m k) := by
  unfold General.sendMessage
  cases out
  · exact ⟨rfl, fun h => h rfl⟩
  · exact writeQueue_book _ _ _
  · exact writeQueue_book _ _ _
  · show General.book _ = _
    have := writeQueue_book { g with sentLog := g.sentLog ++ [⟨k, m, sizeofSignedMessage + sizeofSig * g.round, .delivered⟩] } k SENT
    exact this

theorem sendOrderLoop_book (pick : Nat → Bool) (out : Nat → SendOutcome) (m : SignedMessage) :
    ∀ (is : List Nat) (g : General),
      Throws.ends (∀ i, out i ≠ SendOutcome.resolveFailed) (fun g1 => g1.book = g.book) id
        (General.sendOrderLoop pick out m is g)
  | [], g => rfl
  | i :: rest, g => by
    unfold General.sendOrderLoop
    split
    · have h1 := sendMessage_book (out i) g m i
      cases hsm : g.sendMessage (out i) m i with
      | error e =>
        rw [hsm] at h1
        exact ⟨h1.1, fun h => h1.2 (h i)⟩
      | ok g1 =>
        rw [hsm] at h1
        exact Throws.ends_weaken (sendOrderLoop_book pick out m rest g1) id
          (fun x hx => hx.trans h1)
    · exact sendOrderLoop_book pick out m rest g

theorem sendOrder_book (out : Nat → SendOutcome) (g : General) (m : SignedMessage) :
    Throws.ends (∀ i, out i ≠ SendOutcome.resolveFailed) (fun g1 => g1.book = g.book) id
      (g.sendOrder out m) := by
  unfold General.sendOrder
  split
  · exact sendOrderLoop_book _ _ _ _ _
  · split
    · exact sendOrderLoop_book _ _ _ _ _
    · split
      · exact sendOrderLoop_book _ _ _ _ _
      · rfl

theorem scanNotSent_book (g : General) : g.scanNotSent.book = g.book := by
  unfold General.scanNotSent
  split <;> rfl

theorem book_of_general (l : Lieutenant) (g : General) (h : g.book = l.toGeneral.book) :
    ({ l with toGeneral := g } : Lieutenant).book = l.book := by
  unfold General.book at h
  unfold Lieutenant.book
  have h1 : g.round = l.round := congrArg Prod.fst h
  have h2 : g.maxFailures = l.maxFailures := congrArg Prod.snd h
  show (l.values, l.msgsToForward, l.forwardLog, l.roundLog, g.round, g.maxFailures) = _
  rw [h1, h2]

theorem forwardOne_book (m : SignedMessage) :
    ∀ (passes : List SendPass) (diff : Nat) (l : Lieutenant),
      Throws.ends (∀ p ∈ passes, p.resolves) (fun l1 => l1.book = l.book) (fun x => x.1)
        (Lieutenant.forwardOne m passes diff l)
  | [], diff, l => rfl
  | p :: ps, diff, l => by
    unfold Lieutenant.forwardOne
    split
    · have h1 := sendOrder_book p.outcome l.toGeneral m
      cases hso : l.toGeneral.sendOrder p.outcome m with
      | error e =>
        obtain ⟨msg, g⟩ := e
        rw [hso] at h1
        exact ⟨book_of_general l g h1.1, fun h => h1.2 (h p (List.mem_cons_self _ _))⟩
      | ok g =>
        rw [hso] at h1
        have h2 : g.scanNotSent.book = l.toGeneral.book := (scanNotSent_book g).trans h1
        simp only [Lieutenant.lift]
        split
        · exact Throws.ends_weaken (forwardOne_book m ps p.diff _)
            (fun h q hq => h q (List.mem_cons_of_mem _ hq))
            (fun x hx => hx.trans (book_of_general l _ h2))
        · exact Throws.ends_weaken (forwardOne_book m ps p.diff _)
            (fun h q hq => h q (List.mem_cons_of_mem _ hq))
            (fun x hx => hx.trans (book_of_general l _ h2))
    · rfl

theorem forwardOne_rest (m : SignedMessage) :
    ∀ (passes : List SendPass) (diff : Nat) (l l1 : Lieutenant) (d1 : Nat) (rest : List SendPass),
      Lieutenant.forwardOne m passes diff l = .ok (l1, d1, rest) → ∀ p ∈ rest, p ∈ passes
  | [], diff, l, l1, d1, rest, h => by
    simp only [Lieutenant.forwardOne, Except.ok.injEq, Prod.mk.injEq] at h
    rw [← h.2.2]
    simp
  | p :: ps, diff, l, l1, d1, rest, h => by
    unfold Lieutenant.forwardOne at h
    split at h
    · cases hso : l.toGeneral.sendOrder p.outcome m with
      | error e =>
        obtain ⟨msg, g⟩ := e
        rw [hso] at h
        simp [Lieutenant.lift] at h
      | ok g =>
        rw [hso] at h
        simp only [Lieutenant.lift] at h
        split at h
        · exact fun q hq => List.mem_cons_of_mem _ (forwardOne_rest m ps p.diff _ l1 d1 rest h q hq)
        · exact fun q hq => List.mem_cons_of_mem _ (forwardOne_rest m ps p.diff _ l1 d1 rest h q hq)
    · simp only [Except.ok.injEq, Prod.mk.injEq] at h
      rw [← h.2.2]
      exact fun q hq => hq

theorem forwardLoop_book :
    ∀ (ms : List SignedMessage) (passes : List SendPass) (diff : Nat) (l : Lieutenant),
      Throws.ends (∀ p ∈ passes, p.resolves) (fun l1 => l1.book = l.book) (fun x => x.1)
        (Lieutenant.forwardLoop ms passes diff l)
  | [], passes, diff, l => rfl
  | m :: ms, passes, diff, l => by
    unfold Lieutenant.forwardLoop
    split
    · have h1 := forwardOne_book m passes diff l
      cases hfo : Lieutenant.forwardOne m passes diff l with
      | error e =>
        rw [hfo] at h1
        exact h1
      | ok x =>
        obtain ⟨l1, d1, rest⟩ := x
        rw [hfo] at h1
        exact Throws.ends_weaken (forwardLoop_book ms rest d1 l1)
          (fun h q hq => h q (forwardOne_rest m passes diff l l1 d1 rest hfo q hq))
          (fun x hx => hx.trans h1)
    · rfl

theorem forwardMessages_book (passes : List SendPass) (l : Lieutenant) :
    Throws.ends (∀ p ∈ passes, p.resolves) (fun l1 => l1.book = l.book) (fun x => x.1)
      (l.forwardMessages passes) :=
  forwardLoop_book _ _ _ _

theorem verifyLoop_book (cr : Crypto) (order : Nat) (signs : List Sig) :
    ∀ (k : Nat) (l : Lieutenant), (Lieutenant.verifyLoop cr order signs k l).1.book = l.book
  | 0, l => rfl
  | k + 1, l => by
    unfold Lieutenant.verifyLoop
    split
    · exact (verifyLoop_book cr order signs k _).trans
        (book_of_general l _ (writeQueue_book _ _ _))
    · rfl

theorem verifySignatures_book (cr : Crypto) (l : Lieutenant) (order k : Nat) (signs : List Sig) :
    (l.verifySignatures cr order k signs).book = l.book := by
  unfold Lieutenant.verifySignatures
  split
  · split
    · exact verifyLoop_book cr order signs k l
    · exact verifyLoop_book cr order signs k l
  · rfl

theorem evolves_refl (l : Lieutenant) : l.evolves l := ⟨rfl, rfl, le_refl _, id⟩

theorem evolves_trans {a b c : Lieutenant} (h1 : a.evolves b) (h2 : b.evolves c) : a.evolves c :=
  ⟨h2.1.trans h1.1, h2.2.1.trans h1.2.1, le_trans h1.2.2.1 h2.2.2.1, fun h => h2.2.2.2 (h1.2.2.2 h)⟩

theorem queueInv_of_book {a b : Lieutenant} (h : b.book = a.book) (ha : a.queueInv) :
    b.queueInv := by
  unfold Lieutenant.book at h
  simp only [Prod.mk.injEq] at h
  obtain ⟨h1, h2, h3, -⟩ := h
  unfold Lieutenant.queueInv forwardedOrders at *
  rw [h1, h2, h3]
  exact ha

theorem evolves_of_book {a b : Lieutenant} (h : b.book = a.book) : a.evolves b := by
  have h0 := h
  unfold Lieutenant.book at h
  simp only [Prod.mk.injEq] at h
  obtain ⟨-, -, -, h4, h5, h6⟩ := h
  exact ⟨h4, h6, le_of_eq h5.symm, queueInv_of_book h0⟩

theorem book_eq_iff (a b : Lieutenant) :
    b.book = a.book ↔ (b.values = a.values ∧ b.msgsToForward = a.msgsToForward
      ∧ b.forwardLog = a.forwardLog ∧ b.roundLog = a.roundLog ∧ b.round = a.round
      ∧ b.maxFailures = a.maxFailures) := by
  unfold Lieutenant.book
  simp only [Prod.mk.injEq]

theorem constructMessage_book (cr : Crypto) (l : Lieutenant) (m : SignedMessage)
    (ho : isU32 m.order) :
    match l.constructMessage cr m with
    | .ok (fwd, l1) => l1.book = l.book ∧ ntohl fwd.order = m.order
    | .error e => e.2.book = l.book ∧ ¬ cr.signs := by
  unfold Lieutenant.constructMessage General.signMessage
  cases hs : cr.sign l.myId (m.sigs.getD (l.round - 1) default).signature with
  | none =>
    refine ⟨rfl, fun hsigns => ?_⟩
    have := hsigns l.myId (m.sigs.getD (l.round - 1) default).signature
    rw [hs] at this
    exact absurd this (by simp)
  | some sg => exact ⟨rfl, ntohl_htonl _ ho⟩

theorem queueInv_insert (l l3 : Lieutenant) (o : Nat) (hv : l3.values = setInsert o l.values)
    (hq : l3.msgsToForward = l.msgsToForward) (hf : l3.forwardLog = l.forwardLog)
    (hinv : l.queueInv) : l3.queueInv := by
  unfold Lieutenant.queueInv forwardedOrders at *
  rw [hv, hq, hf]
  exact ⟨hinv.1, fun x hx => (mem_setInsert o l.values x).2 (Or.inr (hinv.2.1 x hx)), hinv.2.2⟩

theorem queueInv_push (l l5 : Lieutenant) (fwd : SignedMessage)
    (hv : l5.values = setInsert (ntohl fwd.order) l.values)
    (hq : l5.msgsToForward = l.msgsToForward ++ [fwd]) (hf : l5.forwardLog = l.forwardLog ++ [fwd])
    (hn : ntohl fwd.order ∉ l.values) (hinv : l.queueInv) : l5.queueInv := by
  unfold Lieutenant.queueInv forwardedOrders at *
  rw [hv, hq, hf, List.map_append]
  refine ⟨?_, ?_, List.Sublist.append hinv.2.2 (List.Sublist.refl _)⟩
  · rw [List.nodup_append]
    refine ⟨hinv.1, by simp, ?_⟩
    intro a ha hb
    simp only [List.map_cons, List.map_nil, List.mem_singleton] at hb
    exact hn (hb ▸ hinv.2.1 a ha)
  · intro x hx
    rw [List.mem_append] at hx
    rw [mem_setInsert]
    rcases hx with h | h
    · exact Or.inr (hinv.2.1 x h)
    · simp only [List.map_cons, List.map_nil, List.mem_singleton] at h
      exact Or.inl h

theorem includeValue_evolves (cr : Crypto) (l : Lieutenant) (m : SignedMessage)
    (ho : isU32 m.order) (hn : m.order ∉ l.values) :
    Throws.ends cr.signs l.evolves id (l.includeValue cr m) := by
  unfold Lieutenant.includeValue
  have h2 : ∃ l2 : Lieutenant, (if m.total_sigs > l.round then { l with round := l.round + 1 } else l) = l2
      ∧ l.round ≤ l2.round ∧ l2.roundLog = l.roundLog ∧ l2.maxFailures = l.maxFailures
      ∧ l2.values = l.values ∧ l2.msgsToForward = l.msgsToForward
      ∧ l2.forwardLog = l.forwardLog := by
    refine ⟨_, rfl, ?_⟩
    split
    · exact ⟨Nat.le_succ _, rfl, rfl, rfl, rfl, rfl⟩
    · exact ⟨le_refl _, rfl, rfl, rfl, rfl, rfl⟩
  obtain ⟨l2, hl2, hr, hlog, hmf, hv, hq, hf⟩ := h2
  simp only [hl2]
  have h3 : ∃ l3 : Lieutenant,
      ({ l2 with values := setInsert m.order l2.values, state := VALUE_INCLUDED } : Lieutenant) = l3
      ∧ l3.round = l2.round ∧ l3.roundLog = l2.roundLog ∧ l3.maxFailures = l2.maxFailures
      ∧ l3.values = setInsert m.order l2.values ∧ l3.msgsToForward = l2.msgsToForward
      ∧ l3.forwardLog = l2.forwardLog := ⟨_, rfl, rfl, rfl, rfl, rfl, rfl, rfl⟩
  obtain ⟨l3, hl3, hr3, hlog3, hmf3, hv3, hq3, hf3⟩ := h3
  rw [hl3]
  have hc := constructMessage_book cr l3 m ho
  cases hcm : l3.constructMessage cr m with
  | error e =>
    rw [hcm] at hc
    obtain ⟨hb, hno⟩ := hc
    rw [book_eq_iff] at hb
    obtain ⟨b1, b2, b3, b4, b5, b6⟩ := hb
    refine ⟨⟨?_, ?_, ?_, fun hinv => ?_⟩, hno⟩
    · rw [b4, hlog3, hlog]
    · rw [b6, hmf3, hmf]
    · rw [b5, hr3]; exact hr
    · exact queueInv_insert l e.2 m.order (by rw [b1, hv3, hv]) (by rw [b2, hq3, hq])
        (by rw [b3, hf3, hf]) hinv
  | ok x =>
    obtain ⟨fwd, l4⟩ := x
    rw [hcm] at hc
    obtain ⟨hb, hord⟩ := hc
    rw [book_eq_iff] at hb
    obtain ⟨b1, b2, b3, b4, b5, b6⟩ := hb
    refine ⟨?_, ?_, ?_, fun hinv => ?_⟩
    · show l4.roundLog = l.roundLog
      rw [b4, hlog3, hlog]
    · show l4.maxFailures = l.maxFailures
      rw [b6, hmf3, hmf]
    · show l.round ≤ l4.round
      rw [b5, hr3]; exact hr
    · refine queueInv_push l _ fwd ?_ ?_ ?_ (by rw [hord]; exact hn) hinv
      · show l4.values = _
        rw [b1, hv3, hv, hord]
      · show l4.msgsToForward ++ [fwd] = _
        rw [b2, hq3, hq]
      · show l4.forwardLog ++ [fwd] = _
        rw [b3, hf3, hf]

theorem handleMessage_evolves (cr : Crypto) (l : Lieutenant) (m : SignedMessage) (src n : Nat) :
    Throws.ends cr.signs l.evolves id (l.handleMessage cr m src n) := by
  unfold Lieutenant.handleMessage
  have h0 : l.evolves (l.sendAck src) := evolves_of_book rfl
  split
  · rename_i hm
    dsimp only
    split
    · have h1 : (l.sendAck src).evolves
          ((l.sendAck src).verifySignatures cr m.order ((n - sizeofSignedMessage) / sizeofSig) m.sigs) :=
        evolves_of_book (verifySignatures_book _ _ _ _ _)
      split
      · rename_i hv
        have ho : isU32 m.order := by
          rcases hm.2 with h | h
          · rw [h]; show isU32 0; decide
          · rw [h]; show isU32 1; decide
        have hn : m.order ∉ ((l.sendAck src).verifySignatures cr m.order
            ((n - sizeofSignedMessage) / sizeofSig) m.sigs).values := by
          intro hmem
          have := (isValueInSet_iff _ _).2 hmem
          rw [hv.2] at this
          exact absurd this (by simp)
        exact Throws.ends_weaken (includeValue_evolves cr _ m ho hn) id
          (fun x hx => evolves_trans (evolves_trans h0 h1) hx)
      · exact evolves_trans h0 h1
    · exact h0
  · exact h0

theorem handleAck_book (l : Lieutenant) (ackData : Ack) (src : Nat) :
    (l.handleAck ackData src).book = l.book := by
  unfold Lieutenant.handleAck
  split
  · exact book_of_general l _ (writeQueue_book _ _ _)
  · rfl

theorem finish_book (x : Lieutenant) :
    (if x.numMsgsSent = 0 then { x with state := ALL_ACKS_RECEIVED } else x).book = x.book := by
  split <;> rfl

theorem receiveOne_evolves (cr : Crypto) (l : Lieutenant) (d : Datagram) :
    Throws.ends cr.signs l.evolves id (l.receiveOne cr d) := by
  unfold Lieutenant.receiveOne
  dsimp only
  split
  · refine evolves_of_book ((finish_book _).trans ?_)
    have h1 : (({ l with state := ACK_RECEIVED } : Lieutenant).handleAck
        (ntoh_ack (castAck d.buffer)) d.src).book = l.book := handleAck_book _ _ _
    split
    · exact h1
    · exact h1
  · split
    · have h1 := handleMessage_evolves cr { l with state := MSG_RECEIVED }
        (ntoh_sm (castSignedMessage d.buffer) d.numBytes) d.src d.numBytes
      have h0 : l.evolves { l with state := MSG_RECEIVED } := evolves_of_book rfl
      cases hh : Lieutenant.handleMessage cr { l with state := MSG_RECEIVED }
          (ntoh_sm (castSignedMessage d.buffer) d.numBytes) d.src d.numBytes with
      | error e =>
        rw [hh] at h1
        exact ⟨evolves_trans h0 h1.1, h1.2⟩
      | ok l2 =>
        rw [hh] at h1
        exact evolves_trans (evolves_trans h0 h1) (evolves_of_book (finish_book _))
    · exact evolves_of_book (finish_book _)

theorem receiveLoop_evolves (cr : Crypto) :
    ∀ (attempts : List RecvAttempt) (diff : Nat) (l : Lieutenant),
      Throws.ends cr.signs l.evolves id (Lieutenant.receiveLoop cr attempts diff l)
  | [], diff, l => evolves_refl l
  | a :: rest, diff, l => by
    unfold Lieutenant.receiveLoop
    split
    · split
      · exact receiveLoop_evolves cr rest a.diff l
      · rename_i d hd
        have h1 := receiveOne_evolves cr l d
        cases hr : l.receiveOne cr d with
        | error e =>
          rw [hr] at h1
          exact h1
        | ok l1 =>
          rw [hr] at h1
          exact Throws.ends_weaken (receiveLoop_evolves cr rest a.diff l1) id
            (fun x hx => evolves_trans h1 hx)
    · exact evolves_refl l

theorem receiveMessage_evolves (cr : Crypto) (attempts : List RecvAttempt) (l : Lieutenant) :
    Throws.ends cr.signs l.evolves id (Lieutenant.receiveMessage cr attempts l) := by
  unfold Lieutenant.receiveMessage
  have h1 := receiveLoop_evolves cr attempts 0 l
  cases hr : Lieutenant.receiveLoop cr attempts 0 l with
  | error e =>
    rw [hr] at h1
    exact h1
  | ok l1 =>
    rw [hr] at h1
    refine evolves_trans h1 (evolves_of_book ?_)
    split <;> rfl

theorem roundLoop_evolves (cr : Crypto) :
    ∀ (its : List RecvIter) (diff : Nat) (l : Lieutenant),
      Throws.ends (cr.signs ∧ ∀ it ∈ its, ∀ p ∈ it.passes, p.resolves) l.evolves id
        (Lieutenant.roundLoop cr its diff l)
  | [], diff, l => evolves_refl l
  | it :: its, diff, l => by
    unfold Lieutenant.roundLoop
    split
    · have h0 : l.evolves { l with state := WAITING } := evolves_of_book rfl
      have h1 := receiveMessage_evolves cr it.attempts { l with state := WAITING }
      cases hr : Lieutenant.receiveMessage cr it.attempts { l with state := WAITING } with
      | error e =>
        rw [hr] at h1
        exact ⟨evolves_trans h0 h1.1, fun h => h1.2 h.1⟩
      | ok l1 =>
        rw [hr] at h1
        have h01 := evolves_trans h0 h1
        show Throws.ends _ _ _ (if l1.state = ALL_ACKS_NOT_RECEIVED then _ else _)
        split
        · have h2 := forwardMessages_book it.passes l1
          cases hf : l1.forwardMessages it.passes with
          | error e =>
            rw [hf] at h2
            exact ⟨evolves_trans h01 (evolves_of_book h2.1),
              fun h => h2.2 (h.2 it (List.mem_cons_self _ _))⟩
          | ok x =>
            obtain ⟨l2, diff2⟩ := x
            rw [hf] at h2
            exact Throws.ends_weaken (roundLoop_evolves cr its diff2 l2)
              (fun h => ⟨h.1, fun j hj => h.2 j (List.mem_cons_of_mem _ hj)⟩)
              (fun x hx => evolves_trans (evolves_trans h01 (evolves_of_book h2)) hx)
        · exact Throws.ends_weaken (roundLoop_evolves cr its it.diff l1)
            (fun h => ⟨h.1, fun j hj => h.2 j (List.mem_cons_of_mem _ hj)⟩)
            (fun x hx => evolves_trans h01 hx)
    · exact evolves_refl l

theorem roundPhases_evolves (cr : Crypto) (r : RoundEnv) (l : Lieutenant) :
    Throws.ends (cr.signs ∧ r.resolves) l.evolves id (Lieutenant.roundPhases cr r l) := by
  unfold Lieutenant.roundPhases
  split
  · have h0 : l.evolves l.beginForwarding := evolves_of_book rfl
    have h2 := forwardMessages_book r.passes l.beginForwarding
    cases hf : l.beginForwarding.forwardMessages r.passes with
    | error e =>
      rw [hf] at h2
      exact ⟨evolves_trans h0 (evolves_of_book h2.1), fun h => h2.2 h.2.1⟩
    | ok x =>
      obtain ⟨l2, diff⟩ := x
      rw [hf] at h2
      exact Throws.ends_weaken (roundLoop_evolves cr r.iters diff l2)
        (fun h => ⟨h.1, h.2.2⟩)
        (fun x hx => evolves_trans (evolves_trans h0 (evolves_of_book h2)) hx)
  · exact Throws.ends_weaken (roundLoop_evolves cr r.iters 0 l) (fun h => ⟨h.1, h.2.2⟩)
      (fun x hx => hx)

theorem endRound_queueInv (l : Lieutenant) (h : l.queueInv) : l.endRound.queueInv := by
  unfold Lieutenant.endRound
  by_cases hr : l.round > 1
  · simp only [if_pos hr]
    exact ⟨h.1, h.2.1, List.nil_sublist _⟩
  · simp only [if_neg hr]
    exact h

theorem endRound_fields (l : Lieutenant) :
    l.endRound.round = l.round + 1 ∧ l.endRound.roundLog = l.roundLog
      ∧ l.endRound.maxFailures = l.maxFailures ∧ l.endRound.state = l.state := by
  unfold Lieutenant.endRound
  by_cases hr : l.round > 1
  · rw [if_pos hr]
    exact ⟨rfl, rfl, rfl, rfl⟩
  · rw [if_neg hr]
    exact ⟨rfl, rfl, rfl, rfl⟩

/-! ### The loop of `receiveAndForward` -/

theorem receiveAndForward_queueInv (cr : Crypto) :
    ∀ (rounds : List RoundEnv) (l : Lieutenant) (r : Throws Lieutenant Lieutenant),
      l.queueInv → Lieutenant.receiveAndForward cr rounds l = some r → (stateOf r).queueInv
  | [], l, r, hinv, h => by
    rw [Lieutenant.receiveAndForward] at h
    split at h
    · exact absurd h (by simp)
    · simp only [Option.some.injEq] at h
      rw [← h]
      exact hinv
  | e :: rs, l, r, hinv, h => by
    rw [Lieutenant.receiveAndForward] at h
    split at h
    · split at h
      · exact receiveAndForward_queueInv cr rs { l with state := DONE } r hinv h
      · have h1 := roundPhases_evolves cr e { l with roundLog := l.roundLog ++ [l.round] }
        cases hp : Lieutenant.roundPhases cr e { l with roundLog := l.roundLog ++ [l.round] } with
        | error x =>
          rw [hp] at h1 h
          simp only [Option.some.injEq] at h
          rw [← h]
          exact h1.1.2.2.2 hinv
        | ok l3 =>
          rw [hp] at h1 h
          exact receiveAndForward_queueInv cr rs _ r (endRound_queueInv _ (h1.2.2.2 hinv)) h
    · simp only [Option.some.injEq] at h
      rw [← h]
      exact hinv

theorem receiveAndForward_rounds (cr : Crypto) (f : Nat) :
    ∀ (rounds : List RoundEnv) (l : Lieutenant), l.roundInv f →
      (∀ r, Lieutenant.receiveAndForward cr rounds l = some r →
        (stateOf r).roundsBounded f ∧ (∀ l1, r = .ok l1 → l1.state = DONE)
          ∧ (cr.signs → (∀ e ∈ rounds, e.resolves) → ∃ l1, r = .ok l1))
      ∧ ((l.state = DONE ∨ (if l.round > f + 1 then 1 else f + 3 - l.round) ≤ rounds.length) →
          ∃ r, Lieutenant.receiveAndForward cr rounds l = some r)
  | [], l, hinv => by
    rw [Lieutenant.receiveAndForward]
    by_cases hd : l.state = DONE
    · rw [if_neg (not_not.2 hd)]
      refine ⟨fun r h => ?_, fun _ => ⟨_, rfl⟩⟩
      simp only [Option.some.injEq] at h
      rw [← h]
      exact ⟨⟨hinv.2.2.1, hinv.2.2.2⟩, fun l1 h1 => by
        simp only [Except.ok.injEq] at h1
        rw [← h1]; exact hd, fun _ _ => ⟨l, rfl⟩⟩
    · rw [if_pos hd]
      refine ⟨fun r h => absurd h (by simp), fun h => ?_⟩
      rcases h with h | h
      · exact absurd h hd
      · exfalso
        simp only [List.length_nil] at h
        split at h <;> omega
  | e :: rs, l, hinv => by
    obtain ⟨hmf, hlen, hlen2, hall⟩ := hinv
    rw [Lieutenant.receiveAndForward]
    by_cases hd : l.state = DONE
    · rw [if_neg (not_not.2 hd)]
      refine ⟨fun r h => ?_, fun _ => ⟨_, rfl⟩⟩
      simp only [Option.some.injEq] at h
      rw [← h]
      exact ⟨⟨hlen2, hall⟩, fun l1 h1 => by
        simp only [Except.ok.injEq] at h1
        rw [← h1]; exact hd, fun _ _ => ⟨l, rfl⟩⟩
    · rw [if_pos hd]
      by_cases hc : l.round > 1 ∧ ¬ ((l.round : Int) ≤ l.maxFailures + 1)
      · rw [if_pos hc]
        have ih := receiveAndForward_rounds cr f rs { l with state := DONE }
          ⟨hmf, hlen, hlen2, hall⟩
        refine ⟨fun r h => ?_, fun _ => ih.2 (Or.inl rfl)⟩
        obtain ⟨a, b, c⟩ := ih.1 r h
        exact ⟨a, b, fun hs hr => c hs (fun x hx => hr x (List.mem_cons_of_mem _ hx))⟩
      · rw [if_neg hc]
        have hle : l.round ≤ f + 1 := by
          rw [hmf] at hc
          by_contra hcon
          exact hc ⟨by omega, by omega⟩
        have h1 := roundPhases_evolves cr e { l with roundLog := l.roundLog ++ [l.round] }
        cases hp : Lieutenant.roundPhases cr e { l with roundLog := l.roundLog ++ [l.round] } with
        | error x =>
          rw [hp] at h1
          obtain ⟨⟨e1, e2, e3, -⟩, hno⟩ := h1
          have e1' : x.2.roundLog = l.roundLog ++ [l.round] := e1
          refine ⟨fun r h => ?_, fun _ => ⟨_, rfl⟩⟩
          simp only [Option.some.injEq] at h
          rw [← h]
          refine ⟨⟨?_, ?_⟩, fun l1 h1 => absurd h1 (by simp), fun hs hr =>
            absurd ⟨hs, hr e (List.mem_cons_self _ _)⟩ hno⟩
          · show x.2.roundLog.length ≤ f + 1
            rw [e1', List.length_append, List.length_singleton]
            omega
          · show ∀ y ∈ x.2.roundLog, y ≤ f + 1
            rw [e1']
            intro y hy
            rw [List.mem_append, List.mem_singleton] at hy
            rcases hy with hy | hy
            · exact hall y hy
            · rw [hy]; exact hle
        | ok l3 =>
          rw [hp] at h1
          obtain ⟨e1, e2, e3, -⟩ := h1
          have e1' : l3.roundLog = l.roundLog ++ [l.round] := e1
          have e2' : l3.maxFailures = l.maxFailures := e2
          have e3' : l.round ≤ l3.round := e3
          obtain ⟨f1, f2, f3, f4⟩ := endRound_fields l3
          have hinv3 : l3.endRound.roundInv f := by
            refine ⟨by rw [f3, e2', hmf], ?_, ?_, ?_⟩
            · rw [f1, f2, e1', List.length_append, List.length_singleton]
              omega
            · rw [f2, e1', List.length_append, List.length_singleton]
              omega
            · rw [f2, e1']
              intro y hy
              rw [List.mem_append, List.mem_singleton] at hy
              rcases hy with hy | hy
              · exact hall y hy
              · rw [hy]; exact hle
          have ih := receiveAndForward_rounds cr f rs l3.endRound hinv3
          refine ⟨fun r h => ?_, fun h => ih.2 ?_⟩
          · obtain ⟨a, b, c⟩ := ih.1 r h
            exact ⟨a, b, fun hs hr => c hs (fun x hx => hr x (List.mem_cons_of_mem _ hx))⟩
          · right
            rcases h with h | h
            · exact absurd h hd
            · rw [f1]
              simp only [List.length_cons] at h
              rw [if_neg (by omega)] at h
              split <;> omega

theorem handleMessage_known (cr : Crypto) (l : Lieutenant) (m : SignedMessage) (src n : Nat)
    (hmem : m.order ∈ l.values) :
    ∃ l1, l.handleMessage cr m src n = .ok l1 ∧ l1.book = l.book := by
  unfold Lieutenant.handleMessage
  have h0 : (l.sendAck src).book = l.book := rfl
  split
  · dsimp only
    split
    · have h1 : ((l.sendAck src).verifySignatures cr m.order ((n - sizeofSignedMessage) / sizeofSig)
          m.sigs).book = l.book := (verifySignatures_book _ _ _ _ _).trans h0
      split
      · rename_i hv
        exfalso
        have hval := ((book_eq_iff _ _).1 h1).1
        have := (isValueInSet_iff ((l.sendAck src).verifySignatures cr m.order
          ((n - sizeofSignedMessage) / sizeofSig) m.sigs) m.order).2 (by rw [hval]; exact hmem)
        rw [hv.2] at this
        exact absurd this (by simp)
      · exact ⟨_, rfl, h1⟩
    · exact ⟨_, rfl, h0⟩
  · exact ⟨_, rfl, h0⟩

theorem init_queueInv (info : GeneralInfo) : (Lieutenant.init info).queueInv :=
  ⟨List.nodup_nil, fun _ h => absurd h (List.not_mem_nil _), List.Sublist.refl _⟩

theorem init_roundInv (info : GeneralInfo) (f : Nat) (hf : info.maxFailures = f) :
    (Lieutenant.init info).roundInv f :=
  ⟨hf, Nat.le_refl _, Nat.zero_le _, fun _ h => absurd h (List.not_mem_nil _)⟩

theorem queueInv_queuedOrders (l : Lieutenant) (h : l.queueInv) : (queuedOrders l).Nodup :=
  List.Nodup.sublist (List.Sublist.map _ h.2.2) h.1

/-! ### At most one forward for an order -/

/-- C12. In a run of `receiveAndForward` from the constructed lieutenant, with
any signature scheme, any configuration and any trace of datagrams, send
outcomes and clock readings, the forwards queued up to the end of the run (or
up to the throw) carry pairwise different orders, and so do the messages that
`msgsToForward` holds then. And `handleMessage`, called with a message whose
order is already in `values`, returns and leaves `values`, `msgsToForward`,
`round` and the log of the queued forwards as they were. -/
theorem forward_once_per_order (cr : Crypto) (info : GeneralInfo) (rounds : List RoundEnv)
    (r : Throws Lieutenant Lieutenant)
    (h : Lieutenant.receiveAndForward cr rounds (Lieutenant.init info) = some r) :
    ((forwardedOrders (stateOf r)).Nodup ∧ (queuedOrders (stateOf r)).Nodup
      ∧ (stateOf r).msgsToForward.Sublist (stateOf r).forwardLog)
    ∧ ∀ (l : Lieutenant) (m : SignedMessage) (src n : Nat), m.order ∈ l.values →
        ∃ l1, l.handleMessage cr m src n = .ok l1 ∧ l1.values = l.values
          ∧ l1.msgsToForward = l.msgsToForward ∧ l1.round = l.round
          ∧ l1.forwardLog = l.forwardLog := by
  have hq := receiveAndForward_queueInv cr rounds _ r (init_queueInv info) h
  refine ⟨⟨hq.1, queueInv_queuedOrders _ hq, hq.2.2⟩, fun l m src n hmem => ?_⟩
  obtain ⟨l1, h1, hb⟩ := handleMessage_known cr l m src n hmem
  obtain ⟨b1, b2, b3, -, b5, -⟩ := (book_eq_iff _ _).1 hb
  exact ⟨l1, h1, b1, b2, b5, b3⟩

set_option maxRecDepth 1000000 in
theorem forward_once_per_order_witness :
    ∃ r, Lieutenant.receiveAndForward (demoCrypto 2)
          [firstRound [(ATTACK, 100000), (RETREAT, 520000)], secondRound 3, quietRound, lastRound]
          (Lieutenant.init (demoInfo 2 2)) = some r
      ∧ (forwardedOrders (stateOf r)).Nodup ∧ (queuedOrders (stateOf r)).Nodup
      ∧ ∃ l1, lateOrderTop.handleMessage (demoCrypto 2) (decodeDatagram
            (received 4 (messageBytes (signedOrder ATTACK)) 101)) 101 272 = .ok l1
          ∧ l1.values = lateOrderTop.values := by
  obtain ⟨r, hr⟩ := Option.isSome_iff_exists.1
    (show (Lieutenant.receiveAndForward (demoCrypto 2)
          [firstRound [(ATTACK, 100000), (RETREAT, 520000)], secondRound 3, quietRound, lastRound]
          (Lieutenant.init (demoInfo 2 2))).isSome = true by decide)
  have h := forward_once_per_order (demoCrypto 2) (demoInfo 2 2) _ r hr
  obtain ⟨l1, h1, h2, -⟩ := h.2 lateOrderTop (decodeDatagram
    (received 4 (messageBytes (signedOrder ATTACK)) 101)) 101 272 (by decide)
  exact ⟨r, hr, h.1.1, h.1.2.1, l1, h1, h2⟩

/-! ### The number of rounds -/

/-- C13. Let `f ≥ 0` failures be tolerated (`f + 1` within the range of `int`)
and let the trace provide for at least `f + 2` iterations of the loop. Then `receiveAndForward`, started from the
constructed lieutenant (round 1), ends within the trace, by a return or by a
throw of one of its phases; the forwarding and receive phases were entered at
most `f + 1` times, never with a round above `f + 1`; a return leaves the state
`DONE`; and when signing never fails and no `getaddrinfo` fails, it ends by a
return. This holds for every signature scheme and every trace of datagrams,
send outcomes and clock readings. -/
theorem receiveAndForward_round_bound (cr : Crypto) (info : GeneralInfo) (f : Nat)
    (rounds : List RoundEnv) (hf : info.maxFailures = f) (_hint : f + 1 < 2 ^ 31)
    (hlen : f + 2 ≤ rounds.length) :
    ∃ r, Lieutenant.receiveAndForward cr rounds (Lieutenant.init info) = some r
      ∧ (stateOf r).roundLog.length ≤ f + 1
      ∧ (∀ x ∈ (stateOf r).roundLog, x ≤ f + 1)
      ∧ (∀ l1, r = .ok l1 → l1.state = DONE)
      ∧ (cr.signs → (∀ e ∈ rounds, e.resolves) → ∃ l1, r = .ok l1 ∧ l1.state = DONE) := by
  have hmain := receiveAndForward_rounds cr f rounds (Lieutenant.init info) (init_roundInv info f hf)
  obtain ⟨r, hr⟩ := hmain.2 (Or.inr (by
    show (if 1 > f + 1 then 1 else f + 3 - 1) ≤ rounds.length
    rw [if_neg (by omega)]
    omega))
  obtain ⟨a, b, c⟩ := hmain.1 r hr
  refine ⟨r, hr, a.1, a.2, b, fun hs hres => ?_⟩
  obtain ⟨l1, hl1⟩ := c hs hres
  exact ⟨l1, hl1, b l1 hl1⟩

set_option maxRecDepth 1000000 in
theorem receiveAndForward_round_bound_witness :
    (demoInfo 3 2).maxFailures = ((2 : Nat) : Int) ∧ 2 + 1 < 2 ^ 31
    ∧ 2 + 2 ≤ [firstRound [(ATTACK, 520000)], secondRound 2, quietRound, lastRound].length
    ∧ (demoCrypto 3).signs
    ∧ (∀ e ∈ [firstRound [(ATTACK, 520000)], secondRound 2, quietRound, lastRound], e.resolves)
    ∧ ∃ r, Lieutenant.receiveAndForward (demoCrypto 3)
          [firstRound [(ATTACK, 520000)], secondRound 2, quietRound, lastRound]
          (Lieutenant.init (demoInfo 3 2)) = some r
        ∧ (stateOf r).roundLog.length ≤ 2 + 1
        ∧ (∀ x ∈ (stateOf r).roundLog, x ≤ 2 + 1)
        ∧ (∀ l1, r = .ok l1 → l1.state = DONE)
        ∧ ((demoCrypto 3).signs
            → (∀ e ∈ [firstRound [(ATTACK, 520000)], secondRound 2, quietRound, lastRound],
                e.resolves)
            → ∃ l1, r = .ok l1 ∧ l1.state = DONE) :=
  ⟨rfl, by decide, by decide, fun _ _ => rfl,
    by simp [RoundEnv.resolves, SendPass.resolves, firstRound, secondRound, quietRound, lastRound,
        quietIter, cleanPass],
    receiveAndForward_round_bound (demoCrypto 3) (demoInfo 3 2) 2
      [firstRound [(ATTACK, 520000)], secondRound 2, quietRound, lastRound] rfl (by decide)
      (by decide)⟩

/-! ### The indices used with `sendQueue` -/

theorem writeQueue_index (g : General) (i v : Nat) :
    (g.writeQueue i v).sendQueue.length = g.sendQueue.length
    ∧ (g.writeQueue i v).oobWrites
        = (if i < g.sendQueue.length then g.oobWrites else g.oobWrites ++ [i]) := by
  unfold General.writeQueue
  by_cases h : i < g.sendQueue.length
  · rw [if_pos h, if_pos h]
    exact ⟨List.length_set _ _ _, rfl⟩
  · rw [if_neg h, if_neg h]
    exact ⟨rfl, rfl⟩

theorem sendMessage_in_bounds (out : SendOutcome) (g : General) (m : SignedMessage) (k : Nat)
    (hk : k < g.sendQueue.length) :
    Throws.ends False
      (fun g1 => g1.oobWrites = g.oobWrites ∧ g1.sendQueue.length = g.sendQueue.length) id
      (g.sendMessage out m k) := by
  have hw : ∀ v, (({ g with sentLog := g.sentLog ++ [⟨k, m,
      sizeofSignedMessage + sizeofSig * g.round, out⟩] } : General).writeQueue k v).oobWrites
        = g.oobWrites
      ∧ (({ g with sentLog := g.sentLog ++ [⟨k, m,
      sizeofSignedMessage + sizeofSig * g.round, out⟩] } : General).writeQueue k v).sendQueue.length
        = g.sendQueue.length := by
    intro v
    have h := writeQueue_index ({ g with sentLog := g.sentLog ++ [⟨k, m,
      sizeofSignedMessage + sizeofSig * g.round, out⟩] } : General) k v
    rw [if_pos (show k < g.sendQueue.length from hk)] at h
    exact ⟨h.2, h.1⟩
  unfold General.sendMessage
  cases out
  · exact ⟨⟨rfl, rfl⟩, not_false⟩
  · exact hw NOT_SENT
  · exact hw NOT_SENT
  · exact hw SENT

theorem sendOrderLoop_in_bounds (pick : Nat → Bool) (out : Nat → SendOutcome) (m : SignedMessage) :
    ∀ (is : List Nat) (g : General), (∀ i ∈ is, i < g.sendQueue.length) →
      Throws.ends False
        (fun g1 => g1.oobWrites = g.oobWrites ∧ g1.sendQueue.length = g.sendQueue.length) id
        (General.sendOrderLoop pick out m is g)
  | [], g, _ => ⟨rfl, rfl⟩
  | i :: rest, g, h => by
    unfold General.sendOrderLoop
    split
    · have h1 := sendMessage_in_bounds (out i) g m i (h i (List.mem_cons_self _ _))
      cases hsm : g.sendMessage (out i) m i with
      | error e =>
        rw [hsm] at h1
        exact h1
      | ok g1 =>
        rw [hsm] at h1
        have h1a : g1.oobWrites = g.oobWrites := h1.1
        have h1b : g1.sendQueue.length = g.sendQueue.length := h1.2
        exact Throws.ends_weaken
          (sendOrderLoop_in_bounds pick out m rest g1
            (fun j hj => by rw [h1b]; exact h j (List.mem_cons_of_mem _ hj)))
          id (fun x hx => ⟨hx.1.trans h1a, hx.2.trans h1b⟩)
    · exact sendOrderLoop_in_bounds pick out m rest g
        (fun j hj => h j (List.mem_cons_of_mem _ hj))

theorem sendIndices_lt (g : General) : ∀ i ∈ g.sendIndices, 1 ≤ i ∧ i < g.numGenerals := by
  intro i hi
  unfold General.sendIndices at hi
  rw [List.mem_range'_1] at hi
  omega

theorem sendOrder_in_bounds (out : Nat → SendOutcome) (g : General) (m : SignedMessage)
    (hlen : g.numGenerals ≤ g.sendQueue.length) :
    Throws.ends False
      (fun g1 => g1.oobWrites = g.oobWrites ∧ g1.sendQueue.length = g.sendQueue.length) id
      (g.sendOrder out m) := by
  have hidx : ∀ i ∈ g.sendIndices, i < g.sendQueue.length :=
    fun i hi => lt_of_lt_of_le (sendIndices_lt g i hi).2 hlen
  unfold General.sendOrder
  split
  · exact sendOrderLoop_in_bounds _ _ _ _ _ hidx
  · split
    · exact sendOrderLoop_in_bounds _ _ _ _ _ hidx
    · split
      · exact sendOrderLoop_in_bounds _ _ _ _ _ hidx
      · exact ⟨rfl, rfl⟩

theorem idIndex_lt (id n : Nat) (h1 : 1 ≤ id) (h2 : id ≤ n) : idIndex id < n := by
  unfold idIndex
  omega

theorem verifyLoop_in_bounds (cr : Crypto) (order : Nat) (signs : List Sig) (n : Nat)
    (hkeys : ∀ id data sg, cr.verify id data sg = true → 1 ≤ id ∧ id ≤ n) :
    ∀ (k : Nat) (l : Lieutenant), n ≤ l.sendQueue.length →
      (Lieutenant.verifyLoop cr order signs k l).1.oobWrites = l.oobWrites
      ∧ (Lieutenant.verifyLoop cr order signs k l).1.sendQueue.length = l.sendQueue.length
  | 0, l, _ => ⟨rfl, rfl⟩
  | k + 1, l, hlen => by
    by_cases h : verifiesAt cr order signs k = true
    · rw [Lieutenant.verifyLoop, if_pos h]
      have hid := hkeys _ _ _ h
      have hw := writeQueue_index l.toGeneral (idIndex (signs.getD k default).id) DO_NOT_SEND
      rw [if_pos (lt_of_lt_of_le (idIndex_lt _ n hid.1 hid.2) hlen)] at hw
      have ih := verifyLoop_in_bounds cr order signs n hkeys k
        { l with toGeneral :=
            l.toGeneral.writeQueue (idIndex (signs.getD k default).id) DO_NOT_SEND }
        (by show n ≤ (l.toGeneral.writeQueue _ _).sendQueue.length; rw [hw.1]; exact hlen)
      exact ⟨ih.1.trans hw.2, ih.2.trans hw.1⟩
    · rw [Lieutenant.verifyLoop, if_neg h]
      exact ⟨rfl, rfl⟩

theorem verifySignatures_in_bounds (cr : Crypto) (l : Lieutenant) (order k : Nat)
    (signs : List Sig) (n : Nat)
    (hkeys : ∀ id data sg, cr.verify id data sg = true → 1 ≤ id ∧ id ≤ n)
    (hlen : n ≤ l.sendQueue.length) :
    (l.verifySignatures cr order k signs).oobWrites = l.oobWrites
    ∧ (l.verifySignatures cr order k signs).sendQueue.length = l.sendQueue.length := by
  have h := verifyLoop_in_bounds cr order signs n hkeys k l hlen
  unfold Lieutenant.verifySignatures
  split
  · split
    · exact h
    · exact h
  · exact ⟨rfl, rfl⟩

theorem handleAck_index (l : Lieutenant) (ackData : Ack) (src : Nat)
    (h : ackData.type = TYPE_ACK ∧ ackData.round = l.round) :
    (l.handleAck ackData src).oobWrites
      = (if lookupId l.ipToId src < l.sendQueue.length then l.oobWrites
         else l.oobWrites ++ [lookupId l.ipToId src]) := by
  unfold Lieutenant.handleAck
  rw [if_pos h]
  exact (writeQueue_index l.toGeneral (lookupId l.ipToId src) ACKED).2

theorem handleAckBuffer_index (c : Commander) (buffer : List Nat) (src : Nat)
    (h : (ntoh_ack (castAck buffer)).type = TYPE_ACK ∧ (ntoh_ack (castAck buffer)).round = c.round) :
    (c.handleAckBuffer buffer src).1.oobWrites
      = (if lookupId c.ipToId src < c.sendQueue.length then c.oobWrites
         else c.oobWrites ++ [lookupId c.ipToId src]) := by
  unfold Commander.handleAckBuffer
  dsimp only
  rw [if_pos h]
  have hw := (writeQueue_index ({ c.toGeneral with numMsgsSent := c.numMsgsSent - 1 } : General)
    (lookupId c.ipToId src) ACKED).2
  split
  · exact hw
  · exact hw

set_option maxRecDepth 1000000 in
/-- C21 (the code at the failing input). Four generals, one failure tolerated,
nobody faulty: `sendQueue` has 4 entries and `ipToId` gives the ids 1 to 4 for
the addresses of the generals (0 for an address not in the hostfile). In the
run of the commander the `Ack` of lieutenant 4 for round 1 is written at index
4, outside the array; in the run of lieutenant 2 the `Ack` of lieutenant 4 for
the forward of round 2 is written at index 4 as well. Both runs return
ATTACK. -/
theorem ack_of_last_general_out_of_bounds :
    (match allAckCommanderRun with
      | .ok (order, c) => some (order, indexReport c.toGeneral)
      | .error _ => none) = some (ATTACK, 4, [1, 2, 3, 4, 0], [4])
    ∧ (finalOf allAckLieutenantRun).map (fun l => indexReport l.toGeneral)
        = some (4, [1, 2, 3, 4, 0], [4])
    ∧ decisionOf allAckLieutenantRun = some ATTACK := by
  refine ⟨by decide, by decide, by decide⟩

/-! ### The value set -/

theorem grows_refl (l : Lieutenant) : l.grows l := ⟨fun _ h => h, fun _ h => Or.inl h⟩

theorem grows_trans {a b c : Lieutenant} (h1 : a.grows b) (h2 : b.grows c) : a.grows c :=
  ⟨fun v hv => h2.1 v (h1.1 v hv), fun v hv => by
    rcases h2.2 v hv with h | h
    · exact h1.2 v h
    · exact Or.inr h⟩

theorem grows_of_values {a b : Lieutenant} (h : b.values = a.values) : a.grows b :=
  ⟨fun v hv => by rw [h]; exact hv, fun v hv => by rw [h] at hv; exact Or.inl hv⟩

theorem grows_of_book {a b : Lieutenant} (h : b.book = a.book) : a.grows b :=
  grows_of_values ((book_eq_iff a b).1 h).1

theorem grows_valuesInv {a b : Lieutenant} (h : a.grows b) (ha : a.valuesInv) : b.valuesInv :=
  fun v hv => by
    rcases h.2 v hv with h1 | h1
    · exact ha v h1
    · exact h1

theorem includeValue_grows (cr : Crypto) (l : Lieutenant) (m : SignedMessage)
    (ho : m.order = RETREAT ∨ m.order = ATTACK) :
    Throws.ends cr.signs l.grows id (l.includeValue cr m) := by
  have hu : isU32 m.order := by
    rcases ho with h | h
    · rw [h]; show isU32 0; decide
    · rw [h]; show isU32 1; decide
  have hins : ∀ l5 : Lieutenant, l5.values = setInsert m.order l.values → l.grows l5 := by
    intro l5 h5
    refine ⟨fun v hv => ?_, fun v hv => ?_⟩
    · rw [h5, mem_setInsert]; exact Or.inr hv
    · rw [h5, mem_setInsert] at hv
      rcases hv with h | h
      · rw [h]; exact Or.inr ho
      · exact Or.inl h
  unfold Lieutenant.includeValue
  have h2 : ∃ l2 : Lieutenant,
      (if m.total_sigs > l.round then { l with round := l.round + 1 } else l) = l2
      ∧ l2.values = l.values := by
    refine ⟨_, rfl, ?_⟩
    split <;> rfl
  obtain ⟨l2, hl2, hv⟩ := h2
  simp only [hl2]
  have h3 : ∃ l3 : Lieutenant,
      ({ l2 with values := setInsert m.order l2.values, state := VALUE_INCLUDED } : Lieutenant) = l3
      ∧ l3.values = setInsert m.order l2.values := ⟨_, rfl, rfl⟩
  obtain ⟨l3, hl3, hv3⟩ := h3
  rw [hl3]
  have hc := constructMessage_book cr l3 m hu
  cases hcm : l3.constructMessage cr m with
  | error e =>
    rw [hcm] at hc
    obtain ⟨hb, hno⟩ := hc
    exact ⟨hins e.2 (by rw [((book_eq_iff _ _).1 hb).1, hv3, hv]), hno⟩
  | ok x =>
    obtain ⟨fwd, l4⟩ := x
    rw [hcm] at hc
    refine hins _ ?_
    show l4.values = _
    rw [((book_eq_iff _ _).1 hc.1).1, hv3, hv]

theorem handleMessage_grows (cr : Crypto) (l : Lieutenant) (m : SignedMessage) (src n : Nat) :
    Throws.ends cr.signs l.grows id (l.handleMessage cr m src n) := by
  unfold Lieutenant.handleMessage
  have h0 : l.grows (l.sendAck src) := grows_of_values rfl
  split
  · rename_i hm
    dsimp only
    split
    · have h1 : (l.sendAck src).grows
          ((l.sendAck src).verifySignatures cr m.order ((n - sizeofSignedMessage) / sizeofSig) m.sigs) :=
        grows_of_book (verifySignatures_book _ _ _ _ _)
      split
      · exact Throws.ends_weaken (includeValue_grows cr _ m hm.2) id
          (fun x hx => grows_trans (grows_trans h0 h1) hx)
      · exact grows_trans h0 h1
    · exact h0
  · exact h0

theorem receiveOne_grows (cr : Crypto) (l : Lieutenant) (d : Datagram) :
    Throws.ends cr.signs l.grows id (l.receiveOne cr d) := by
  unfold Lieutenant.receiveOne
  dsimp only
  split
  · refine grows_of_book ((finish_book _).trans ?_)
    have h1 : (({ l with state := ACK_RECEIVED } : Lieutenant).handleAck
        (ntoh_ack (castAck d.buffer)) d.src).book = l.book := handleAck_book _ _ _
    split
    · exact h1
    · exact h1
  · split
    · have h1 := handleMessage_grows cr { l with state := MSG_RECEIVED }
        (ntoh_sm (castSignedMessage d.buffer) d.numBytes) d.src d.numBytes
      have h0 : l.grows { l with state := MSG_RECEIVED } := grows_of_values rfl
      cases hh : Lieutenant.handleMessage cr { l with state := MSG_RECEIVED }
          (ntoh_sm (castSignedMessage d.buffer) d.numBytes) d.src d.numBytes with
      | error e =>
        rw [hh] at h1
        exact ⟨grows_trans h0 h1.1, h1.2⟩
      | ok l2 =>
        rw [hh] at h1
        exact grows_trans (grows_trans h0 h1) (grows_of_book (finish_book _))
    · exact grows_of_book (finish_book _)

theorem receiveLoop_grows (cr : Crypto) :
    ∀ (attempts : List RecvAttempt) (diff : Nat) (l : Lieutenant),
      Throws.ends cr.signs l.grows id (Lieutenant.receiveLoop cr attempts diff l)
  | [], diff, l => grows_refl l
  | a :: rest, diff, l => by
    unfold Lieutenant.receiveLoop
    split
    · split
      · exact receiveLoop_grows cr rest a.diff l
      · rename_i d hd
        have h1 := receiveOne_grows cr l d
        cases hr : l.receiveOne cr d with
        | error e =>
          rw [hr] at h1
          exact h1
        | ok l1 =>
          rw [hr] at h1
          exact Throws.ends_weaken (receiveLoop_grows cr rest a.diff l1) id
            (fun x hx => grows_trans h1 hx)
    · exact grows_refl l

theorem receiveMessage_grows (cr : Crypto) (attempts : List RecvAttempt) (l : Lieutenant) :
    Throws.ends cr.signs l.grows id (Lieutenant.receiveMessage cr attempts l) := by
  unfold Lieutenant.receiveMessage
  have h1 := receiveLoop_grows cr attempts 0 l
  cases hr : Lieutenant.receiveLoop cr attempts 0 l with
  | error e =>
    rw [hr] at h1
    exact h1
  | ok l1 =>
    rw [hr] at h1
    refine grows_trans h1 (grows_of_values ?_)
    split <;> rfl

theorem roundLoop_grows (cr : Crypto) :
    ∀ (its : List RecvIter) (diff : Nat) (l : Lieutenant),
      Throws.ends (cr.signs ∧ ∀ it ∈ its, ∀ p ∈ it.passes, p.resolves) l.grows id
        (Lieutenant.roundLoop cr its diff l)
  | [], diff, l => grows_refl l
  | it :: its, diff, l => by
    unfold Lieutenant.roundLoop
    split
    · have h0 : l.grows { l with state := WAITING } := grows_of_values rfl
      have h1 := receiveMessage_grows cr it.attempts { l with state := WAITING }
      cases hr : Lieutenant.receiveMessage cr it.attempts { l with state := WAITING } with
      | error e =>
        rw [hr] at h1
        exact ⟨grows_trans h0 h1.1, fun h => h1.2 h.1⟩
      | ok l1 =>
        rw [hr] at h1
        have h01 := grows_trans h0 h1
        show Throws.ends _ _ _ (if l1.state = ALL_ACKS_NOT_RECEIVED then _ else _)
        split
        · have h2 := forwardMessages_book it.passes l1
          cases hf : l1.forwardMessages it.passes with
          | error e =>
            rw [hf] at h2
            exact ⟨grows_trans h01 (grows_of_book h2.1),
              fun h => h2.2 (h.2 it (List.mem_cons_self _ _))⟩
          | ok x =>
            obtain ⟨l2, diff2⟩ := x
            rw [hf] at h2
            exact Throws.ends_weaken (roundLoop_grows cr its diff2 l2)
              (fun h => ⟨h.1, fun j hj => h.2 j (List.mem_cons_of_mem _ hj)⟩)
              (fun x hx => grows_trans (grows_trans h01 (grows_of_book h2)) hx)
        · exact Throws.ends_weaken (roundLoop_grows cr its it.diff l1)
            (fun h => ⟨h.1, fun j hj => h.2 j (List.mem_cons_of_mem _ hj)⟩)
            (fun x hx => grows_trans h01 hx)
    · exact grows_refl l

theorem roundPhases_grows (cr : Crypto) (r : RoundEnv) (l : Lieutenant) :
    Throws.ends (cr.signs ∧ r.resolves) l.grows id (Lieutenant.roundPhases cr r l) := by
  unfold Lieutenant.roundPhases
  split
  · have h0 : l.grows l.beginForwarding := grows_of_values rfl
    have h2 := forwardMessages_book r.passes l.beginForwarding
    cases hf : l.beginForwarding.forwardMessages r.passes with
    | error e =>
      rw [hf] at h2
      exact ⟨grows_trans h0 (grows_of_book h2.1), fun h => h2.2 h.2.1⟩
    | ok x =>
      obtain ⟨l2, diff⟩ := x
      rw [hf] at h2
      exact Throws.ends_weaken (roundLoop_grows cr r.iters diff l2)
        (fun h => ⟨h.1, h.2.2⟩)
        (fun x hx => grows_trans (grows_trans h0 (grows_of_book h2)) hx)
  · exact Throws.ends_weaken (roundLoop_grows cr r.iters 0 l) (fun h => ⟨h.1, h.2.2⟩)
      (fun x hx => hx)

theorem endRound_values (l : Lieutenant) : l.endRound.values = l.values := by
  unfold Lieutenant.endRound
  by_cases hr : l.round > 1
  · rw [if_pos hr]
  · rw [if_neg hr]

theorem receiveAndForward_grows (cr : Crypto) :
    ∀ (rounds : List RoundEnv) (l : Lieutenant) (r : Throws Lieutenant Lieutenant),
      Lieutenant.receiveAndForward cr rounds l = some r →
        l.grows (stateOf r) ∧ ∀ l1, r = .ok l1 → l1.state = DONE
  | [], l, r, h => by
    rw [Lieutenant.receiveAndForward] at h
    split at h
    · exact absurd h (by simp)
    · rename_i hd
      simp only [Option.some.injEq] at h
      rw [← h]
      refine ⟨grows_refl l, fun l1 h1 => ?_⟩
      simp only [Except.ok.injEq] at h1
      rw [← h1]
      exact not_not.1 hd
  | e :: rs, l, r, h => by
    rw [Lieutenant.receiveAndForward] at h
    split at h
    · split at h
      · have ih := receiveAndForward_grows cr rs { l with state := DONE } r h
        exact ⟨grows_trans (grows_of_values rfl) ih.1, ih.2⟩
      · have h0 : l.grows { l with roundLog := l.roundLog ++ [l.round] } := grows_of_values rfl
        have h1 := roundPhases_grows cr e { l with roundLog := l.roundLog ++ [l.round] }
        cases hp : Lieutenant.roundPhases cr e { l with roundLog := l.roundLog ++ [l.round] } with
        | error x =>
          rw [hp] at h1 h
          simp only [Option.some.injEq] at h
          rw [← h]
          exact ⟨grows_trans h0 h1.1, fun l1 hl1 => absurd hl1 (by simp)⟩
        | ok l3 =>
          rw [hp] at h1 h
          have ih := receiveAndForward_grows cr rs l3.endRound r h
          exact ⟨grows_trans (grows_trans h0 h1)
            (grows_trans (grows_of_values (endRound_values l3)) ih.1), ih.2⟩
    · rename_i hd
      simp only [Option.some.injEq] at h
      rw [← h]
      refine ⟨grows_refl l, fun l1 h1 => ?_⟩
      simp only [Except.ok.injEq] at h1
      rw [← h1]
      exact not_not.1 hd

theorem decide_of_valuesInv (l : Lieutenant) (h : l.valuesInv) :
    l.decide = RETREAT ∨ l.decide = ATTACK := by
  unfold Lieutenant.decide
  split
  · exact Or.inl rfl
  · cases hv : l.values with
    | nil => exact Or.inl rfl
    | cons v vs =>
      show v = RETREAT ∨ v = ATTACK
      exact h v (by rw [hv]; exact List.mem_cons_self _ _)

theorem init_valuesInv (info : GeneralInfo) : (Lieutenant.init info).valuesInv :=
  fun _ h => absurd h (List.not_mem_nil _)

/-- C22. For every signature scheme, configuration and trace: a phase of a
round, and the whole loop of `receiveAndForward` from any lieutenant, keeps
every element of `values` and adds only RETREAT or ATTACK; so in a run from the
constructed lieutenant `values` is a subset of {RETREAT, ATTACK} at the end, at
a return as at a throw. When `Lieutenant::run` returns, the state is `DONE`
and the value returned is `decide()` of the final `values`, which is RETREAT or
ATTACK and not `NO_ORDER`. -/
theorem run_returns_order (cr : Crypto) (info : GeneralInfo) (rounds : List RoundEnv)
    (r : Throws Lieutenant (Nat × Lieutenant))
    (h : Lieutenant.run cr rounds (Lieutenant.init info) = some r) :
    (lastOf r).valuesInv
    ∧ (∀ decision l1, r = .ok (decision, l1) →
        l1.state = DONE ∧ decision = l1.decide ∧ (decision = RETREAT ∨ decision = ATTACK)
          ∧ decision ≠ NO_ORDER)
    ∧ (∀ (l : Lieutenant) (d : Datagram), l.grows (stateOf (l.receiveOne cr d)))
    ∧ (∀ (l : Lieutenant) (e : RoundEnv), l.grows (stateOf (Lieutenant.roundPhases cr e l)))
    ∧ (∀ (l : Lieutenant) (rs : List RoundEnv) (x : Throws Lieutenant Lieutenant),
        Lieutenant.receiveAndForward cr rs l = some x → l.grows (stateOf x)) := by
  have hstep1 : ∀ (l : Lieutenant) (d : Datagram), l.grows (stateOf (l.receiveOne cr d)) := by
    intro l d
    have h1 := receiveOne_grows cr l d
    cases hr : l.receiveOne cr d with
    | error e => rw [hr] at h1; exact h1.1
    | ok l1 => rw [hr] at h1; exact h1
  have hstep2 : ∀ (l : Lieutenant) (e : RoundEnv),
      l.grows (stateOf (Lieutenant.roundPhases cr e l)) := by
    intro l e
    have h1 := roundPhases_grows cr e l
    cases hr : Lieutenant.roundPhases cr e l with
    | error x => rw [hr] at h1; exact h1.1
    | ok l1 => rw [hr] at h1; exact h1
  refine ⟨?_, ?_, hstep1, hstep2, fun l rs x hx => (receiveAndForward_grows cr rs l x hx).1⟩
  · unfold Lieutenant.run at h
    cases hraf : Lieutenant.receiveAndForward cr rounds (Lieutenant.init info) with
    | none => rw [hraf] at h; exact absurd h (by simp)
    | some x =>
      have hg := receiveAndForward_grows cr rounds _ x hraf
      have hinv := grows_valuesInv hg.1 (init_valuesInv info)
      rw [hraf] at h
      cases x with
      | error e =>
        simp only [Option.some.injEq] at h
        rw [← h]
        exact hinv
      | ok l1 =>
        simp only [Option.some.injEq] at h
        rw [← h]
        exact hinv
  · intro decision l1 hr
    unfold Lieutenant.run at h
    cases hraf : Lieutenant.receiveAndForward cr rounds (Lieutenant.init info) with
    | none => rw [hraf] at h; exact absurd h (by simp)
    | some x =>
      have hg := receiveAndForward_grows cr rounds _ x hraf
      have hinv := grows_valuesInv hg.1 (init_valuesInv info)
      rw [hraf] at h
      cases x with
      | error e =>
        simp only [Option.some.injEq] at h
        rw [← h] at hr
        exact absurd hr (by simp)
      | ok l2 =>
        have hd : l2.state = DONE := hg.2 l2 rfl
        simp only [Option.some.injEq] at h
        rw [← h, if_pos hd] at hr
        simp only [Except.ok.injEq, Prod.mk.injEq] at hr
        obtain ⟨hr1, hr2⟩ := hr
        subst hr2
        have hdec := decide_of_valuesInv l2 hinv
        refine ⟨hd, hr1.symm, by rw [← hr1]; exact hdec, ?_⟩
        rw [← hr1]
        rcases hdec with h0 | h0
        · rw [h0]; decide
        · rw [h0]; decide

set_option maxRecDepth 1000000 in
theorem run_returns_order_witness :
    ∃ r, allAckLieutenantRun = some r ∧ (lastOf r).valuesInv
      ∧ ∀ decision l1, r = .ok (decision, l1) →
          l1.state = DONE ∧ decision = l1.decide ∧ (decision = RETREAT ∨ decision = ATTACK)
            ∧ decision ≠ NO_ORDER := by
  obtain ⟨r, hr⟩ := Option.isSome_iff_exists.1
    (show allAckLieutenantRun.isSome = true by decide)
  have h := run_returns_order (demoCrypto 2) (demoInfo 2 1) _ r hr
  exact ⟨r, hr, h.1, h.2.1⟩

end Byzantine
